import Mathlib

/-!
# Micromouse flood-fill navigation core

Shallow embedding of `micromouse-floodfill.cpp`.

* `mazeNodes[16][16]` is a total function `Nat → Nat → Node`; a `Node *` is the
  pair of array indices of the node it points at, `NULL` is `none`.
* `mazeWalls[17][17][2]` is a total function `Nat → Nat → Nat → Bool`
  (third index `0`: vertical flag, the west side of the cell; `1`: horizontal
  flag, the north side of the cell).
* `uint8_t` values are natural numbers; a store into a `uint8_t` object is
  reduced modulo `256`, while comparisons and `+ 1` happen in `int` as in C.
* the `while(curr)` loop of `floodFill` takes a fuel argument and returns
  `none` when the fuel runs out before `curr` becomes `NULL`.
* the calls into the simulator API (`API_turnRight`, ...) are collected in a
  list of `Action`s; the three sensor readings are arguments of `updateWalls`.
-/

namespace Micromouse

/-! ## Constants -/

/-- The C macro MAZE_SIZE. -/
abbrev MAZE_SIZE : Nat := 16
/-- The C constant MAZE_HEIGHT. -/
abbrev MAZE_HEIGHT : Nat := MAZE_SIZE
/-- The C constant MAZE_WIDTH. -/
abbrev MAZE_WIDTH : Nat := MAZE_SIZE

/-- Facing constant NORTH. -/
abbrev NORTH : Nat := 1
/-- Facing constant EAST. -/
abbrev EAST : Nat := 2
/-- Facing constant SOUTH. -/
abbrev SOUTH : Nat := 4
/-- Facing constant WEST. -/
abbrev WEST : Nat := 8

/-! ## Data model -/

/-- Pointer to a node of the maze: the indices of the array slot. -/
abbrev Cell : Type := Nat × Nat

/-- Single node of the maze (C struct Node). -/
structure Node where
  /-- X-coordinate -/
  x : Nat
  /-- Y-coordinate -/
  y : Nat
  /-- Projected distance to goal -/
  dist : Nat
  /-- Next node to flood -/
  next : Option Cell

/-- The array mazeNodes. -/
abbrev Nodes : Type := Nat → Nat → Node

/-- The array mazeWalls (X, Y, V/H). -/
abbrev Walls : Type := Nat → Nat → Nat → Bool

/-- The assignment `p->dist = d` (stored in a uint8_t). -/
def setDist (m : Nodes) (p : Cell) (d : Nat) : Nodes :=
  fun i j => if i = p.1 ∧ j = p.2 then { m i j with dist := d % 256 } else m i j

/-- The assignment `p->next = q`. -/
def setNext (m : Nodes) (p : Cell) (q : Option Cell) : Nodes :=
  fun i j => if i = p.1 ∧ j = p.2 then { m i j with next := q } else m i j

/-- The assignment `mazeWalls[x][y][o] = b`. -/
def setWallFlag (w : Walls) (x y o : Nat) (b : Bool) : Walls :=
  fun i j k => if i = x ∧ j = y ∧ k = o then b else w i j k

/-- Calls into the simulator API, in the order they are issued. -/
inductive Action where
  | turnRight
  | turnLeft
  | moveForward
  | setWall (a b : Nat) (c : Char)
  deriving DecidableEq, Repr

/-- The global variables of the program. -/
structure State where
  mazeNodes : Nodes
  mazeWalls : Walls
  facing : Nat
  xPos : Nat
  yPos : Nat

/-! ## floodFill -/

/-- The three statements that append node `n` to the queue while `curr` is expanded:
`last->next = &n; last = last->next; last->dist = curr->dist + 1;`. -/
def enqueue (m : Nodes) (last curr n : Cell) : Nodes × Cell :=
  let m1 := setNext m last (some n)
  let m2 := setDist m1 n ((m1 curr.1 curr.2).dist + 1)
  (m2, n)

/-- If north side of node is open, add north node to queue. -/
def visitNorth (w : Walls) (curr : Cell) (st : Nodes × Cell) : Nodes × Cell :=
  let c := st.1 curr.1 curr.2
  if c.y ≥ 1 ∧ w c.x c.y 1 = false ∧ (st.1 c.x (c.y - 1)).dist > c.dist + 1 then
    enqueue st.1 st.2 curr (c.x, c.y - 1)
  else st

/-- If east side of node is open, add east node to queue. -/
def visitEast (w : Walls) (curr : Cell) (st : Nodes × Cell) : Nodes × Cell :=
  let c := st.1 curr.1 curr.2
  if c.x + 1 < MAZE_HEIGHT ∧ w (c.x + 1) c.y 0 = false ∧ (st.1 (c.x + 1) c.y).dist > c.dist + 1 then
    enqueue st.1 st.2 curr (c.x + 1, c.y)
  else st

/-- If south side of node is open, add south node to queue. -/
def visitSouth (w : Walls) (curr : Cell) (st : Nodes × Cell) : Nodes × Cell :=
  let c := st.1 curr.1 curr.2
  if c.y + 1 < MAZE_WIDTH ∧ w c.x (c.y + 1) 1 = false ∧ (st.1 c.x (c.y + 1)).dist > c.dist + 1 then
    enqueue st.1 st.2 curr (c.x, c.y + 1)
  else st

/-- If west side of node is open, add west node to queue. -/
def visitWest (w : Walls) (curr : Cell) (st : Nodes × Cell) : Nodes × Cell :=
  let c := st.1 curr.1 curr.2
  if c.x ≥ 1 ∧ w c.x c.y 0 = false ∧ (st.1 (c.x - 1) c.y).dist > c.dist + 1 then
    enqueue st.1 st.2 curr (c.x - 1, c.y)
  else st

/-- One pass through the body of the while loop of floodFill, up to but not
including `curr = curr->next`. -/
def floodStep (w : Walls) (curr : Cell) (st : Nodes × Cell) : Nodes × Cell :=
  visitWest w curr (visitSouth w curr (visitEast w curr (visitNorth w curr st)))

/-- The loop `while(curr) { ...; curr = curr->next; }` of floodFill. The result
is `none` when the fuel is used up while `curr` is not `NULL`. -/
def floodLoop (w : Walls) : Nat → Nodes → Option Cell → Cell → Option Nodes
  | _, m, none, _ => some m
  | 0, _, some _, _ => none
  | fuel + 1, m, some c, last =>
    let st := floodStep w c (m, last)
    floodLoop w fuel st.1 (st.1 c.1 c.2).next st.2

/-- The statements of floodFill that put the four goal nodes in the queue. The
result is the node array together with the pointers `curr` and `last`. -/
def seedGoals (m : Nodes) : Nodes × Cell × Cell :=
  let curr : Cell := (MAZE_WIDTH / 2, MAZE_HEIGHT / 2)
  let last : Cell := (MAZE_WIDTH / 2, MAZE_HEIGHT / 2)
  let m := setDist m (MAZE_WIDTH / 2, MAZE_HEIGHT / 2) 0
  let m := setNext m last (some (MAZE_WIDTH / 2 - 1, MAZE_HEIGHT / 2))
  let last : Cell := (MAZE_WIDTH / 2 - 1, MAZE_HEIGHT / 2)
  let m := setDist m (MAZE_WIDTH / 2 - 1, MAZE_HEIGHT / 2) 0
  let m := setNext m last (some (MAZE_WIDTH / 2, MAZE_HEIGHT / 2 - 1))
  let last : Cell := (MAZE_WIDTH / 2, MAZE_HEIGHT / 2 - 1)
  let m := setDist m (MAZE_WIDTH / 2, MAZE_HEIGHT / 2 - 1) 0
  let m := setNext m last (some (MAZE_WIDTH / 2 - 1, MAZE_HEIGHT / 2 - 1))
  let last : Cell := (MAZE_WIDTH / 2 - 1, MAZE_HEIGHT / 2 - 1)
  let m := setDist m (MAZE_WIDTH / 2 - 1, MAZE_HEIGHT / 2 - 1) 0
  (m, curr, last)

/-- The function floodFill. -/
def floodFill (fuel : Nat) (w : Walls) (m : Nodes) : Option Nodes :=
  let s := seedGoals m
  floodLoop w fuel s.1 (some s.2.1) s.2.2

/-- The two nested for loops of setupMaze: every node of the grid gets its
coordinates, distance 100 and a NULL link. -/
def setupNodes (m : Nodes) : Nodes :=
  fun x y =>
    if x < MAZE_WIDTH ∧ y < MAZE_HEIGHT then
      { x := x % 256, y := y % 256, dist := 100 % 256, next := none }
    else m x y

/-- The two nested for loops of recalcMaze: every node of the grid gets
distance 100 and a NULL link. -/
def resetNodes (m : Nodes) : Nodes :=
  fun x y =>
    if x < MAZE_WIDTH ∧ y < MAZE_HEIGHT then
      { m x y with dist := 100 % 256, next := none }
    else m x y

/-- Set up maze by assigning starting distances for each node. -/
def setupMaze (fuel : Nat) (w : Walls) (m : Nodes) : Option Nodes :=
  floodFill fuel w (setupNodes m)

/-- Recalculate maze distances for each node. -/
def recalcMaze (fuel : Nat) (w : Walls) (m : Nodes) : Option Nodes :=
  floodFill fuel w (resetNodes m)

/-! ## updateWalls -/

/-- The calls `if(b) API_setWall(yPos, xPos, c)`. -/
def markWall (b : Bool) (s : State) (c : Char) : List Action :=
  if b then [Action.setWall s.yPos s.xPos c] else []

/-- Update walls from sensor readings; the readings of API_wallLeft,
API_wallFront and API_wallRight are the three Boolean arguments. -/
def updateWalls (s : State) (wallLeft wallFront wallRight : Bool) : State × List Action :=
  if s.facing = NORTH then
    let w := setWallFlag s.mazeWalls s.xPos s.yPos 0 wallLeft
    let w := setWallFlag w s.xPos s.yPos 1 wallFront
    let w := setWallFlag w (s.xPos + 1) s.yPos 0 wallRight
    ({ s with mazeWalls := w },
      markWall wallLeft s 's' ++ markWall wallFront s 'w' ++ markWall wallRight s 'n')
  else if s.facing = EAST then
    let w := setWallFlag s.mazeWalls s.xPos s.yPos 1 wallLeft
    let w := setWallFlag w (s.xPos + 1) s.yPos 0 wallFront
    let w := setWallFlag w s.xPos (s.yPos + 1) 1 wallRight
    ({ s with mazeWalls := w },
      markWall wallLeft s 'w' ++ markWall wallFront s 'n' ++ markWall wallRight s 'e')
  else if s.facing = SOUTH then
    let w := setWallFlag s.mazeWalls (s.xPos + 1) s.yPos 0 wallLeft
    let w := setWallFlag w s.xPos (s.yPos + 1) 1 wallFront
    let w := setWallFlag w s.xPos s.yPos 0 wallRight
    ({ s with mazeWalls := w },
      markWall wallLeft s 'n' ++ markWall wallFront s 'e' ++ markWall wallRight s 's')
  else if s.facing = WEST then
    let w := setWallFlag s.mazeWalls s.xPos (s.yPos + 1) 1 wallLeft
    let w := setWallFlag w s.xPos s.yPos 0 wallFront
    let w := setWallFlag w s.xPos s.yPos 1 wallRight
    ({ s with mazeWalls := w },
      markWall wallLeft s 'e' ++ markWall wallFront s 's' ++ markWall wallRight s 'w')
  else (s, [])

/-! ## rotate and rotateMove -/

/-- Rotates to a particular facing: the turns issued for the current facing
and the target direction. -/
def rotate (facing dir : Nat) : List Action :=
  if (facing = NORTH ∧ dir = EAST) ∨ (facing = EAST ∧ dir = SOUTH) ∨
     (facing = SOUTH ∧ dir = WEST) ∨ (facing = WEST ∧ dir = NORTH) then
    [Action.turnRight]
  else if (facing = NORTH ∧ dir = SOUTH) ∨ (facing = EAST ∧ dir = WEST) ∨
     (facing = SOUTH ∧ dir = NORTH) ∨ (facing = WEST ∧ dir = EAST) then
    [Action.turnRight, Action.turnRight]
  else if (facing = NORTH ∧ dir = WEST) ∨ (facing = EAST ∧ dir = NORTH) ∨
     (facing = SOUTH ∧ dir = EAST) ∨ (facing = WEST ∧ dir = SOUTH) then
    [Action.turnLeft]
  else []

/-- Determines direction to move, rotates to that direction, and moves forward
(recalculates projected distances if no reasonable move found). The result is
the returned Boolean, the new globals and the API calls issued; it is `none`
when recalcMaze runs out of fuel. -/
def rotateMove (fuel : Nat) (s : State) : Option (Bool × State × List Action) :=
  let dist := (s.mazeNodes s.xPos s.yPos).dist
  if s.mazeWalls s.xPos (s.yPos + 1) 1 = false ∧ s.yPos + 1 < MAZE_HEIGHT ∧
      (s.mazeNodes s.xPos (s.yPos + 1)).dist < dist then
    some (true, { s with facing := SOUTH, yPos := (s.yPos + 1) % 256 },
      rotate s.facing SOUTH ++ [Action.moveForward])
  else if s.mazeWalls (s.xPos + 1) s.yPos 0 = false ∧ s.xPos + 1 < MAZE_WIDTH ∧
      (s.mazeNodes (s.xPos + 1) s.yPos).dist < dist then
    some (true, { s with facing := EAST, xPos := (s.xPos + 1) % 256 },
      rotate s.facing EAST ++ [Action.moveForward])
  else if s.mazeWalls s.xPos s.yPos 0 = false ∧ (s.mazeNodes s.xPos s.yPos).x ≥ 1 ∧
      (s.mazeNodes (s.xPos - 1) s.yPos).dist < dist then
    some (true, { s with facing := WEST, xPos := (s.xPos + 256 - 1) % 256 },
      rotate s.facing WEST ++ [Action.moveForward])
  else if s.mazeWalls s.xPos s.yPos 1 = false ∧ (s.mazeNodes s.xPos s.yPos).y ≥ 1 ∧
      (s.mazeNodes s.xPos (s.yPos - 1)).dist < dist then
    some (true, { s with facing := NORTH, yPos := (s.yPos + 256 - 1) % 256 },
      rotate s.facing NORTH ++ [Action.moveForward])
  else
    (recalcMaze fuel s.mazeWalls s.mazeNodes).map
      (fun r => (false, { s with mazeNodes := r }, []))

/-! ## setup and loop -/

/-- The globals before setup runs: zero-initialised arrays, facing EAST at (0,0). -/
def initState : State :=
  { mazeNodes := fun _ _ => { x := 0, y := 0, dist := 0, next := none }
    mazeWalls := fun _ _ _ => false
    facing := EAST
    xPos := 0
    yPos := 0 }

/-- The function setup. -/
def setup (fuel : Nat) (s : State) : Option State :=
  (setupMaze fuel s.mazeWalls s.mazeNodes).map (fun r => { s with mazeNodes := r })

/-- The function loop: updateWalls followed by rotateMove (whose result is
dropped); the outcome is the new globals and the API calls issued. -/
def loop (fuel : Nat) (s : State) (wallLeft wallFront wallRight : Bool) :
    Option (State × List Action) :=
  let u := updateWalls s wallLeft wallFront wallRight
  (rotateMove fuel u.1).map (fun r => (r.2.1, u.2 ++ r.2.2))

/-! ## Specification vocabulary -/

/-- The cell lies in the 16x16 grid. -/
def inGrid (c : Cell) : Prop := c.1 < MAZE_WIDTH ∧ c.2 < MAZE_HEIGHT

instance (c : Cell) : Decidable (inGrid c) := by unfold inGrid; infer_instance

/-- The four goal cells (7,7), (8,7), (7,8), (8,8). -/
def isGoal (c : Cell) : Prop := (c.1 = 7 ∨ c.1 = 8) ∧ (c.2 = 7 ∨ c.2 = 8)

instance (c : Cell) : Decidable (isGoal c) := by unfold isGoal; infer_instance

/-- Every node of the grid stores its own array indices in its fields x and y,
as setupMaze leaves them. -/
def CoordsOK (m : Nodes) : Prop :=
  ∀ x, x < MAZE_WIDTH → ∀ y, y < MAZE_HEIGHT → (m x y).x = x ∧ (m x y).y = y

/-- Cell `b` is the in-grid neighbour of the in-grid cell `a` to the north, east,
south or west, and no wall is recorded on the boundary between them. -/
def Adj (w : Walls) (a b : Cell) : Prop :=
  inGrid a ∧ inGrid b ∧
  ((1 ≤ a.2 ∧ w a.1 a.2 1 = false ∧ b = (a.1, a.2 - 1)) ∨
   (w (a.1 + 1) a.2 0 = false ∧ b = (a.1 + 1, a.2)) ∨
   (w a.1 (a.2 + 1) 1 = false ∧ b = (a.1, a.2 + 1)) ∨
   (1 ≤ a.1 ∧ w a.1 a.2 0 = false ∧ b = (a.1 - 1, a.2)))

instance (w : Walls) (a b : Cell) : Decidable (Adj w a b) := by unfold Adj; infer_instance

/-- Cell (x,y) is joined to some goal cell by a chain of exactly `k` in-grid,
wall-free boundaries. -/
def reachIn (w : Walls) : Nat → Nat → Nat → Bool
  | 0, x, y => decide (isGoal (x, y))
  | k + 1, x, y =>
    decide (inGrid (x, y)) &&
    ((decide (1 ≤ y) && !w x y 1 && reachIn w k x (y - 1)) ||
     (decide (x + 1 < MAZE_WIDTH) && !w (x + 1) y 0 && reachIn w k (x + 1) y) ||
     (decide (y + 1 < MAZE_HEIGHT) && !w x (y + 1) 1 && reachIn w k x (y + 1)) ||
     (decide (1 ≤ x) && !w x y 0 && reachIn w k (x - 1) y))

/-- Cell (x,y) is connected to one of the goal cells through in-grid, wall-free
boundaries. -/
def Connected (w : Walls) (x y : Nat) : Prop := ∃ k, reachIn w k x y = true

/-- The number `d` is the true shortest hop count from (x,y) to the nearest goal
cell under the wall store `w`. -/
def IsShortest (w : Walls) (x y d : Nat) : Prop :=
  reachIn w d x y = true ∧ ∀ k, k < d → reachIn w k x y = false

/-- The distance field of `m` is the flood-fill field of the wall store `w`:
every distance is at most 100, a distance below 100 is realised by a chain of
that many open boundaries to a goal cell, and no chain to a goal cell is
shorter than the stored distance. -/
def IsFloodField (w : Walls) (m : Nodes) : Prop :=
  ∀ x, x < MAZE_WIDTH → ∀ y, y < MAZE_HEIGHT →
    (m x y).dist ≤ 100 ∧
    ((m x y).dist < 100 → reachIn w (m x y).dist x y = true) ∧
    ∀ k, reachIn w k x y = true → (m x y).dist ≤ k

/-! ## Invariants of the flood-fill loop -/

/-- From `m` to `n` no distance grows and no distance below the sentinel changes. -/
def Mono (m n : Nodes) : Prop :=
  ∀ x y, (n x y).dist ≤ (m x y).dist ∧ ((m x y).dist < 100 → (n x y).dist = (m x y).dist)

/-- The nodes of the grid are as the reset loops leave them: coordinates in
place, distance 100, link NULL. -/
def FreshNodes (m : Nodes) : Prop :=
  CoordsOK m ∧ ∀ x, x < MAZE_WIDTH → ∀ y, y < MAZE_HEIGHT →
    (m x y).dist = 100 ∧ (m x y).next = none

/-- Invariant of the intrusive queue. `L` lists, newest first, the nodes that
were given a distance so far; `last` is the newest one. -/
structure ListInv (w : Walls) (m : Nodes) (L : List Cell) (last : Cell) : Prop where
  coords : CoordsOK m
  grid : ∀ a ∈ L, inGrid a
  nodup : L.Nodup
  chain : List.Chain' (fun b a => (m a.1 a.2).next = some b) L
  lastHead : L.head? = some last
  lastNext : (m last.1 last.2).next = none
  fresh : ∀ a, inGrid a → a ∉ L → (m a.1 a.2).dist = 100 ∧ (m a.1 a.2).next = none
  sound : ∀ a ∈ L, (m a.1 a.2).dist < 100 ∧ reachIn w (m a.1 a.2).dist a.1 a.2 = true
  sorted : List.Pairwise (fun b a => (m a.1 a.2).dist ≤ (m b.1 b.2).dist) L
  goals : ∀ a, isGoal a → a ∈ L ∧ (m a.1 a.2).dist = 0

/-- Invariant while node `c` is expanded: `F` are the nodes queued behind `c`
(newest first), `Pr` the nodes already expanded. -/
structure BodyInv (w : Walls) (m : Nodes) (F : List Cell) (c : Cell) (Pr : List Cell)
    (last : Cell) : Prop where
  inv : ListInv w m (F ++ c :: Pr) last
  span : ∀ q ∈ F, (m q.1 q.2).dist ≤ (m c.1 c.2).dist + 1

/-- Every neighbour of every node of `L` across an open boundary is at most one
step farther from the goal than the node. -/
def AllDone (w : Walls) (m : Nodes) (L : List Cell) : Prop :=
  ∀ p ∈ L, ∀ n, Adj w p n → (m n.1 n.2).dist ≤ (m p.1 p.2).dist + 1

/-! ## Concrete configurations -/

/-- The wall store with no wall recorded. -/
def noWalls : Walls := fun _ _ _ => false

/-- The node array after the two loops of setupMaze ran on the zero-initialised
globals. -/
def gridNodes : Nodes := setupNodes initState.mazeNodes

/-- A wall store that turns the grid into one corridor: every boundary between
two rows is walled except at the east end below an even row and at the west end
below an odd row; no boundary between two columns is walled. -/
def snakeWalls : Walls := fun x y o =>
  if o = 0 then false
  else if (x = 15 ∧ y % 2 = 1) ∨ (x = 0 ∧ y % 2 = 0) then false
  else true

/-- Position of cell (x,y) along the corridor of `snakeWalls`. -/
def snakeIndex (x y : Nat) : Nat := 16 * y + (if y % 2 = 0 then x else 15 - x)

/-- Hop count from (x,y) to the nearest goal cell along the corridor of
`snakeWalls`; the goal cells sit at positions 119, 120, 135 and 136. -/
def snakeDist (x y : Nat) : Nat :=
  if snakeIndex x y ≤ 119 then 119 - snakeIndex x y
  else if snakeIndex x y ≤ 127 then snakeIndex x y - 120
  else if snakeIndex x y ≤ 135 then 135 - snakeIndex x y
  else snakeIndex x y - 136

/-- All eight boundaries between the 2x2 goal block and the rest of the grid are
walled. -/
def goalSealed (w : Walls) : Prop :=
  w 7 7 1 = true ∧ w 8 7 1 = true ∧ w 7 9 1 = true ∧ w 8 9 1 = true ∧
  w 7 7 0 = true ∧ w 7 8 0 = true ∧ w 9 7 0 = true ∧ w 9 8 0 = true

/-- The wall store whose only walls are the eight boundaries around the goal block. -/
def sealedWalls : Walls := fun x y o =>
  decide ((o = 1 ∧ (x = 7 ∨ x = 8) ∧ (y = 7 ∨ y = 9)) ∨
    (o = 0 ∧ (x = 7 ∨ x = 9) ∧ (y = 7 ∨ y = 8)))

/-- Local check of the descent certificate at cell (x,y): value 0 only on a goal
cell, and a nonzero value has a neighbour across an open boundary whose value is
one less. -/
def descentAt (w : Walls) (f : Nat → Nat → Nat) (x y : Nat) : Bool :=
  if f x y = 0 then decide (isGoal (x, y))
  else
    (decide (1 ≤ y) && !w x y 1 && decide (f x (y - 1) + 1 = f x y)) ||
    (decide (x + 1 < 16) && !w (x + 1) y 0 && decide (f (x + 1) y + 1 = f x y)) ||
    (decide (y + 1 < 16) && !w x (y + 1) 1 && decide (f x (y + 1) + 1 = f x y)) ||
    (decide (1 ≤ x) && !w x y 0 && decide (f (x - 1) y + 1 = f x y))

/-- Every cell of the grid passes the local descent check. -/
def DescentCert (w : Walls) (f : Nat → Nat → Nat) : Prop :=
  ∀ x, x < 16 → ∀ y, y < 16 → descentAt w f x y = true

instance (w : Walls) (f : Nat → Nat → Nat) : Decidable (DescentCert w f) := by
  unfold DescentCert; infer_instance

/-- Local check of the Lipschitz certificate at cell (x,y): value 0 on a goal
cell, and the values across the open east and south boundaries differ by at most
one. -/
def lipschitzAt (w : Walls) (f : Nat → Nat → Nat) (x y : Nat) : Bool :=
  (!decide (isGoal (x, y)) || decide (f x y = 0)) &&
  (!decide (x + 1 < 16) || w (x + 1) y 0 ||
    (decide (f x y ≤ f (x + 1) y + 1) && decide (f (x + 1) y ≤ f x y + 1))) &&
  (!decide (y + 1 < 16) || w x (y + 1) 1 ||
    (decide (f x y ≤ f x (y + 1) + 1) && decide (f x (y + 1) ≤ f x y + 1)))

/-- Every cell of the grid passes the local Lipschitz check. -/
def LipschitzCert (w : Walls) (f : Nat → Nat → Nat) : Prop :=
  ∀ x, x < 16 → ∀ y, y < 16 → lipschitzAt w f x y = true

instance (w : Walls) (f : Nat → Nat → Nat) : Decidable (LipschitzCert w f) := by
  unfold LipschitzCert; infer_instance

/-! ## Vocabulary for the perception adapter and the navigation controller -/

/-- The value is one of the four facing constants. -/
def validFacing (d : Nat) : Prop := d = NORTH ∨ d = EAST ∨ d = SOUTH ∨ d = WEST

instance (d : Nat) : Decidable (validFacing d) := by unfold validFacing; infer_instance

/-- Indices in mazeWalls of the boundary of cell (x,y) toward direction `d`:
north `[x][y][1]`, east `[x+1][y][0]`, south `[x][y+1][1]`, west `[x][y][0]`. -/
def boundaryFlag (d x y : Nat) : Nat × Nat × Nat :=
  if d = NORTH then (x, y, 1)
  else if d = EAST then (x + 1, y, 0)
  else if d = SOUTH then (x, y + 1, 1)
  else (x, y, 0)

/-- The wall flag stored at a triple of indices. -/
def wallAt (w : Walls) (p : Nat × Nat × Nat) : Bool := w p.1 p.2.1 p.2.2

/-- The absolute direction to the left of a facing (N: W, E: N, S: E, W: S). -/
def leftOf (f : Nat) : Nat :=
  if f = NORTH then WEST else if f = EAST then NORTH else if f = SOUTH then EAST else SOUTH

/-- The absolute direction to the right of a facing (N: E, E: S, S: W, W: N). -/
def rightOf (f : Nat) : Nat :=
  if f = NORTH then EAST else if f = EAST then SOUTH else if f = SOUTH then WEST else NORTH

/-- The neighbour of cell (x,y) in direction `d` lies inside the 16x16 grid. -/
def hasNeighbour (d x y : Nat) : Prop :=
  if d = NORTH then 1 ≤ y
  else if d = EAST then x + 1 < 16
  else if d = SOUTH then y + 1 < 16
  else 1 ≤ x

instance (d x y : Nat) : Decidable (hasNeighbour d x y) := by
  unfold hasNeighbour; infer_instance

/-- The neighbour of cell (x,y) in direction `d`: north y-1, east x+1, south y+1,
west x-1. -/
def neighbour (d x y : Nat) : Cell :=
  if d = NORTH then (x, y - 1)
  else if d = EAST then (x + 1, y)
  else if d = SOUTH then (x, y + 1)
  else (x - 1, y)

/-- Direction `d` is eligible at the robot's cell: no wall is recorded on the
boundary in that direction, the neighbour in that direction is inside the grid,
and its distance is strictly less than the distance of the robot's cell. -/
def eligible (s : State) (d : Nat) : Prop :=
  wallAt s.mazeWalls (boundaryFlag d s.xPos s.yPos) = false ∧
  hasNeighbour d s.xPos s.yPos ∧
  (s.mazeNodes (neighbour d s.xPos s.yPos).1 (neighbour d s.xPos s.yPos).2).dist <
    (s.mazeNodes s.xPos s.yPos).dist

instance (s : State) (d : Nat) : Decidable (eligible s d) := by
  unfold eligible; infer_instance

/-- The globals after a move of one cell in direction `d`. -/
def moved (s : State) (d : Nat) : State :=
  { s with facing := d
           xPos := (neighbour d s.xPos s.yPos).1
           yPos := (neighbour d s.xPos s.yPos).2 }

/-- The globals after the first sensing at the start cell with a wall reported
on the left only (Scenario C). -/
def northWallState : State := (updateWalls initState true false false).1

/-- The iterations of `while(true) loop();`, one for each triple of sensor
readings (left, front, right). -/
def runLoop (fuel : Nat) : State → List (Bool × Bool × Bool) → Option State
  | s, [] => some s
  | s, r :: rs => (loop fuel s r.1 r.2.1 r.2.2).bind (fun t => runLoop fuel t.1 rs)

/-- The distance field of the state equals the flood-fill recomputation
(recalcMaze) of its wall store. -/
def FieldIsRecalc (fuel : Nat) (s : State) : Prop :=
  ∃ r, recalcMaze fuel s.mazeWalls s.mazeNodes = some r ∧
    ∀ x, x < 16 → ∀ y, y < 16 → (s.mazeNodes x y).dist = (r x y).dist

/-- Manhattan distance from (x,y) to the nearest goal cell. -/
def manhattan (x y : Nat) : Nat := max (7 - x) (x - 8) + max (7 - y) (y - 8)

/-- A node array with coordinates in place and the Manhattan distances. -/
def manhattanNodes : Nodes := fun x y => { x := x, y := y, dist := manhattan x y, next := none }

/-- The start state with the distance field of the empty maze. -/
def descentState : State := { initState with mazeNodes := manhattanNodes }

/-- Scenario D: the robot stands at (7,0) with the distances of the empty maze;
walls are recorded to the east and to the south, north is the edge of the grid,
and the only open neighbour, (6,0) to the west, is farther from the goal. -/
def stuckState : State :=
  { mazeNodes := manhattanNodes
    mazeWalls := fun x y o => decide ((x = 8 ∧ y = 0 ∧ o = 0) ∨ (x = 7 ∧ y = 1 ∧ o = 1))
    facing := EAST
    xPos := 7
    yPos := 0 }

/-! ## Following a run of the control loop -/

/-- The globals with the node array replaced. -/
def withNodes (s : State) (r : Nodes) : State := { s with mazeNodes := r }

/-- The first eligible direction in the order south, east, west, north. -/
def firstEligible (s : State) : Option Nat :=
  if eligible s SOUTH then some SOUTH
  else if eligible s EAST then some EAST
  else if eligible s WEST then some WEST
  else if eligible s NORTH then some NORTH
  else none

/-- The globals after a list of loop iterations that all move: each entry gives
the three sensor readings of the iteration and the direction of its move. -/
def follow (s : State) : List ((Bool × Bool × Bool) × Nat) → State
  | [] => s
  | p :: ps => follow (moved (updateWalls s p.1.1 p.1.2.1 p.1.2.2).1 p.2) ps

/-- In every iteration of the list the robot is inside the grid after sensing and
the listed direction is the first eligible one. -/
def planOK (s : State) : List ((Bool × Bool × Bool) × Nat) → Bool
  | [] => true
  | p :: ps =>
    decide ((updateWalls s p.1.1 p.1.2.1 p.1.2.2).1.xPos < 16 ∧
      (updateWalls s p.1.1 p.1.2.1 p.1.2.2).1.yPos < 16 ∧
      firstEligible (updateWalls s p.1.1 p.1.2.1 p.1.2.2).1 = some p.2) &&
    planOK (moved (updateWalls s p.1.1 p.1.2.1 p.1.2.2).1 p.2) ps

/-- Nine iterations from the start: a wall is sensed to the right (south) at
(0,0), so the robot moves east; it then moves south seven times sensing no
wall; at (1,7), facing south, it senses a wall to the right (west) and moves
east. -/
def cxPlan : List ((Bool × Bool × Bool) × Nat) :=
  [((false, false, true), EAST), ((false, false, false), SOUTH),
   ((false, false, false), SOUTH), ((false, false, false), SOUTH),
   ((false, false, false), SOUTH), ((false, false, false), SOUTH),
   ((false, false, false), SOUTH), ((false, false, false), SOUTH),
   ((false, false, true), EAST)]

/-- The sensor readings of the nine iterations of `cxPlan`. -/
def cxReadings : List (Bool × Bool × Bool) :=
  [(false, false, true), (false, false, false), (false, false, false),
   (false, false, false), (false, false, false), (false, false, false),
   (false, false, false), (false, false, false), (false, false, true)]

/-- The wall store after the nine iterations of `cxPlan`. -/
def cxWalls : Walls := (follow descentState cxPlan).mazeWalls

/-- The Manhattan distance, except that cell (0,7) is one step farther. -/
def bumpedManhattan (x y : Nat) : Nat := if x = 0 ∧ y = 7 then 8 else manhattan x y

/-- The globals after setup (the start state when setup runs out of fuel). -/
def startState (fuel : Nat) : State := (setup fuel initState).getD initState

/-! ## Vocabulary for turning -/

/-- The facing after a list of API calls: turnRight is one clockwise step
(N, E, S, W, N), turnLeft one counter-clockwise step, other calls do not turn. -/
def applyTurns (f : Nat) : List Action → Nat
  | [] => f
  | Action.turnRight :: as => applyTurns (rightOf f) as
  | Action.turnLeft :: as => applyTurns (leftOf f) as
  | _ :: as => applyTurns f as

/-- The turns and moves among a list of API calls (the API_setWall calls are
dropped). -/
def motions (acts : List Action) : List Action :=
  acts.filter (fun a => match a with
    | Action.setWall _ _ _ => false
    | _ => true)

/-! ## Reachable states of the robot -/

/-- A call the program makes on its globals: updateWalls with three sensor
readings, or rotateMove. -/
inductive Cmd where
  | sense (wallLeft wallFront wallRight : Bool)
  | move

/-- The globals after a sequence of updateWalls and rotateMove calls. -/
def runCmds (fuel : Nat) : State → List Cmd → Option State
  | s, [] => some s
  | s, Cmd.sense a b c :: cs => runCmds fuel (updateWalls s a b c).1 cs
  | s, Cmd.move :: cs => (rotateMove fuel s).bind (fun r => runCmds fuel r.2.1 cs)

/-- Invariant of the globals: the nodes carry their coordinates, the robot is
inside the grid, the facing is one of the four constants, and the goal cells
have distance 0. -/
def RobotInv (s : State) : Prop :=
  CoordsOK s.mazeNodes ∧ s.xPos < 16 ∧ s.yPos < 16 ∧ validFacing s.facing ∧
  ∀ c : Cell, isGoal c → (s.mazeNodes c.1 c.2).dist = 0

/-- Fourteen iterations from the start with no wall sensed: seven moves south,
then seven moves east, ending on the goal cell (7,7). -/
def goalPlan : List ((Bool × Bool × Bool) × Nat) :=
  List.replicate 7 ((false, false, false), SOUTH) ++
    List.replicate 7 ((false, false, false), EAST)

/-! ## The program's array accesses and queue operations as a log -/

/-- What the program does with its arrays, in the order it happens. -/
inductive Event where
  /-- an indexing `mazeNodes[i][j]` -/
  | node (i j : Int)
  /-- an indexing `mazeWalls[i][j][k]` -/
  | wall (i j k : Int)
  /-- node `c` is put in the queue and `v` is the value written to its `dist`
  (for an append in the loop the value of `curr->dist + 1` as an `int`) -/
  | assign (c : Cell) (v : Nat)
  /-- one pass through the body of the while loop of floodFill with `curr` at `c` -/
  | visit (c : Cell)

/-- The event is an access inside the arrays `mazeNodes[16][16]` and
`mazeWalls[17][17][2]`, or a queue operation on a node of the grid. -/
def InBounds : Event → Prop
  | Event.node i j => 0 ≤ i ∧ i < 16 ∧ 0 ≤ j ∧ j < 16
  | Event.wall i j k => 0 ≤ i ∧ i ≤ 16 ∧ 0 ≤ j ∧ j ≤ 16 ∧ 0 ≤ k ∧ k ≤ 1
  | Event.assign c _ => inGrid c
  | Event.visit c => inGrid c

/-- The node and the value of an assignment event. -/
def asAssign : Event → Option (Cell × Nat)
  | Event.assign c v => some (c, v)
  | _ => none

/-- The nodes put in the queue with the values written to them, in order. -/
def assignments (ev : List Event) : List (Cell × Nat) := ev.filterMap asAssign

/-- The node of a visit event. -/
def asVisit : Event → Option Cell
  | Event.visit c => some c
  | _ => none

/-- The nodes expanded by the while loop, in order. -/
def visited (ev : List Event) : List Cell := ev.filterMap asVisit

/-- Events of the statements of floodFill that put the four goal nodes in the
queue: for each goal node the two or three indexings that take its address and
the indexing that writes its distance 0. -/
def seedEvents : List Event :=
  [Event.node 8 8, Event.node 8 8, Event.node 8 8, Event.assign (8, 8) 0,
   Event.node 7 8, Event.node 7 8, Event.node 7 8, Event.assign (7, 8) 0,
   Event.node 8 7, Event.node 8 7, Event.node 8 7, Event.assign (8, 7) 0,
   Event.node 7 7, Event.node 7 7, Event.node 7 7, Event.assign (7, 7) 0]

/-- Events of the north test of the loop body: the wall flag is indexed once the
bounds check passed, the neighbour node once the flag was found clear, and the
neighbour is indexed again and appended when it is farther than one step. -/
def visitNorthEvents (w : Walls) (curr : Cell) (st : Nodes × Cell) : List Event :=
  let c := st.1 curr.1 curr.2
  if c.y ≥ 1 then
    Event.wall c.x c.y 1 ::
      (if w c.x c.y 1 = false then
        Event.node c.x ((c.y : Int) - 1) ::
          (if (st.1 c.x (c.y - 1)).dist > c.dist + 1 then
            [Event.node c.x ((c.y : Int) - 1), Event.assign (c.x, c.y - 1) (c.dist + 1)]
          else [])
      else [])
  else []

/-- Events of the east test of the loop body. -/
def visitEastEvents (w : Walls) (curr : Cell) (st : Nodes × Cell) : List Event :=
  let c := st.1 curr.1 curr.2
  if c.x + 1 < MAZE_HEIGHT then
    Event.wall ((c.x : Int) + 1) c.y 0 ::
      (if w (c.x + 1) c.y 0 = false then
        Event.node ((c.x : Int) + 1) c.y ::
          (if (st.1 (c.x + 1) c.y).dist > c.dist + 1 then
            [Event.node ((c.x : Int) + 1) c.y, Event.assign (c.x + 1, c.y) (c.dist + 1)]
          else [])
      else [])
  else []

/-- Events of the south test of the loop body. -/
def visitSouthEvents (w : Walls) (curr : Cell) (st : Nodes × Cell) : List Event :=
  let c := st.1 curr.1 curr.2
  if c.y + 1 < MAZE_WIDTH then
    Event.wall c.x ((c.y : Int) + 1) 1 ::
      (if w c.x (c.y + 1) 1 = false then
        Event.node c.x ((c.y : Int) + 1) ::
          (if (st.1 c.x (c.y + 1)).dist > c.dist + 1 then
            [Event.node c.x ((c.y : Int) + 1), Event.assign (c.x, c.y + 1) (c.dist + 1)]
          else [])
      else [])
  else []

/-- Events of the west test of the loop body. -/
def visitWestEvents (w : Walls) (curr : Cell) (st : Nodes × Cell) : List Event :=
  let c := st.1 curr.1 curr.2
  if c.x ≥ 1 then
    Event.wall c.x c.y 0 ::
      (if w c.x c.y 0 = false then
        Event.node ((c.x : Int) - 1) c.y ::
          (if (st.1 (c.x - 1) c.y).dist > c.dist + 1 then
            [Event.node ((c.x : Int) - 1) c.y, Event.assign (c.x - 1, c.y) (c.dist + 1)]
          else [])
      else [])
  else []

/-- Events of one pass through the body of the while loop of floodFill. -/
def floodStepEvents (w : Walls) (curr : Cell) (st : Nodes × Cell) : List Event :=
  visitNorthEvents w curr st ++
  visitEastEvents w curr (visitNorth w curr st) ++
  visitSouthEvents w curr (visitEast w curr (visitNorth w curr st)) ++
  visitWestEvents w curr (visitSouth w curr (visitEast w curr (visitNorth w curr st)))

/-- The while loop of floodFill together with the log of its events. -/
def floodLoopLog (w : Walls) : Nat → Nodes → Option Cell → Cell → Option (Nodes × List Event)
  | _, m, none, _ => some (m, [])
  | 0, _, some _, _ => none
  | fuel + 1, m, some c, last =>
    let ev := Event.visit c :: floodStepEvents w c (m, last)
    let st := floodStep w c (m, last)
    (floodLoopLog w fuel st.1 (st.1 c.1 c.2).next st.2).map (fun p => (p.1, ev ++ p.2))

/-- The function floodFill together with the log of its events. -/
def floodFillLog (fuel : Nat) (w : Walls) (m : Nodes) : Option (Nodes × List Event) :=
  let s := seedGoals m
  (floodLoopLog w fuel s.1 (some s.2.1) s.2.2).map (fun p => (p.1, seedEvents ++ p.2))

/-- Events of the two nested for loops of recalcMaze: two indexings of every
node of the grid. -/
def resetEvents : List Event :=
  (List.range 16).flatMap (fun x => (List.range 16).flatMap (fun y =>
    [Event.node x y, Event.node x y]))

/-- Events of the two nested for loops of setupMaze: four indexings of every
node of the grid. -/
def setupEvents : List Event :=
  (List.range 16).flatMap (fun x => (List.range 16).flatMap (fun y =>
    [Event.node x y, Event.node x y, Event.node x y, Event.node x y]))

/-- The function recalcMaze together with the log of its events. -/
def recalcMazeLog (fuel : Nat) (w : Walls) (m : Nodes) : Option (Nodes × List Event) :=
  (floodFillLog fuel w (resetNodes m)).map (fun p => (p.1, resetEvents ++ p.2))

/-- The function setupMaze together with the log of its events. -/
def setupMazeLog (fuel : Nat) (w : Walls) (m : Nodes) : Option (Nodes × List Event) :=
  (floodFillLog fuel w (setupNodes m)).map (fun p => (p.1, setupEvents ++ p.2))

/-- No node outside the grid changes from `m` to `n`, and no node changes its
coordinate fields. -/
def Frame (m n : Nodes) : Prop :=
  ∀ x y, ((n x y).x = (m x y).x ∧ (n x y).y = (m x y).y) ∧
    (¬ (x < 16 ∧ y < 16) → n x y = m x y)

/-- Every event of the log is in bounds, and every logged assignment wrote a
value below 100 that the node still holds in `r`. -/
def LogOK (ev : List Event) (r : Nodes) : Prop :=
  (∀ e ∈ ev, InBounds e) ∧
  ∀ p ∈ assignments ev, p.2 < 100 ∧ (r p.1.1 p.1.2).dist = p.2

/-- A state whose robot, at the start cell, is cut off from the sealed goal
block, with the node array that recalcMaze computes for that wall store. -/
def sealedState : State :=
  { mazeNodes := (recalcMaze 256 sealedWalls gridNodes).getD gridNodes
    mazeWalls := sealedWalls
    facing := EAST
    xPos := 0
    yPos := 0 }

/-- Events of updateWalls: the three wall flags written for the facing, in the
order of the assignments. -/
def updateWallsEvents (s : State) : List Event :=
  if s.facing = NORTH then
    [Event.wall s.xPos s.yPos 0, Event.wall s.xPos s.yPos 1,
      Event.wall ((s.xPos : Int) + 1) s.yPos 0]
  else if s.facing = EAST then
    [Event.wall s.xPos s.yPos 1, Event.wall ((s.xPos : Int) + 1) s.yPos 0,
      Event.wall s.xPos ((s.yPos : Int) + 1) 1]
  else if s.facing = SOUTH then
    [Event.wall ((s.xPos : Int) + 1) s.yPos 0, Event.wall s.xPos ((s.yPos : Int) + 1) 1,
      Event.wall s.xPos s.yPos 0]
  else if s.facing = WEST then
    [Event.wall s.xPos ((s.yPos : Int) + 1) 1, Event.wall s.xPos s.yPos 0,
      Event.wall s.xPos s.yPos 1]
  else []

/-- Events of the south test of rotateMove: the wall flag is indexed first, the
neighbour node only when the flag is clear and the bounds check passed. -/
def southEvents (s : State) : List Event :=
  Event.wall s.xPos ((s.yPos : Int) + 1) 1 ::
    (if s.mazeWalls s.xPos (s.yPos + 1) 1 = false ∧ s.yPos + 1 < MAZE_HEIGHT then
      [Event.node s.xPos ((s.yPos : Int) + 1)]
    else [])

/-- Events of the east test of rotateMove. -/
def eastEvents (s : State) : List Event :=
  Event.wall ((s.xPos : Int) + 1) s.yPos 0 ::
    (if s.mazeWalls (s.xPos + 1) s.yPos 0 = false ∧ s.xPos + 1 < MAZE_WIDTH then
      [Event.node ((s.xPos : Int) + 1) s.yPos]
    else [])

/-- Events of the west test of rotateMove: the wall flag, then the robot's node
for its field x, then the neighbour node when that field is at least 1. -/
def westEvents (s : State) : List Event :=
  Event.wall s.xPos s.yPos 0 ::
    (if s.mazeWalls s.xPos s.yPos 0 = false then
      Event.node s.xPos s.yPos ::
        (if (s.mazeNodes s.xPos s.yPos).x ≥ 1 then
          [Event.node ((s.xPos : Int) - 1) s.yPos]
        else [])
    else [])

/-- Events of the north test of rotateMove. -/
def northEvents (s : State) : List Event :=
  Event.wall s.xPos s.yPos 1 ::
    (if s.mazeWalls s.xPos s.yPos 1 = false then
      Event.node s.xPos s.yPos ::
        (if (s.mazeNodes s.xPos s.yPos).y ≥ 1 then
          [Event.node s.xPos ((s.yPos : Int) - 1)]
        else [])
    else [])

/-- Events of rotateMove: the robot's node is indexed for `dist`, then the tests
run in the order south, east, west, north until one succeeds; when none does the
events of recalcMaze follow. The result is `none` when recalcMaze runs out of
fuel. -/
def rotateMoveEvents (fuel : Nat) (s : State) : Option (List Event) :=
  let dist := (s.mazeNodes s.xPos s.yPos).dist
  let here := [Event.node s.xPos s.yPos]
  if s.mazeWalls s.xPos (s.yPos + 1) 1 = false ∧ s.yPos + 1 < MAZE_HEIGHT ∧
      (s.mazeNodes s.xPos (s.yPos + 1)).dist < dist then
    some (here ++ southEvents s)
  else if s.mazeWalls (s.xPos + 1) s.yPos 0 = false ∧ s.xPos + 1 < MAZE_WIDTH ∧
      (s.mazeNodes (s.xPos + 1) s.yPos).dist < dist then
    some (here ++ southEvents s ++ eastEvents s)
  else if s.mazeWalls s.xPos s.yPos 0 = false ∧ (s.mazeNodes s.xPos s.yPos).x ≥ 1 ∧
      (s.mazeNodes (s.xPos - 1) s.yPos).dist < dist then
    some (here ++ southEvents s ++ eastEvents s ++ westEvents s)
  else if s.mazeWalls s.xPos s.yPos 1 = false ∧ (s.mazeNodes s.xPos s.yPos).y ≥ 1 ∧
      (s.mazeNodes s.xPos (s.yPos - 1)).dist < dist then
    some (here ++ southEvents s ++ eastEvents s ++ westEvents s ++ northEvents s)
  else
    (recalcMazeLog fuel s.mazeWalls s.mazeNodes).map
      (fun p => here ++ southEvents s ++ eastEvents s ++ westEvents s ++ northEvents s ++ p.2)

/-! ## Basic facts about the setters -/

@[simp]
theorem setNext_x (m : Nodes) (p : Cell) (q : Option Cell) (i j : Nat) :
    (setNext m p q i j).x = (m i j).x := by
  unfold setNext; split <;> rfl

@[simp]
theorem setNext_y (m : Nodes) (p : Cell) (q : Option Cell) (i j : Nat) :
    (setNext m p q i j).y = (m i j).y := by
  unfold setNext; split <;> rfl

@[simp]
theorem setNext_dist (m : Nodes) (p : Cell) (q : Option Cell) (i j : Nat) :
    (setNext m p q i j).dist = (m i j).dist := by
  unfold setNext; split <;> rfl

theorem setNext_next (m : Nodes) (p : Cell) (q : Option Cell) (i j : Nat) :
    (setNext m p q i j).next = if i = p.1 ∧ j = p.2 then q else (m i j).next := by
  unfold setNext; split <;> rfl

@[simp]
theorem setDist_x (m : Nodes) (p : Cell) (d : Nat) (i j : Nat) :
    (setDist m p d i j).x = (m i j).x := by
  unfold setDist; split <;> rfl

@[simp]
theorem setDist_y (m : Nodes) (p : Cell) (d : Nat) (i j : Nat) :
    (setDist m p d i j).y = (m i j).y := by
  unfold setDist; split <;> rfl

@[simp]
theorem setDist_next (m : Nodes) (p : Cell) (d : Nat) (i j : Nat) :
    (setDist m p d i j).next = (m i j).next := by
  unfold setDist; split <;> rfl

theorem setDist_dist (m : Nodes) (p : Cell) (d : Nat) (i j : Nat) :
    (setDist m p d i j).dist = if i = p.1 ∧ j = p.2 then d % 256 else (m i j).dist := by
  unfold setDist; split <;> rfl

theorem cell_eq_iff (a b : Cell) : (a.1 = b.1 ∧ a.2 = b.2) ↔ a = b := by
  constructor
  · intro h; exact Prod.ext h.1 h.2
  · intro h; subst h; exact ⟨rfl, rfl⟩

/-! ## Reachability -/

theorem reachIn_zero (w : Walls) (x y : Nat) :
    reachIn w 0 x y = true ↔ isGoal (x, y) := by
  simp [reachIn]

theorem reachIn_succ (w : Walls) (k x y : Nat) :
    reachIn w (k + 1) x y = true ↔ ∃ b, Adj w (x, y) b ∧ reachIn w k b.1 b.2 = true := by
  constructor
  · intro h
    simp only [reachIn, Bool.and_eq_true, Bool.or_eq_true, decide_eq_true_eq,
      Bool.not_eq_true', inGrid] at h
    obtain ⟨hg, h⟩ := h
    rcases h with ((h | h) | h) | h
    · exact ⟨(x, y - 1), ⟨hg, ⟨hg.1, by simp only; omega⟩, Or.inl ⟨h.1.1, h.1.2, rfl⟩⟩, h.2⟩
    · exact ⟨(x + 1, y), ⟨hg, ⟨h.1.1, hg.2⟩, Or.inr (Or.inl ⟨h.1.2, rfl⟩)⟩, h.2⟩
    · exact ⟨(x, y + 1), ⟨hg, ⟨hg.1, h.1.1⟩, Or.inr (Or.inr (Or.inl ⟨h.1.2, rfl⟩))⟩, h.2⟩
    · exact ⟨(x - 1, y), ⟨hg, ⟨by simp only; omega, hg.2⟩,
        Or.inr (Or.inr (Or.inr ⟨h.1.1, h.1.2, rfl⟩))⟩, h.2⟩
  · rintro ⟨b, ⟨hg, hb, hd⟩, hr⟩
    simp only [reachIn, Bool.and_eq_true, Bool.or_eq_true, decide_eq_true_eq,
      Bool.not_eq_true']
    refine ⟨hg, ?_⟩
    rcases hd with ⟨h1, h2, rfl⟩ | ⟨h2, rfl⟩ | ⟨h2, rfl⟩ | ⟨h1, h2, rfl⟩
    · exact Or.inl (Or.inl (Or.inl ⟨⟨h1, h2⟩, hr⟩))
    · exact Or.inl (Or.inl (Or.inr ⟨⟨hb.1, h2⟩, hr⟩))
    · exact Or.inl (Or.inr ⟨⟨hb.2, h2⟩, hr⟩)
    · exact Or.inr ⟨⟨h1, h2⟩, hr⟩

theorem Adj.symm {w : Walls} {a b : Cell} (h : Adj w a b) : Adj w b a := by
  obtain ⟨ha, hb, hd⟩ := h
  refine ⟨hb, ha, ?_⟩
  obtain ⟨a1, a2⟩ := a
  simp only [inGrid] at ha hb
  rcases hd with ⟨h1, h2, rfl⟩ | ⟨h2, rfl⟩ | ⟨h2, rfl⟩ | ⟨h1, h2, rfl⟩
  · refine Or.inr (Or.inr (Or.inl ⟨?_, ?_⟩))
    · simp only at h1 h2 ⊢
      rw [Nat.sub_add_cancel h1]; exact h2
    · simp only at h1 ⊢
      rw [Nat.sub_add_cancel h1]
  · exact Or.inr (Or.inr (Or.inr ⟨by simp, h2, by simp⟩))
  · exact Or.inl ⟨by simp, h2, by simp⟩
  · refine Or.inr (Or.inl ⟨?_, ?_⟩)
    · simp only at h1 h2 ⊢
      rw [Nat.sub_add_cancel h1]; exact h2
    · simp only at h1 ⊢
      rw [Nat.sub_add_cancel h1]

/-! ## The queue invariant -/

theorem Mono.refl (m : Nodes) : Mono m m := fun _ _ => ⟨le_refl _, fun _ => rfl⟩

theorem Mono.trans {a b c : Nodes} (h1 : Mono a b) (h2 : Mono b c) : Mono a c := by
  intro x y
  obtain ⟨h1a, h1b⟩ := h1 x y
  obtain ⟨h2a, h2b⟩ := h2 x y
  refine ⟨le_trans h2a h1a, fun h => ?_⟩
  have e := h1b h
  rw [h2b (by omega), e]

theorem ListInv.last_mem {w : Walls} {m : Nodes} {L : List Cell} {last : Cell}
    (h : ListInv w m L last) : last ∈ L :=
  List.mem_of_mem_head? (by rw [h.lastHead]; rfl)

theorem enqueue_dist (m : Nodes) (last c n : Cell) (i j : Nat) :
    ((enqueue m last c n).1 i j).dist =
      if i = n.1 ∧ j = n.2 then ((m c.1 c.2).dist + 1) % 256 else (m i j).dist := by
  simp [enqueue, setDist_dist]

theorem enqueue_next (m : Nodes) (last c n : Cell) (i j : Nat) :
    ((enqueue m last c n).1 i j).next =
      if i = last.1 ∧ j = last.2 then some n else (m i j).next := by
  simp [enqueue, setNext_next]

theorem enqueue_coords (m : Nodes) (last c n : Cell) (i j : Nat) :
    ((enqueue m last c n).1 i j).x = (m i j).x ∧ ((enqueue m last c n).1 i j).y = (m i j).y := by
  simp [enqueue]

/-- Appending a node that is farther than one step beyond the node being
expanded keeps the queue invariant. -/
theorem enqueue_inv {w : Walls} {m : Nodes} {L : List Cell} {last c n : Cell}
    (h : ListInv w m L last) (hc : c ∈ L) (hadj : Adj w c n)
    (hgt : (m n.1 n.2).dist > (m c.1 c.2).dist + 1)
    (hle : ∀ a ∈ L, (m a.1 a.2).dist ≤ (m c.1 c.2).dist + 1) :
    ListInv w (enqueue m last c n).1 (n :: L) (enqueue m last c n).2 ∧
    Mono m (enqueue m last c n).1 ∧
    ((enqueue m last c n).1 n.1 n.2).dist = ((enqueue m last c n).1 c.1 c.2).dist + 1 := by
  have hn : inGrid n := hadj.2.1
  have hnL : n ∉ L := fun hm => by have := hle n hm; omega
  have hfr := h.fresh n hn hnL
  have hlast := h.last_mem
  have hc100 : (m c.1 c.2).dist + 1 < 100 := by omega
  have hmod : ((m c.1 c.2).dist + 1) % 256 = (m c.1 c.2).dist + 1 :=
    Nat.mod_eq_of_lt (by omega)
  have hne : ∀ a ∈ L, ¬ (a.1 = n.1 ∧ a.2 = n.2) := fun a ha he =>
    hnL (by rw [← (cell_eq_iff a n).1 he]; exact ha)
  have hd : ∀ a ∈ L, ((enqueue m last c n).1 a.1 a.2).dist = (m a.1 a.2).dist := fun a ha => by
    rw [enqueue_dist, if_neg (hne a ha)]
  have hdn : ((enqueue m last c n).1 n.1 n.2).dist = (m c.1 c.2).dist + 1 := by
    rw [enqueue_dist, if_pos ⟨rfl, rfl⟩, hmod]
  refine ⟨?_, ?_, ?_⟩
  · constructor
    · intro x hx y hy
      rw [(enqueue_coords m last c n x y).1, (enqueue_coords m last c n x y).2]
      exact h.coords x hx y hy
    · intro a ha
      rcases List.mem_cons.1 ha with rfl | ha
      · exact hn
      · exact h.grid a ha
    · exact List.nodup_cons.2 ⟨hnL, h.nodup⟩
    · obtain ⟨_ | ⟨l0, tl⟩, hL⟩ : ∃ L0, L = L0 := ⟨L, rfl⟩
      · rw [hL] at hlast; cases hlast
      · have hl0 : l0 = last := by
          have := h.lastHead; rw [hL] at this; simpa using this
        subst hl0
        subst hL
        refine List.chain'_cons.2 ⟨?_, ?_⟩
        · rw [enqueue_next, if_pos ⟨rfl, rfl⟩]
        · have hch : List.Chain (fun b a => (m a.1 a.2).next = some b) l0 tl := h.chain
          have hnd := List.nodup_cons.1 h.nodup
          refine (List.Chain.iff_mem.1 hch).imp ?_
          intro b a ⟨_, ha, hr⟩
          rw [enqueue_next, if_neg]
          · exact hr
          · intro he
            apply hnd.1
            rw [← (cell_eq_iff a l0).1 he]; exact ha
    · rfl
    · show ((enqueue m last c n).1 n.1 n.2).next = none
      rw [enqueue_next, if_neg]
      · exact hfr.2
      · intro he
        apply hnL
        rw [(cell_eq_iff n last).1 he]; exact hlast
    · intro a ha hna
      have hna1 : a ≠ n := fun e => hna (by rw [e]; exact List.mem_cons_self _ _)
      have hna2 : a ∉ L := fun e => hna (List.mem_cons_of_mem _ e)
      have hal : ¬ (a.1 = last.1 ∧ a.2 = last.2) := fun he =>
        hna2 (by rw [(cell_eq_iff a last).1 he]; exact hlast)
      rw [enqueue_dist, enqueue_next, if_neg hal,
        if_neg (fun he => hna1 ((cell_eq_iff a n).1 he))]
      exact h.fresh a ha hna2
    · intro a ha
      rcases List.mem_cons.1 ha with rfl | ha
      · rw [hdn]
        refine ⟨hc100, (reachIn_succ w _ _ _).2 ⟨c, hadj.symm, (h.sound c hc).2⟩⟩
      · rw [hd a ha]; exact h.sound a ha
    · refine List.pairwise_cons.2 ⟨?_, ?_⟩
      · intro a ha
        rw [hd a ha, hdn]; exact hle a ha
      · refine h.sorted.imp_of_mem ?_
        intro b a hb ha hr
        rw [hd a ha, hd b hb]; exact hr
    · intro a ha
      obtain ⟨h1, h2⟩ := h.goals a ha
      exact ⟨List.mem_cons_of_mem _ h1, by rw [hd a h1]; exact h2⟩
  · intro x y
    rw [enqueue_dist]
    by_cases he : x = n.1 ∧ y = n.2
    · rw [if_pos he, hmod, he.1, he.2]
      exact ⟨by omega, fun hlt => by omega⟩
    · rw [if_neg he]; exact ⟨le_refl _, fun _ => rfl⟩
  · rw [hdn, hd c hc]

theorem BodyInv.curr_mem {w : Walls} {m : Nodes} {F Pr : List Cell} {c last : Cell}
    (_h : BodyInv w m F c Pr last) : c ∈ F ++ c :: Pr :=
  List.mem_append_right _ (List.mem_cons_self _ _)

theorem BodyInv.le_all {w : Walls} {m : Nodes} {F Pr : List Cell} {c last : Cell}
    (h : BodyInv w m F c Pr last) :
    ∀ a ∈ F ++ c :: Pr, (m a.1 a.2).dist ≤ (m c.1 c.2).dist + 1 := by
  intro a ha
  rcases List.mem_append.1 ha with ha | ha
  · exact h.span a ha
  · rcases List.mem_cons.1 ha with rfl | ha
    · omega
    · have hp := (List.pairwise_append.1 h.inv.sorted).2.1
      have := (List.pairwise_cons.1 hp).1 a ha
      omega

theorem edge_mono {m n : Nodes} {c b : Cell} (hm : Mono m n) (hc : (m c.1 c.2).dist < 100)
    (he : (m b.1 b.2).dist ≤ (m c.1 c.2).dist + 1) :
    (n b.1 b.2).dist ≤ (n c.1 c.2).dist + 1 := by
  have h1 := (hm b.1 b.2).1
  have h2 := (hm c.1 c.2).2 hc
  omega

/-- Appending a node while `c` is expanded keeps the loop invariant. -/
theorem body_enqueue {w : Walls} {m : Nodes} {F Pr : List Cell} {c last n : Cell}
    (h : BodyInv w m F c Pr last) (hadj : Adj w c n)
    (hgt : (m n.1 n.2).dist > (m c.1 c.2).dist + 1) :
    BodyInv w (enqueue m last c n).1 (n :: F) c Pr (enqueue m last c n).2 ∧
    Mono m (enqueue m last c n).1 ∧
    ((enqueue m last c n).1 n.1 n.2).dist = ((enqueue m last c n).1 c.1 c.2).dist + 1 := by
  obtain ⟨h1, h2, h3⟩ := enqueue_inv h.inv h.curr_mem hadj hgt h.le_all
  refine ⟨⟨h1, ?_⟩, h2, h3⟩
  intro q hq
  rcases List.mem_cons.1 hq with rfl | hq
  · omega
  · exact edge_mono h2 (h.inv.sound c h.curr_mem).1 (h.span q hq)

/-- One guarded append of the loop body, for any of the four directions. -/
theorem visit_generic {w : Walls} {m : Nodes} {F Pr : List Cell} {c last : Cell}
    (h : BodyInv w m F c Pr last) (g1 g2 : Prop) [Decidable g1] [Decidable g2] (n : Cell)
    (hg : g1 → g2 → Adj w c n) (st : Nodes × Cell)
    (hst : st = if g1 ∧ g2 ∧ (m n.1 n.2).dist > (m c.1 c.2).dist + 1 then
      enqueue m last c n else (m, last)) :
    ∃ G, BodyInv w st.1 G c Pr st.2 ∧ Mono m st.1 ∧
      (g1 → g2 → (st.1 n.1 n.2).dist ≤ (st.1 c.1 c.2).dist + 1) := by
  by_cases hcond : g1 ∧ g2 ∧ (m n.1 n.2).dist > (m c.1 c.2).dist + 1
  · rw [if_pos hcond] at hst
    subst hst
    obtain ⟨h1, h2, h3⟩ := body_enqueue h (hg hcond.1 hcond.2.1) hcond.2.2
    exact ⟨n :: F, h1, h2, fun _ _ => le_of_eq h3⟩
  · rw [if_neg hcond] at hst
    subst hst
    refine ⟨F, h, Mono.refl m, fun a b => ?_⟩
    by_contra hlt
    exact hcond ⟨a, b, by simp only at hlt; omega⟩

theorem BodyInv.curr_coords {w : Walls} {m : Nodes} {F Pr : List Cell} {c last : Cell}
    (h : BodyInv w m F c Pr last) :
    inGrid c ∧ (m c.1 c.2).x = c.1 ∧ (m c.1 c.2).y = c.2 := by
  have hg := h.inv.grid c h.curr_mem
  exact ⟨hg, h.inv.coords c.1 hg.1 c.2 hg.2⟩

theorem visitNorth_spec {w : Walls} {st : Nodes × Cell} {F Pr : List Cell} {c : Cell}
    (h : BodyInv w st.1 F c Pr st.2) :
    ∃ G, BodyInv w (visitNorth w c st).1 G c Pr (visitNorth w c st).2 ∧
      Mono st.1 (visitNorth w c st).1 ∧
      (1 ≤ c.2 → w c.1 c.2 1 = false →
        ((visitNorth w c st).1 c.1 (c.2 - 1)).dist ≤
          ((visitNorth w c st).1 c.1 c.2).dist + 1) := by
  obtain ⟨hg, hx, hy⟩ := h.curr_coords
  refine visit_generic h (1 ≤ c.2) (w c.1 c.2 1 = false) (c.1, c.2 - 1) ?_ _ ?_
  · intro h1 h2
    exact ⟨hg, ⟨hg.1, by have := hg.2; simp only at this ⊢; omega⟩, Or.inl ⟨h1, h2, rfl⟩⟩
  · unfold visitNorth
    simp only [hx, hy, ge_iff_le]

theorem visitEast_spec {w : Walls} {st : Nodes × Cell} {F Pr : List Cell} {c : Cell}
    (h : BodyInv w st.1 F c Pr st.2) :
    ∃ G, BodyInv w (visitEast w c st).1 G c Pr (visitEast w c st).2 ∧
      Mono st.1 (visitEast w c st).1 ∧
      (c.1 + 1 < MAZE_HEIGHT → w (c.1 + 1) c.2 0 = false →
        ((visitEast w c st).1 (c.1 + 1) c.2).dist ≤
          ((visitEast w c st).1 c.1 c.2).dist + 1) := by
  obtain ⟨hg, hx, hy⟩ := h.curr_coords
  refine visit_generic h (c.1 + 1 < MAZE_HEIGHT) (w (c.1 + 1) c.2 0 = false) (c.1 + 1, c.2)
    ?_ _ ?_
  · intro h1 h2
    exact ⟨hg, ⟨h1, hg.2⟩, Or.inr (Or.inl ⟨h2, rfl⟩)⟩
  · unfold visitEast
    simp only [hx, hy]

theorem visitSouth_spec {w : Walls} {st : Nodes × Cell} {F Pr : List Cell} {c : Cell}
    (h : BodyInv w st.1 F c Pr st.2) :
    ∃ G, BodyInv w (visitSouth w c st).1 G c Pr (visitSouth w c st).2 ∧
      Mono st.1 (visitSouth w c st).1 ∧
      (c.2 + 1 < MAZE_WIDTH → w c.1 (c.2 + 1) 1 = false →
        ((visitSouth w c st).1 c.1 (c.2 + 1)).dist ≤
          ((visitSouth w c st).1 c.1 c.2).dist + 1) := by
  obtain ⟨hg, hx, hy⟩ := h.curr_coords
  refine visit_generic h (c.2 + 1 < MAZE_WIDTH) (w c.1 (c.2 + 1) 1 = false) (c.1, c.2 + 1)
    ?_ _ ?_
  · intro h1 h2
    exact ⟨hg, ⟨hg.1, h1⟩, Or.inr (Or.inr (Or.inl ⟨h2, rfl⟩))⟩
  · unfold visitSouth
    simp only [hx, hy]

theorem visitWest_spec {w : Walls} {st : Nodes × Cell} {F Pr : List Cell} {c : Cell}
    (h : BodyInv w st.1 F c Pr st.2) :
    ∃ G, BodyInv w (visitWest w c st).1 G c Pr (visitWest w c st).2 ∧
      Mono st.1 (visitWest w c st).1 ∧
      (1 ≤ c.1 → w c.1 c.2 0 = false →
        ((visitWest w c st).1 (c.1 - 1) c.2).dist ≤
          ((visitWest w c st).1 c.1 c.2).dist + 1) := by
  obtain ⟨hg, hx, hy⟩ := h.curr_coords
  refine visit_generic h (1 ≤ c.1) (w c.1 c.2 0 = false) (c.1 - 1, c.2) ?_ _ ?_
  · intro h1 h2
    exact ⟨hg, ⟨by have := hg.1; simp only at this ⊢; omega, hg.2⟩,
      Or.inr (Or.inr (Or.inr ⟨h1, h2, rfl⟩))⟩
  · unfold visitWest
    simp only [hx, hy, ge_iff_le]

/-- After the body of the loop every open neighbour of the expanded node is at
most one step farther than the node, and the invariant still holds. -/
theorem floodStep_spec {w : Walls} {st : Nodes × Cell} {F Pr : List Cell} {c : Cell}
    (h : BodyInv w st.1 F c Pr st.2) :
    ∃ G, BodyInv w (floodStep w c st).1 G c Pr (floodStep w c st).2 ∧
      Mono st.1 (floodStep w c st).1 ∧
      ∀ n, Adj w c n →
        ((floodStep w c st).1 n.1 n.2).dist ≤ ((floodStep w c st).1 c.1 c.2).dist + 1 := by
  obtain ⟨G1, b1, m1, e1⟩ := visitNorth_spec h
  obtain ⟨G2, b2, m2, e2⟩ := visitEast_spec b1
  obtain ⟨G3, b3, m3, e3⟩ := visitSouth_spec b2
  obtain ⟨G4, b4, m4, e4⟩ := visitWest_spec b3
  have c1 := (b1.inv.sound c b1.curr_mem).1
  have c2 := (b2.inv.sound c b2.curr_mem).1
  have c3 := (b3.inv.sound c b3.curr_mem).1
  refine ⟨G4, b4, (m1.trans m2).trans (m3.trans m4), ?_⟩
  rintro n ⟨_, hn, hd⟩
  rcases hd with ⟨h1, h2, rfl⟩ | ⟨h2, rfl⟩ | ⟨h2, rfl⟩ | ⟨h1, h2, rfl⟩
  · exact edge_mono (c := c) (b := (c.1, c.2 - 1)) (m2.trans (m3.trans m4)) c1 (e1 h1 h2)
  · exact edge_mono (c := c) (b := (c.1 + 1, c.2)) (m3.trans m4) c2 (e2 hn.1 h2)
  · exact edge_mono (c := c) (b := (c.1, c.2 + 1)) m4 c3 (e3 hn.2 h2)
  · exact e4 h1 h2

/-! ## Termination and the final state of the loop -/

theorem grid_length_le {L : List Cell} (hn : L.Nodup) (hg : ∀ a ∈ L, inGrid a) :
    L.length ≤ 256 := by
  have hs : L ⊆ List.product (List.range 16) (List.range 16) := by
    intro a ha
    have := hg a ha
    obtain ⟨a1, a2⟩ := a
    exact List.mem_product.2 ⟨List.mem_range.2 this.1, List.mem_range.2 this.2⟩
  have := (List.subperm_of_subset hn hs).length_le
  have hlen : ((List.range 16).product (List.range 16)).length = 256 :=
    (List.length_product (List.range 16) (List.range 16)).trans (by simp)
  omega

theorem floodLoop_none (w : Walls) (fuel : Nat) (m : Nodes) (last : Cell) :
    floodLoop w fuel m none last = some m := by
  cases fuel <;> rfl

/-- With enough fuel the loop ends, and then every node that was given a
distance has been expanded. -/
theorem floodLoop_spec (w : Walls) :
    ∀ (fuel : Nat) (m : Nodes) (F : List Cell) (c : Cell) (Pr : List Cell) (last : Cell),
      BodyInv w m F c Pr last → AllDone w m Pr → 256 ≤ fuel + Pr.length →
      ∃ r L e, floodLoop w fuel m (some c) last = some r ∧ ListInv w r L e ∧
        AllDone w r L ∧ Mono m r := by
  intro fuel
  induction fuel with
  | zero =>
    intro m F c Pr last hB _ hf
    exfalso
    have := grid_length_le hB.inv.nodup hB.inv.grid
    simp only [List.length_append, List.length_cons] at this
    omega
  | succ k ih =>
    intro m F c Pr last hB hD hf
    have hB0 : BodyInv w ((m, last) : Nodes × Cell).1 F c Pr ((m, last) : Nodes × Cell).2 := hB
    obtain ⟨G, hB1, hM, hE⟩ := floodStep_spec hB0
    have hD1 : AllDone w (floodStep w c (m, last)).1 (c :: Pr) := by
      intro p hp n hadj
      rcases List.mem_cons.1 hp with rfl | hp
      · exact hE n hadj
      · have hpL : p ∈ F ++ c :: Pr :=
          List.mem_append_right _ (List.mem_cons_of_mem _ hp)
        exact edge_mono hM (hB.inv.sound p hpL).1 (hD p hp n hadj)
    show ∃ r L e, floodLoop w k (floodStep w c (m, last)).1
      ((floodStep w c (m, last)).1 c.1 c.2).next (floodStep w c (m, last)).2 = some r ∧ _
    rcases List.eq_nil_or_concat G with rfl | ⟨G1, b, rfl⟩
    · have hl : (floodStep w c (m, last)).2 = c := by
        have := hB1.inv.lastHead
        simp only [List.nil_append, List.head?_cons, Option.some.injEq] at this
        exact this.symm
      have hnext : ((floodStep w c (m, last)).1 c.1 c.2).next = none := by
        have := hB1.inv.lastNext
        rw [hl] at this
        exact this
      rw [hnext, floodLoop_none]
      exact ⟨_, c :: Pr, _, rfl, hB1.inv, hD1, hM⟩
    · have hlist : List.concat G1 b ++ c :: Pr = G1 ++ b :: c :: Pr := by
        simp [List.concat_eq_append]
      have hinv := hB1.inv
      rw [hlist] at hinv
      have hnext : ((floodStep w c (m, last)).1 c.1 c.2).next = some b :=
        (List.chain'_append_cons_cons.1 hinv.chain).2.1
      have hcb : ((floodStep w c (m, last)).1 c.1 c.2).dist ≤
          ((floodStep w c (m, last)).1 b.1 b.2).dist := by
        have hp := (List.pairwise_append.1 hinv.sorted).2.1
        exact (List.pairwise_cons.1 hp).1 c (List.mem_cons_self _ _)
      have hB2 : BodyInv w (floodStep w c (m, last)).1 G1 b (c :: Pr)
          (floodStep w c (m, last)).2 := by
        refine ⟨hinv, fun q hq => ?_⟩
        have := hB1.span q (by simp [List.concat_eq_append, hq])
        omega
      obtain ⟨r, L, e, h1, h2, h3, h4⟩ := ih _ G1 b (c :: Pr) _ hB2 hD1
        (by simp only [List.length_cons]; omega)
      rw [hnext]
      exact ⟨r, L, e, h1, h2, h3, hM.trans h4⟩

/-! ## The seeds -/

theorem seedGoals_ptrs (m : Nodes) :
    (seedGoals m).2.1 = (8, 8) ∧ (seedGoals m).2.2 = (7, 7) := ⟨rfl, rfl⟩

theorem seedGoals_eq (m : Nodes) :
    (seedGoals m).1 =
      setDist (setNext (setDist (setNext (setDist (setNext (setDist m (8, 8) 0)
        (8, 8) (some (7, 8))) (7, 8) 0) (7, 8) (some (8, 7))) (8, 7) 0)
        (8, 7) (some (7, 7))) (7, 7) 0 := rfl

theorem seedGoals_coords (m : Nodes) (x y : Nat) :
    ((seedGoals m).1 x y).x = (m x y).x ∧ ((seedGoals m).1 x y).y = (m x y).y := by
  simp [seedGoals_eq]

theorem seedGoals_dist (m : Nodes) (x y : Nat) :
    ((seedGoals m).1 x y).dist = if isGoal (x, y) then 0 else (m x y).dist := by
  simp only [seedGoals_eq, setDist_dist, setNext_dist, isGoal]
  by_cases hx7 : x = 7 <;> by_cases hx8 : x = 8 <;> by_cases hy7 : y = 7 <;>
    by_cases hy8 : y = 8 <;> simp [hx7, hx8, hy7, hy8]

theorem seedGoals_next (m : Nodes) (x y : Nat) :
    ((seedGoals m).1 x y).next =
      if x = 8 ∧ y = 8 then some (7, 8)
      else if x = 7 ∧ y = 8 then some (8, 7)
      else if x = 8 ∧ y = 7 then some (7, 7)
      else (m x y).next := by
  simp only [seedGoals_eq, setDist_next, setNext_next]
  by_cases hx7 : x = 7 <;> by_cases hx8 : x = 8 <;> by_cases hy7 : y = 7 <;>
    by_cases hy8 : y = 8 <;> simp [hx7, hx8, hy7, hy8]

theorem mem_seeds {a : Cell} :
    a ∈ [((7 : Nat), (7 : Nat)), (8, 7), (7, 8), (8, 8)] ↔ isGoal a := by
  obtain ⟨x, y⟩ := a
  simp only [List.mem_cons, Prod.mk.injEq, List.mem_singleton, isGoal, List.mem_nil_iff,
    or_false]
  constructor
  · rintro (⟨rfl, rfl⟩ | ⟨rfl, rfl⟩ | ⟨rfl, rfl⟩ | ⟨rfl, rfl⟩) <;> simp
  · rintro ⟨rfl | rfl, rfl | rfl⟩ <;> simp

/-- After the seeding statements of floodFill on freshly reset nodes the loop
invariant holds with the four goal nodes queued. -/
theorem seedGoals_inv (w : Walls) {m : Nodes} (hm : FreshNodes m) :
    BodyInv w (seedGoals m).1 [(7, 7), (8, 7), (7, 8)] (8, 8) [] (7, 7) := by
  have hgoal0 : ∀ a : Cell, isGoal a → ((seedGoals m).1 a.1 a.2).dist = 0 := fun a ha => by
    rw [seedGoals_dist, if_pos ha]
  have hmem : ∀ a : Cell, a ∈ [((7 : Nat), (7 : Nat)), (8, 7), (7, 8)] ++ (8, 8) :: [] ↔
      isGoal a := fun a => mem_seeds
  refine ⟨?_, ?_⟩
  · constructor
    · intro x hx y hy
      rw [(seedGoals_coords m x y).1, (seedGoals_coords m x y).2]
      exact hm.1 x hx y hy
    · intro a ha
      obtain ⟨h1, h2⟩ := (hmem a).1 ha
      constructor
      · show a.1 < 16
        omega
      · show a.2 < 16
        omega
    · decide
    · simp [seedGoals_next]
    · rfl
    · rw [seedGoals_next]
      simp only [Nat.reduceEqDiff, false_and, and_false, and_self, if_false]
      exact (hm.2 7 (by decide) 7 (by decide)).2
    · intro a ha hna
      have hng : ¬ isGoal a := fun hg => hna ((hmem a).2 hg)
      have hf := hm.2 a.1 ha.1 a.2 ha.2
      refine ⟨by rw [seedGoals_dist, if_neg hng]; exact hf.1, ?_⟩
      rw [seedGoals_next]
      have h1 : ¬ (a.1 = 8 ∧ a.2 = 8) := fun h => hng ⟨Or.inr h.1, Or.inr h.2⟩
      have h2 : ¬ (a.1 = 7 ∧ a.2 = 8) := fun h => hng ⟨Or.inl h.1, Or.inr h.2⟩
      have h3 : ¬ (a.1 = 8 ∧ a.2 = 7) := fun h => hng ⟨Or.inr h.1, Or.inl h.2⟩
      rw [if_neg h1, if_neg h2, if_neg h3]
      exact hf.2
    · intro a ha
      have hg := (hmem a).1 ha
      rw [hgoal0 a hg]
      exact ⟨by decide, (reachIn_zero w a.1 a.2).2 hg⟩
    · refine List.Pairwise.imp_of_mem (R := fun _ _ => True) ?_ (by simp)
      intro a b ha hb _
      rw [hgoal0 a ((hmem a).1 ha), hgoal0 b ((hmem b).1 hb)]
    · intro a ha
      exact ⟨(hmem a).2 ha, hgoal0 a ha⟩
  · intro q hq
    have hq1 : isGoal q := (hmem q).1 (List.mem_append_left _ hq)
    rw [hgoal0 q hq1]
    exact Nat.zero_le _

/-! ## floodFill, setupMaze and recalcMaze compute the flood-fill field -/

theorem reachIn_inGrid {w : Walls} {k x y : Nat} (h : reachIn w k x y = true) :
    x < MAZE_WIDTH ∧ y < MAZE_HEIGHT := by
  cases k with
  | zero =>
    obtain ⟨h1, h2⟩ := (reachIn_zero w x y).1 h
    simp only at h1 h2
    show x < 16 ∧ y < 16
    constructor <;> omega
  | succ k =>
    obtain ⟨b, hadj, _⟩ := (reachIn_succ w k x y).1 h
    exact hadj.1

/-- When the loop has expanded every queued node, the distances form the
flood-fill field of the wall store. -/
theorem floodField_of_done {w : Walls} {r : Nodes} {L : List Cell} {e : Cell}
    (hI : ListInv w r L e) (hD : AllDone w r L) : IsFloodField w r := by
  have ha : ∀ a : Cell, inGrid a → (r a.1 a.2).dist ≤ 100 := by
    intro a hg
    by_cases hm : a ∈ L
    · exact le_of_lt (hI.sound a hm).1
    · exact le_of_eq (hI.fresh a hg hm).1
  have hc : ∀ k x y, reachIn w k x y = true → (r x y).dist ≤ k := by
    intro k
    induction k with
    | zero =>
      intro x y h
      exact le_of_eq (hI.goals (x, y) ((reachIn_zero w x y).1 h)).2
    | succ k ih =>
      intro x y h
      obtain ⟨b, hadj, hb⟩ := (reachIn_succ w k x y).1 h
      have hbk := ih b.1 b.2 hb
      by_cases hm : b ∈ L
      · have := hD b hm (x, y) hadj.symm
        simp only at this
        omega
      · have h100 := (hI.fresh b hadj.2.1 hm).1
        have := ha (x, y) hadj.1
        simp only at this
        omega
  intro x hx y hy
  refine ⟨ha (x, y) ⟨hx, hy⟩, ?_, fun k hk => hc k x y hk⟩
  intro hlt
  by_cases hm : (x, y) ∈ L
  · exact (hI.sound (x, y) hm).2
  · have := (hI.fresh (x, y) ⟨hx, hy⟩ hm).1
    simp only at this
    omega

/-- On freshly reset nodes floodFill terminates within 256 iterations with the
flood-fill field of the wall store. -/
theorem floodFill_spec (w : Walls) {m : Nodes} (hm : FreshNodes m) {fuel : Nat}
    (hf : 256 ≤ fuel) :
    ∃ r, floodFill fuel w m = some r ∧ CoordsOK r ∧ IsFloodField w r := by
  have hB := seedGoals_inv w hm
  obtain ⟨r, L, e, h1, h2, h3, _⟩ := floodLoop_spec w fuel (seedGoals m).1 _ _ [] _ hB
    (fun p hp => absurd hp (List.not_mem_nil p)) (by simpa using hf)
  exact ⟨r, h1, h2.coords, floodField_of_done h2 h3⟩

theorem resetNodes_fresh {m : Nodes} (hm : CoordsOK m) : FreshNodes (resetNodes m) := by
  constructor
  · intro x hx y hy
    have := hm x hx y hy
    simp only [resetNodes, hx, hy, and_self, if_true]
    exact this
  · intro x hx y hy
    simp only [resetNodes, hx, hy, and_self, if_true]

theorem setupNodes_fresh (m : Nodes) : FreshNodes (setupNodes m) := by
  constructor
  · intro x hx y hy
    simp only [setupNodes, hx, hy, and_self, if_true]
    have hx1 : x < 16 := hx
    have hy1 : y < 16 := hy
    constructor <;> omega
  · intro x hx y hy
    simp only [setupNodes, hx, hy, and_self, if_true]

/-- The function recalcMaze terminates with the flood-fill field of the wall store. -/
theorem recalcMaze_spec (w : Walls) {m : Nodes} (hm : CoordsOK m) {fuel : Nat}
    (hf : 256 ≤ fuel) :
    ∃ r, recalcMaze fuel w m = some r ∧ CoordsOK r ∧ IsFloodField w r :=
  floodFill_spec w (resetNodes_fresh hm) hf

/-- The function setupMaze terminates with the flood-fill field of the wall store. -/
theorem setupMaze_spec (w : Walls) (m : Nodes) {fuel : Nat} (hf : 256 ≤ fuel) :
    ∃ r, setupMaze fuel w m = some r ∧ CoordsOK r ∧ IsFloodField w r :=
  floodFill_spec w (setupNodes_fresh m) hf

/-- The flood-fill field of a wall store is unique. -/
theorem IsFloodField.unique {w : Walls} {a b : Nodes} (ha : IsFloodField w a)
    (hb : IsFloodField w b) {x y : Nat} (hx : x < MAZE_WIDTH) (hy : y < MAZE_HEIGHT) :
    (a x y).dist = (b x y).dist := by
  obtain ⟨a1, a2, a3⟩ := ha x hx y hy
  obtain ⟨b1, b2, b3⟩ := hb x hx y hy
  by_cases h1 : (a x y).dist < 100
  · have := b3 _ (a2 h1)
    have := a3 _ (b2 (by omega))
    omega
  · by_cases h2 : (b x y).dist < 100
    · have := a3 _ (b2 h2)
      omega
    · omega

/-- A chain of open boundaries stays open when walls are removed. -/
theorem reachIn_mono {w v : Walls} (h : ∀ x y o, w x y o = true → v x y o = true) :
    ∀ k x y, reachIn v k x y = true → reachIn w k x y = true := by
  have hf : ∀ x y o, v x y o = false → w x y o = false := by
    intro x y o hv
    by_contra hne
    have := h x y o (by simpa using hne)
    rw [hv] at this
    exact Bool.noConfusion this
  intro k
  induction k with
  | zero => intro x y hr; exact hr
  | succ k ih =>
    intro x y hr
    obtain ⟨b, ⟨hg, hb, hd⟩, hk⟩ := (reachIn_succ v k x y).1 hr
    refine (reachIn_succ w k x y).2 ⟨b, ⟨hg, hb, ?_⟩, ih _ _ hk⟩
    rcases hd with ⟨h1, h2, h3⟩ | ⟨h2, h3⟩ | ⟨h2, h3⟩ | ⟨h1, h2, h3⟩
    · exact Or.inl ⟨h1, hf _ _ _ h2, h3⟩
    · exact Or.inr (Or.inl ⟨hf _ _ _ h2, h3⟩)
    · exact Or.inr (Or.inr (Or.inl ⟨hf _ _ _ h2, h3⟩))
    · exact Or.inr (Or.inr (Or.inr ⟨h1, hf _ _ _ h2, h3⟩))

theorem Connected.exists_shortest {w : Walls} {x y : Nat} (h : Connected w x y) :
    ∃ d, IsShortest w x y d := by
  classical
  refine ⟨Nat.find h, Nat.find_spec h, fun k hk => ?_⟩
  have := Nat.find_min h hk
  simpa using this

/-- In a flood-fill field the stored distance is the true shortest hop count
capped at 100. -/
theorem IsFloodField.dist_eq_min {w : Walls} {r : Nodes} (hr : IsFloodField w r)
    {x y d : Nat} (hx : x < MAZE_WIDTH) (hy : y < MAZE_HEIGHT) (hd : IsShortest w x y d) :
    (r x y).dist = min d 100 := by
  obtain ⟨h1, h2, h3⟩ := hr x hx y hy
  have hle := h3 d hd.1
  by_cases hlt : (r x y).dist < 100
  · have hge : d ≤ (r x y).dist := by
      by_contra hcon
      have := hd.2 (r x y).dist (by omega)
      rw [h2 hlt] at this
      exact Bool.noConfusion this
    omega
  · omega

/-- In a flood-fill field a cell that is not connected to the goal holds 100. -/
theorem IsFloodField.dist_of_not_connected {w : Walls} {r : Nodes} (hr : IsFloodField w r)
    {x y : Nat} (hx : x < MAZE_WIDTH) (hy : y < MAZE_HEIGHT) (hd : ¬ Connected w x y) :
    (r x y).dist = 100 := by
  obtain ⟨h1, h2, _⟩ := hr x hx y hy
  by_contra hne
  exact hd ⟨_, h2 (by omega)⟩

theorem IsFloodField.goal_zero {w : Walls} {r : Nodes} (hr : IsFloodField w r)
    {x y : Nat} (hg : isGoal (x, y)) : (r x y).dist = 0 := by
  have hgrid := reachIn_inGrid ((reachIn_zero w x y).2 hg)
  have := (hr x hgrid.1 y hgrid.2).2.2 0 ((reachIn_zero w x y).2 hg)
  omega

/-! ## Certificates for the shortest hop count of a concrete wall store -/

theorem descentAt_zero {w : Walls} {f : Nat → Nat → Nat} {x y : Nat}
    (h : descentAt w f x y = true) (h0 : f x y = 0) : isGoal (x, y) := by
  unfold descentAt at h
  rw [if_pos h0] at h
  exact of_decide_eq_true h

theorem descentAt_step {w : Walls} {f : Nat → Nat → Nat} {x y : Nat}
    (h : descentAt w f x y = true) (h0 : f x y ≠ 0) :
    (1 ≤ y ∧ w x y 1 = false ∧ f x (y - 1) + 1 = f x y) ∨
    (x + 1 < 16 ∧ w (x + 1) y 0 = false ∧ f (x + 1) y + 1 = f x y) ∨
    (y + 1 < 16 ∧ w x (y + 1) 1 = false ∧ f x (y + 1) + 1 = f x y) ∨
    (1 ≤ x ∧ w x y 0 = false ∧ f (x - 1) y + 1 = f x y) := by
  unfold descentAt at h
  rw [if_neg h0] at h
  simp only [Bool.or_eq_true, Bool.and_eq_true, decide_eq_true_eq, Bool.not_eq_true'] at h
  rcases h with ((h | h) | h) | h
  · exact Or.inl ⟨h.1.1, h.1.2, h.2⟩
  · exact Or.inr (Or.inl ⟨h.1.1, h.1.2, h.2⟩)
  · exact Or.inr (Or.inr (Or.inl ⟨h.1.1, h.1.2, h.2⟩))
  · exact Or.inr (Or.inr (Or.inr ⟨h.1.1, h.1.2, h.2⟩))

theorem lipschitzAt_spec {w : Walls} {f : Nat → Nat → Nat} {x y : Nat}
    (h : lipschitzAt w f x y = true) :
    (isGoal (x, y) → f x y = 0) ∧
    (x + 1 < 16 → w (x + 1) y 0 = false →
      f x y ≤ f (x + 1) y + 1 ∧ f (x + 1) y ≤ f x y + 1) ∧
    (y + 1 < 16 → w x (y + 1) 1 = false →
      f x y ≤ f x (y + 1) + 1 ∧ f x (y + 1) ≤ f x y + 1) := by
  unfold lipschitzAt at h
  simp only [Bool.or_eq_true, Bool.and_eq_true, decide_eq_true_eq, Bool.not_eq_true',
    decide_eq_false_iff_not] at h
  obtain ⟨⟨h1, h2⟩, h3⟩ := h
  refine ⟨fun hg => ?_, fun hb hw => ?_, fun hb hw => ?_⟩
  · rcases h1 with h1 | h1
    · exact absurd hg h1
    · exact h1
  · rcases h2 with (h2 | h2) | h2
    · exact absurd hb h2
    · rw [hw] at h2; exact Bool.noConfusion h2
    · exact h2
  · rcases h3 with (h3 | h3) | h3
    · exact absurd hb h3
    · rw [hw] at h3; exact Bool.noConfusion h3
    · exact h3

theorem reachIn_of_descent {w : Walls} {f : Nat → Nat → Nat} (h : DescentCert w f) :
    ∀ k x y, x < 16 → y < 16 → f x y = k → reachIn w k x y = true := by
  intro k
  induction k with
  | zero =>
    intro x y hx hy hf
    exact (reachIn_zero w x y).2 (descentAt_zero (h x hx y hy) hf)
  | succ k ih =>
    intro x y hx hy hf
    have hg : inGrid (x, y) := ⟨hx, hy⟩
    rcases descentAt_step (h x hx y hy) (by omega) with ⟨h1, h2, h3⟩ | ⟨h1, h2, h3⟩ |
      ⟨h1, h2, h3⟩ | ⟨h1, h2, h3⟩
    · exact (reachIn_succ w k x y).2 ⟨(x, y - 1),
        ⟨hg, ⟨hx, by show y - 1 < 16; omega⟩, Or.inl ⟨h1, h2, rfl⟩⟩,
        ih x (y - 1) hx (by omega) (by omega)⟩
    · exact (reachIn_succ w k x y).2 ⟨(x + 1, y),
        ⟨hg, ⟨h1, hy⟩, Or.inr (Or.inl ⟨h2, rfl⟩)⟩, ih (x + 1) y h1 hy (by omega)⟩
    · exact (reachIn_succ w k x y).2 ⟨(x, y + 1),
        ⟨hg, ⟨hx, h1⟩, Or.inr (Or.inr (Or.inl ⟨h2, rfl⟩))⟩, ih x (y + 1) hx h1 (by omega)⟩
    · exact (reachIn_succ w k x y).2 ⟨(x - 1, y),
        ⟨hg, ⟨by show x - 1 < 16; omega, hy⟩, Or.inr (Or.inr (Or.inr ⟨h1, h2, rfl⟩))⟩,
        ih (x - 1) y (by omega) hy (by omega)⟩

theorem le_of_lipschitz {w : Walls} {f : Nat → Nat → Nat} (h : LipschitzCert w f) :
    ∀ k x y, reachIn w k x y = true → f x y ≤ k := by
  intro k
  induction k with
  | zero =>
    intro x y hr
    have hg := (reachIn_zero w x y).1 hr
    have hin := reachIn_inGrid hr
    exact le_of_eq ((lipschitzAt_spec (h x hin.1 y hin.2)).1 hg)
  | succ k ih =>
    intro x y hr
    obtain ⟨b, ⟨hg, hb, hd⟩, hk⟩ := (reachIn_succ w k x y).1 hr
    have hbk := ih b.1 b.2 hk
    have hx : x < 16 := hg.1
    have hy : y < 16 := hg.2
    rcases hd with ⟨h1, h2, rfl⟩ | ⟨h2, rfl⟩ | ⟨h2, rfl⟩ | ⟨h1, h2, rfl⟩
    · simp only at h1 h2 hbk
      have h3 := (lipschitzAt_spec (h x hx (y - 1) (by omega))).2.2
      rw [Nat.sub_add_cancel h1] at h3
      have := (h3 hy h2).2
      omega
    · simp only at h2 hbk
      have := ((lipschitzAt_spec (h x hx y hy)).2.1 hb.1 h2).1
      omega
    · simp only at h2 hbk
      have := ((lipschitzAt_spec (h x hx y hy)).2.2 hb.2 h2).1
      omega
    · simp only at h1 h2 hbk
      have h3 := (lipschitzAt_spec (h (x - 1) (by omega) y hy)).2.1
      rw [Nat.sub_add_cancel h1] at h3
      have := (h3 hx h2).2
      omega

/-- A function that passes both certificates is the true shortest hop count. -/
theorem isShortest_of_cert {w : Walls} {f : Nat → Nat → Nat} (h1 : DescentCert w f)
    (h2 : LipschitzCert w f) {x y : Nat} (hx : x < 16) (hy : y < 16) :
    IsShortest w x y (f x y) := by
  refine ⟨reachIn_of_descent h1 _ x y hx hy rfl, fun k hk => ?_⟩
  by_contra hne
  have := le_of_lipschitz h2 k x y (by simpa using hne)
  omega

theorem gridNodes_coords : CoordsOK gridNodes := (setupNodes_fresh _).1

set_option maxRecDepth 100000 in
theorem snake_descent : DescentCert snakeWalls snakeDist := by
  decide

set_option maxRecDepth 100000 in
theorem snake_lipschitz : LipschitzCert snakeWalls snakeDist := by
  decide

theorem IsFloodField.descent {w : Walls} {r : Nodes} (hr : IsFloodField w r) {x y : Nat}
    (hx : x < 16) (hy : y < 16) (hng : ¬ isGoal (x, y)) (hlt : (r x y).dist < 100) :
    (1 ≤ y ∧ w x y 1 = false ∧ (r x (y - 1)).dist + 1 = (r x y).dist) ∨
    (x + 1 < 16 ∧ w (x + 1) y 0 = false ∧ (r (x + 1) y).dist + 1 = (r x y).dist) ∨
    (y + 1 < 16 ∧ w x (y + 1) 1 = false ∧ (r x (y + 1)).dist + 1 = (r x y).dist) ∨
    (1 ≤ x ∧ w x y 0 = false ∧ (r (x - 1) y).dist + 1 = (r x y).dist) := by
  obtain ⟨_, h2, h3⟩ := hr x hx y hy
  have hreach := h2 hlt
  obtain ⟨k, hk⟩ : ∃ k, (r x y).dist = k + 1 := by
    cases hd : (r x y).dist with
    | zero =>
      rw [hd] at hreach
      exact absurd ((reachIn_zero w x y).1 hreach) hng
    | succ k => exact ⟨k, rfl⟩
  rw [hk] at hreach
  obtain ⟨b, hadj, hb⟩ := (reachIn_succ w k x y).1 hreach
  obtain ⟨_, b2, b3⟩ := hr b.1 hadj.2.1.1 b.2 hadj.2.1.2
  have hbk := b3 k hb
  have hback : (r x y).dist ≤ (r b.1 b.2).dist + 1 :=
    h3 _ ((reachIn_succ w _ x y).2 ⟨b, hadj, b2 (by omega)⟩)
  have heq : (r b.1 b.2).dist + 1 = (r x y).dist := by omega
  obtain ⟨_, hbg, hd⟩ := hadj
  rcases hd with ⟨d1, d2, rfl⟩ | ⟨d2, rfl⟩ | ⟨d2, rfl⟩ | ⟨d1, d2, rfl⟩
  · exact Or.inl ⟨d1, d2, heq⟩
  · exact Or.inr (Or.inl ⟨hbg.1, d2, heq⟩)
  · exact Or.inr (Or.inr (Or.inl ⟨hbg.2, d2, heq⟩))
  · exact Or.inr (Or.inr (Or.inr ⟨d1, d2, heq⟩))

theorem IsFloodField.le_of_walls {w v : Walls} {r s : Nodes} (hr : IsFloodField w r)
    (hs : IsFloodField v s) (hwv : ∀ x y o, w x y o = true → v x y o = true) {x y : Nat}
    (hx : x < 16) (hy : y < 16) : (r x y).dist ≤ (s x y).dist := by
  obtain ⟨r1, _, r3⟩ := hr x hx y hy
  obtain ⟨_, s2, _⟩ := hs x hx y hy
  by_cases hlt : (s x y).dist < 100
  · exact r3 _ (reachIn_mono hwv _ x y (s2 hlt))
  · omega

theorem goalSealed_closed {w : Walls} (h : goalSealed w) :
    ∀ k x y, reachIn w k x y = true → isGoal (x, y) := by
  obtain ⟨n7, n8, s7, s8, w7, w8, e7, e8⟩ := h
  intro k
  induction k with
  | zero => intro x y hr; exact (reachIn_zero w x y).1 hr
  | succ k ih =>
    intro x y hr
    obtain ⟨b, ⟨_, _, hd⟩, hk⟩ := (reachIn_succ w k x y).1 hr
    have hb := ih b.1 b.2 hk
    rcases hd with ⟨d1, d2, rfl⟩ | ⟨d2, rfl⟩ | ⟨d2, rfl⟩ | ⟨d1, d2, rfl⟩
    · obtain ⟨hx, hy⟩ := hb
      simp only at hx hy d1 d2
      have hy9 : y ≠ 9 := by
        rintro rfl
        rcases hx with rfl | rfl
        · rw [s7] at d2; exact Bool.noConfusion d2
        · rw [s8] at d2; exact Bool.noConfusion d2
      exact ⟨hx, by show y = 7 ∨ y = 8; omega⟩
    · obtain ⟨hx, hy⟩ := hb
      simp only at hx hy d2
      have hx6 : x ≠ 6 := by
        rintro rfl
        rcases hy with rfl | rfl
        · rw [w7] at d2; exact Bool.noConfusion d2
        · rw [w8] at d2; exact Bool.noConfusion d2
      exact ⟨by show x = 7 ∨ x = 8; omega, hy⟩
    · obtain ⟨hx, hy⟩ := hb
      simp only at hx hy d2
      have hy6 : y ≠ 6 := by
        rintro rfl
        rcases hx with rfl | rfl
        · rw [n7] at d2; exact Bool.noConfusion d2
        · rw [n8] at d2; exact Bool.noConfusion d2
      exact ⟨hx, by show y = 7 ∨ y = 8; omega⟩
    · obtain ⟨hx, hy⟩ := hb
      simp only at hx hy d1 d2
      have hx9 : x ≠ 9 := by
        rintro rfl
        rcases hy with rfl | rfl
        · rw [e7] at d2; exact Bool.noConfusion d2
        · rw [e8] at d2; exact Bool.noConfusion d2
      exact ⟨by show x = 7 ∨ x = 8; omega, hy⟩

theorem sealedWalls_sealed : goalSealed sealedWalls := by
  unfold goalSealed
  decide

/-! ## Claims about the flood-fill engine -/

/-- C1, as stated, fails: under the corridor wall store `snakeWalls` the cell
(0,0) is connected to the goal and its true shortest hop count is 119, yet after
recalcMaze it holds 100, which is not its shortest hop count. -/
theorem recalcMaze_exact_counterexample :
    ∃ r, recalcMaze 256 snakeWalls gridNodes = some r ∧ Connected snakeWalls 0 0 ∧
      IsShortest snakeWalls 0 0 119 ∧ (r 0 0).dist = 100 ∧
      ¬ IsShortest snakeWalls 0 0 (r 0 0).dist := by
  obtain ⟨r, h1, _, h3⟩ := recalcMaze_spec snakeWalls gridNodes_coords (le_refl 256)
  have hs : IsShortest snakeWalls 0 0 119 :=
    isShortest_of_cert snake_descent snake_lipschitz (x := 0) (y := 0) (by decide) (by decide)
  have hd : (r 0 0).dist = 100 := h3.dist_eq_min (by decide) (by decide) hs
  refine ⟨r, h1, ⟨119, hs.1⟩, hs, hd, fun hcon => ?_⟩
  rw [hd] at hcon
  have := hs.2 100 (by decide)
  rw [hcon.1] at this
  exact Bool.noConfusion this

/-- C1, amended: for every wall store, recalcMaze terminates and every cell that
is connected to a goal cell through in-grid wall-free boundaries holds its true
shortest hop count capped at 100: exactly that count when it is at most 100, and
100 when it is larger. -/
theorem recalcMaze_shortest_capped (fuel : Nat) (hf : 256 ≤ fuel) (w : Walls) (m : Nodes)
    (hm : CoordsOK m) :
    ∃ r, recalcMaze fuel w m = some r ∧
      ∀ x, x < 16 → ∀ y, y < 16 → Connected w x y →
        ∃ d, IsShortest w x y d ∧ (r x y).dist = min d 100 ∧
          (d ≤ 100 → (r x y).dist = d) := by
  obtain ⟨r, h1, _, h3⟩ := recalcMaze_spec w hm hf
  refine ⟨r, h1, fun x hx y hy hc => ?_⟩
  obtain ⟨d, hd⟩ := hc.exists_shortest
  have := h3.dist_eq_min hx hy hd
  exact ⟨d, hd, this, fun hle => by omega⟩

theorem recalcMaze_shortest_capped_witness :
    256 ≤ 256 ∧ CoordsOK gridNodes ∧
    ∃ r, recalcMaze 256 snakeWalls gridNodes = some r ∧
      ∀ x, x < 16 → ∀ y, y < 16 → Connected snakeWalls x y →
        ∃ d, IsShortest snakeWalls x y d ∧ (r x y).dist = min d 100 ∧
          (d ≤ 100 → (r x y).dist = d) :=
  ⟨le_refl 256, gridNodes_coords,
    recalcMaze_shortest_capped 256 (le_refl 256) snakeWalls gridNodes gridNodes_coords⟩

/-- C2 (P1): for every wall store, recalcMaze terminates, the four goal cells
have distance 0, and every non-goal cell of the grid whose distance is below the
sentinel 100 has an in-grid neighbour to the north, east, south or west with no
wall recorded on the boundary between them and with distance exactly one less. -/
theorem recalcMaze_descent (fuel : Nat) (hf : 256 ≤ fuel) (w : Walls) (m : Nodes)
    (hm : CoordsOK m) :
    ∃ r, recalcMaze fuel w m = some r ∧
      ((r 7 7).dist = 0 ∧ (r 8 7).dist = 0 ∧ (r 7 8).dist = 0 ∧ (r 8 8).dist = 0) ∧
      ∀ x, x < 16 → ∀ y, y < 16 → ¬ isGoal (x, y) → (r x y).dist < 100 →
        (1 ≤ y ∧ w x y 1 = false ∧ (r x (y - 1)).dist + 1 = (r x y).dist) ∨
        (x + 1 < 16 ∧ w (x + 1) y 0 = false ∧ (r (x + 1) y).dist + 1 = (r x y).dist) ∨
        (y + 1 < 16 ∧ w x (y + 1) 1 = false ∧ (r x (y + 1)).dist + 1 = (r x y).dist) ∨
        (1 ≤ x ∧ w x y 0 = false ∧ (r (x - 1) y).dist + 1 = (r x y).dist) := by
  obtain ⟨r, h1, _, h3⟩ := recalcMaze_spec w hm hf
  refine ⟨r, h1, ⟨h3.goal_zero (by decide), h3.goal_zero (by decide),
    h3.goal_zero (by decide), h3.goal_zero (by decide)⟩, ?_⟩
  intro x hx y hy hng hlt
  exact h3.descent hx hy hng hlt

theorem recalcMaze_descent_witness :
    256 ≤ 256 ∧ CoordsOK gridNodes ∧
    ∃ r, recalcMaze 256 noWalls gridNodes = some r ∧
      ((r 7 7).dist = 0 ∧ (r 8 7).dist = 0 ∧ (r 7 8).dist = 0 ∧ (r 8 8).dist = 0) ∧
      ∀ x, x < 16 → ∀ y, y < 16 → ¬ isGoal (x, y) → (r x y).dist < 100 →
        (1 ≤ y ∧ noWalls x y 1 = false ∧ (r x (y - 1)).dist + 1 = (r x y).dist) ∨
        (x + 1 < 16 ∧ noWalls (x + 1) y 0 = false ∧
          (r (x + 1) y).dist + 1 = (r x y).dist) ∨
        (y + 1 < 16 ∧ noWalls x (y + 1) 1 = false ∧
          (r x (y + 1)).dist + 1 = (r x y).dist) ∨
        (1 ≤ x ∧ noWalls x y 0 = false ∧ (r (x - 1) y).dist + 1 = (r x y).dist) :=
  ⟨le_refl 256, gridNodes_coords,
    recalcMaze_descent 256 (le_refl 256) noWalls gridNodes gridNodes_coords⟩

/-- C3 (P2): when every wall present in `w` is present in `v`, recalcMaze
terminates on both wall stores and the distance of every cell of the grid under
`v` is greater than or equal to its distance under `w`. -/
theorem recalcMaze_monotone (fuel : Nat) (hf : 256 ≤ fuel) (w v : Walls)
    (hwv : ∀ x y o, w x y o = true → v x y o = true) (m n : Nodes)
    (hm : CoordsOK m) (hn : CoordsOK n) :
    ∃ r s, recalcMaze fuel w m = some r ∧ recalcMaze fuel v n = some s ∧
      ∀ x, x < 16 → ∀ y, y < 16 → (s x y).dist ≥ (r x y).dist := by
  obtain ⟨r, h1, _, h3⟩ := recalcMaze_spec w hm hf
  obtain ⟨s, k1, _, k3⟩ := recalcMaze_spec v hn hf
  exact ⟨r, s, h1, k1, fun x hx y hy => h3.le_of_walls k3 hwv hx hy⟩

theorem recalcMaze_monotone_witness :
    256 ≤ 256 ∧ (∀ x y o, noWalls x y o = true → sealedWalls x y o = true) ∧
    CoordsOK gridNodes ∧ CoordsOK gridNodes ∧
    ∃ r s, recalcMaze 256 noWalls gridNodes = some r ∧
      recalcMaze 256 sealedWalls gridNodes = some s ∧
      ∀ x, x < 16 → ∀ y, y < 16 → (s x y).dist ≥ (r x y).dist :=
  ⟨le_refl 256, fun _ _ _ h => Bool.noConfusion h, gridNodes_coords, gridNodes_coords,
    recalcMaze_monotone 256 (le_refl 256) noWalls sealedWalls
      (fun _ _ _ h => Bool.noConfusion h) gridNodes gridNodes gridNodes_coords
      gridNodes_coords⟩

/-- C10: for every wall store, recalcMaze terminates, every cell of the grid that
is not connected to a goal cell through in-grid wall-free boundaries has
distance exactly 100 and the four goal cells have distance 0; in particular,
when the eight boundaries around the goal block are walled, every non-goal cell
of the grid, the start cell (0,0) included, has distance 100. -/
theorem recalcMaze_unreachable (fuel : Nat) (hf : 256 ≤ fuel) (w : Walls) (m : Nodes)
    (hm : CoordsOK m) :
    ∃ r, recalcMaze fuel w m = some r ∧
      (∀ x, x < 16 → ∀ y, y < 16 → ¬ Connected w x y → (r x y).dist = 100) ∧
      ((r 7 7).dist = 0 ∧ (r 8 7).dist = 0 ∧ (r 7 8).dist = 0 ∧ (r 8 8).dist = 0) ∧
      (goalSealed w →
        (∀ x, x < 16 → ∀ y, y < 16 → ¬ isGoal (x, y) → (r x y).dist = 100) ∧
        (r 0 0).dist = 100) := by
  obtain ⟨r, h1, _, h3⟩ := recalcMaze_spec w hm hf
  refine ⟨r, h1, fun x hx y hy hc => h3.dist_of_not_connected hx hy hc,
    ⟨h3.goal_zero (by decide), h3.goal_zero (by decide), h3.goal_zero (by decide),
      h3.goal_zero (by decide)⟩, fun hs => ?_⟩
  have hall : ∀ x, x < 16 → ∀ y, y < 16 → ¬ isGoal (x, y) → (r x y).dist = 100 :=
    fun x hx y hy hng =>
      h3.dist_of_not_connected hx hy (fun ⟨k, hk⟩ => hng (goalSealed_closed hs k x y hk))
  exact ⟨hall, hall 0 (by decide) 0 (by decide) (by decide)⟩

theorem recalcMaze_unreachable_witness :
    256 ≤ 256 ∧ CoordsOK gridNodes ∧ goalSealed sealedWalls ∧
    ∃ r, recalcMaze 256 sealedWalls gridNodes = some r ∧
      ((r 7 7).dist = 0 ∧ (r 8 7).dist = 0 ∧ (r 7 8).dist = 0 ∧ (r 8 8).dist = 0) ∧
      (∀ x, x < 16 → ∀ y, y < 16 → ¬ isGoal (x, y) → (r x y).dist = 100) ∧
      (r 0 0).dist = 100 := by
  refine ⟨le_refl 256, gridNodes_coords, sealedWalls_sealed, ?_⟩
  obtain ⟨r, h1, _, h3, h4⟩ :=
    recalcMaze_unreachable 256 (le_refl 256) sealedWalls gridNodes gridNodes_coords
  exact ⟨r, h1, h3, h4 sealedWalls_sealed⟩

/-! ## Claims about updateWalls -/

theorem setWallFlag_apply (w : Walls) (x y o : Nat) (b : Bool) (i j k : Nat) :
    setWallFlag w x y o b i j k = if i = x ∧ j = y ∧ k = o then b else w i j k := rfl

/-- C4, as stated, fails: after the start cell's north boundary was recorded
(facing east, wall on the left), a second call of updateWalls in the same place
with all readings false clears that flag. -/
theorem updateWalls_clears_counterexample :
    northWallState.mazeWalls 0 0 1 = true ∧
    (updateWalls northWallState false false false).1.mazeWalls 0 0 1 = false := by
  decide

theorem updateWalls_invalid (s : State) (wl wf wr : Bool) (h : ¬ validFacing s.facing) :
    updateWalls s wl wf wr = (s, []) := by
  unfold validFacing at h
  unfold updateWalls
  rw [if_neg (fun e => h (Or.inl e)), if_neg (fun e => h (Or.inr (Or.inl e))),
    if_neg (fun e => h (Or.inr (Or.inr (Or.inl e)))),
    if_neg (fun e => h (Or.inr (Or.inr (Or.inr e))))]

/-- The wall store after updateWalls: the flags of the right, front and left
boundary hold their readings, every other flag is as before. -/
theorem updateWalls_apply (s : State) (wl wf wr : Bool) (hv : validFacing s.facing)
    (x y o : Nat) :
    (updateWalls s wl wf wr).1.mazeWalls x y o =
      if (x, y, o) = boundaryFlag (rightOf s.facing) s.xPos s.yPos then wr
      else if (x, y, o) = boundaryFlag s.facing s.xPos s.yPos then wf
      else if (x, y, o) = boundaryFlag (leftOf s.facing) s.xPos s.yPos then wl
      else s.mazeWalls x y o := by
  rcases hv with h | h | h | h <;>
    simp [updateWalls, h, setWallFlag_apply, boundaryFlag, leftOf, rightOf]

theorem updateWalls_frame (s : State) (wl wf wr : Bool) :
    (updateWalls s wl wf wr).1.mazeNodes = s.mazeNodes ∧
    (updateWalls s wl wf wr).1.facing = s.facing ∧
    (updateWalls s wl wf wr).1.xPos = s.xPos ∧
    (updateWalls s wl wf wr).1.yPos = s.yPos := by
  unfold updateWalls
  split_ifs <;> exact ⟨rfl, rfl, rfl, rfl⟩

theorem boundaryFlag_distinct (f x y : Nat) (hv : validFacing f) :
    boundaryFlag (leftOf f) x y ≠ boundaryFlag f x y ∧
    boundaryFlag f x y ≠ boundaryFlag (rightOf f) x y ∧
    boundaryFlag (leftOf f) x y ≠ boundaryFlag (rightOf f) x y := by
  rcases hv with h | h | h | h <;> subst h <;>
    simp [boundaryFlag, leftOf, rightOf]

/-- C4, amended: a wall flag that is true before updateWalls is still true after,
provided that it is not given a false reading, that is, it is none of the three
flags (left, front, right boundary of the robot's cell) that updateWalls
overwrites with a false reading. -/
theorem updateWalls_keeps (s : State) (wl wf wr : Bool) (x y o : Nat)
    (h : s.mazeWalls x y o = true)
    (hl : (x, y, o) = boundaryFlag (leftOf s.facing) s.xPos s.yPos → wl = true)
    (hf : (x, y, o) = boundaryFlag s.facing s.xPos s.yPos → wf = true)
    (hr : (x, y, o) = boundaryFlag (rightOf s.facing) s.xPos s.yPos → wr = true) :
    (updateWalls s wl wf wr).1.mazeWalls x y o = true := by
  by_cases hv : validFacing s.facing
  · rw [updateWalls_apply s wl wf wr hv]
    split_ifs with a b c
    · exact hr a
    · exact hf b
    · exact hl c
    · exact h
  · rw [updateWalls_invalid s wl wf wr hv]
    exact h

theorem updateWalls_keeps_witness :
    northWallState.mazeWalls 0 0 1 = true ∧
    (updateWalls northWallState true false false).1.mazeWalls 0 0 1 = true :=
  ⟨by decide, updateWalls_keeps northWallState true false false 0 0 1 (by decide)
    (fun _ => rfl) (fun h => absurd h (by decide)) (fun h => absurd h (by decide))⟩

/-- C5 (P5): for each of the four facings and every triple of readings,
updateWalls sets the flags of the boundaries to the left, in front and to the
right of the robot's cell (facing N: W/N/E, E: N/E/S, S: E/S/W, W: S/W/N, with
north `[x][y][1]`, east `[x+1][y][0]`, south `[x][y+1][1]`, west `[x][y][0]`) to
the left, front and right reading; these are three different flags; every other
flag, the node array, the facing and the position are unchanged. From the
all-absent wall store at (0,0) facing east with readings (true, false, false)
the wall store gains exactly the north boundary of (0,0). -/
theorem updateWalls_writes (s : State) (wl wf wr : Bool) (hv : validFacing s.facing) :
    wallAt (updateWalls s wl wf wr).1.mazeWalls
      (boundaryFlag (leftOf s.facing) s.xPos s.yPos) = wl ∧
    wallAt (updateWalls s wl wf wr).1.mazeWalls
      (boundaryFlag s.facing s.xPos s.yPos) = wf ∧
    wallAt (updateWalls s wl wf wr).1.mazeWalls
      (boundaryFlag (rightOf s.facing) s.xPos s.yPos) = wr ∧
    (boundaryFlag (leftOf s.facing) s.xPos s.yPos ≠ boundaryFlag s.facing s.xPos s.yPos ∧
      boundaryFlag s.facing s.xPos s.yPos ≠ boundaryFlag (rightOf s.facing) s.xPos s.yPos ∧
      boundaryFlag (leftOf s.facing) s.xPos s.yPos ≠
        boundaryFlag (rightOf s.facing) s.xPos s.yPos) ∧
    (∀ x y o, (x, y, o) ≠ boundaryFlag (leftOf s.facing) s.xPos s.yPos →
      (x, y, o) ≠ boundaryFlag s.facing s.xPos s.yPos →
      (x, y, o) ≠ boundaryFlag (rightOf s.facing) s.xPos s.yPos →
      (updateWalls s wl wf wr).1.mazeWalls x y o = s.mazeWalls x y o) ∧
    (updateWalls s wl wf wr).1.mazeNodes = s.mazeNodes ∧
    (updateWalls s wl wf wr).1.facing = s.facing ∧
    (updateWalls s wl wf wr).1.xPos = s.xPos ∧
    (updateWalls s wl wf wr).1.yPos = s.yPos ∧
    (initState.facing = EAST ∧ initState.xPos = 0 ∧ initState.yPos = 0 ∧
      (∀ x y o, initState.mazeWalls x y o = false) ∧
      ∀ x y o, (updateWalls initState true false false).1.mazeWalls x y o = true ↔
        (x, y, o) = boundaryFlag NORTH 0 0) := by
  obtain ⟨d1, d2, d3⟩ := boundaryFlag_distinct s.facing s.xPos s.yPos hv
  refine ⟨?_, ?_, ?_, ⟨d1, d2, d3⟩, ?_, (updateWalls_frame s wl wf wr).1,
    (updateWalls_frame s wl wf wr).2.1, (updateWalls_frame s wl wf wr).2.2.1,
    (updateWalls_frame s wl wf wr).2.2.2, rfl, rfl, rfl, fun _ _ _ => rfl, ?_⟩
  · unfold wallAt
    rw [updateWalls_apply s wl wf wr hv, if_neg d3, if_neg d1, if_pos rfl]
  · unfold wallAt
    rw [updateWalls_apply s wl wf wr hv, if_neg d2, if_pos rfl]
  · unfold wallAt
    rw [updateWalls_apply s wl wf wr hv, if_pos rfl]
  · intro x y o h1 h2 h3
    rw [updateWalls_apply s wl wf wr hv, if_neg h3, if_neg h2, if_neg h1]
  · intro x y o
    have e1 : boundaryFlag NORTH 0 0 = (0, 0, 1) := rfl
    have e2 : (updateWalls initState true false false).1.mazeWalls x y o =
        if x = 0 ∧ y = 1 ∧ o = 1 then false
        else if x = 1 ∧ y = 0 ∧ o = 0 then false
        else if x = 0 ∧ y = 0 ∧ o = 1 then true else false := rfl
    rw [e1, e2, Prod.mk.injEq, Prod.mk.injEq]
    constructor
    · intro h
      split_ifs at h with a b c
      exact c
    · rintro ⟨rfl, rfl, rfl⟩
      simp

theorem updateWalls_writes_witness :
    validFacing initState.facing ∧
    wallAt (updateWalls initState true false false).1.mazeWalls (0, 0, 1) = true ∧
    wallAt (updateWalls initState true false false).1.mazeWalls (1, 0, 0) = false ∧
    wallAt (updateWalls initState true false false).1.mazeWalls (0, 1, 1) = false :=
  ⟨by decide, (updateWalls_writes initState true false false (by decide)).1,
    (updateWalls_writes initState true false false (by decide)).2.1,
    (updateWalls_writes initState true false false (by decide)).2.2.1⟩

/-! ## Claims about rotateMove -/

theorem eligible_south (s : State) :
    eligible s SOUTH ↔
      (s.mazeWalls s.xPos (s.yPos + 1) 1 = false ∧ s.yPos + 1 < 16 ∧
        (s.mazeNodes s.xPos (s.yPos + 1)).dist < (s.mazeNodes s.xPos s.yPos).dist) :=
  Iff.rfl

theorem eligible_east (s : State) :
    eligible s EAST ↔
      (s.mazeWalls (s.xPos + 1) s.yPos 0 = false ∧ s.xPos + 1 < 16 ∧
        (s.mazeNodes (s.xPos + 1) s.yPos).dist < (s.mazeNodes s.xPos s.yPos).dist) :=
  Iff.rfl

theorem eligible_west (s : State) :
    eligible s WEST ↔
      (s.mazeWalls s.xPos s.yPos 0 = false ∧ 1 ≤ s.xPos ∧
        (s.mazeNodes (s.xPos - 1) s.yPos).dist < (s.mazeNodes s.xPos s.yPos).dist) :=
  Iff.rfl

theorem eligible_north (s : State) :
    eligible s NORTH ↔
      (s.mazeWalls s.xPos s.yPos 1 = false ∧ 1 ≤ s.yPos ∧
        (s.mazeNodes s.xPos (s.yPos - 1)).dist < (s.mazeNodes s.xPos s.yPos).dist) :=
  Iff.rfl

/-- The decision of rotateMove in terms of eligible directions: the first
eligible direction in the order south, east, west, north is taken, and with no
eligible direction the distances are recomputed. -/
theorem rotateMove_eq (fuel : Nat) (s : State) (hc : CoordsOK s.mazeNodes)
    (hx : s.xPos < 16) (hy : s.yPos < 16) :
    rotateMove fuel s =
      if eligible s SOUTH then
        some (true, moved s SOUTH, rotate s.facing SOUTH ++ [Action.moveForward])
      else if eligible s EAST then
        some (true, moved s EAST, rotate s.facing EAST ++ [Action.moveForward])
      else if eligible s WEST then
        some (true, moved s WEST, rotate s.facing WEST ++ [Action.moveForward])
      else if eligible s NORTH then
        some (true, moved s NORTH, rotate s.facing NORTH ++ [Action.moveForward])
      else
        (recalcMaze fuel s.mazeWalls s.mazeNodes).map
          (fun r => (false, { s with mazeNodes := r }, [])) := by
  obtain ⟨cx, cy⟩ := hc s.xPos hx s.yPos hy
  unfold rotateMove
  simp only [cx, cy]
  by_cases hS : eligible s SOUTH
  · rw [if_pos hS, if_pos ((eligible_south s).1 hS)]
    have e : (s.yPos + 1) % 256 = s.yPos + 1 := Nat.mod_eq_of_lt (by omega)
    rw [e]
    rfl
  · rw [if_neg hS, if_neg (fun h => hS ((eligible_south s).2 h))]
    by_cases hE : eligible s EAST
    · rw [if_pos hE, if_pos ((eligible_east s).1 hE)]
      have e : (s.xPos + 1) % 256 = s.xPos + 1 := Nat.mod_eq_of_lt (by omega)
      rw [e]
      rfl
    · rw [if_neg hE, if_neg (fun h => hE ((eligible_east s).2 h))]
      by_cases hW : eligible s WEST
      · rw [if_pos hW, if_pos ((eligible_west s).1 hW)]
        have h1 := ((eligible_west s).1 hW).2.1
        have e : (s.xPos + 256 - 1) % 256 = s.xPos - 1 := by omega
        rw [e]
        rfl
      · rw [if_neg hW, if_neg (fun h => hW ((eligible_west s).2 h))]
        by_cases hN : eligible s NORTH
        · rw [if_pos hN, if_pos ((eligible_north s).1 hN)]
          have h1 := ((eligible_north s).1 hN).2.1
          have e : (s.yPos + 256 - 1) % 256 = s.yPos - 1 := by omega
          rw [e]
          rfl
        · rw [if_neg hN, if_neg (fun h => hN ((eligible_north s).2 h))]

theorem rotate_count (f d : Nat) : (rotate f d).count Action.moveForward = 0 := by
  unfold rotate
  split_ifs <;> decide

theorem manhattanNodes_coords : CoordsOK manhattanNodes :=
  fun _ _ _ _ => ⟨rfl, rfl⟩

/-- C6: in a state with an in-grid robot position, rotateMove moves in the first
eligible direction in the order south, east, west, north: south when south is
eligible, east when east is eligible and south is not, west when west is
eligible and neither south nor east is, north when north is eligible and none
of the other three is. A move turns to the new direction, issues moveForward,
sets facing to the direction and the position to the neighbour, and returns
true. -/
theorem rotateMove_priority (fuel : Nat) (s : State) (hc : CoordsOK s.mazeNodes)
    (hx : s.xPos < 16) (hy : s.yPos < 16) :
    (eligible s SOUTH →
      rotateMove fuel s =
        some (true, moved s SOUTH, rotate s.facing SOUTH ++ [Action.moveForward])) ∧
    (¬ eligible s SOUTH → eligible s EAST →
      rotateMove fuel s =
        some (true, moved s EAST, rotate s.facing EAST ++ [Action.moveForward])) ∧
    (¬ eligible s SOUTH → ¬ eligible s EAST → eligible s WEST →
      rotateMove fuel s =
        some (true, moved s WEST, rotate s.facing WEST ++ [Action.moveForward])) ∧
    (¬ eligible s SOUTH → ¬ eligible s EAST → ¬ eligible s WEST → eligible s NORTH →
      rotateMove fuel s =
        some (true, moved s NORTH, rotate s.facing NORTH ++ [Action.moveForward])) := by
  rw [rotateMove_eq fuel s hc hx hy]
  refine ⟨fun h => ?_, fun h1 h => ?_, fun h1 h2 h => ?_, fun h1 h2 h3 h => ?_⟩
  · rw [if_pos h]
  · rw [if_neg h1, if_pos h]
  · rw [if_neg h1, if_neg h2, if_pos h]
  · rw [if_neg h1, if_neg h2, if_neg h3, if_pos h]

theorem rotateMove_priority_witness :
    CoordsOK descentState.mazeNodes ∧ descentState.xPos < 16 ∧ descentState.yPos < 16 ∧
    eligible descentState SOUTH ∧ eligible descentState EAST ∧
    rotateMove 256 descentState =
      some (true, moved descentState SOUTH,
        rotate descentState.facing SOUTH ++ [Action.moveForward]) :=
  ⟨manhattanNodes_coords, by decide, by decide, by decide, by decide,
    (rotateMove_priority 256 descentState manhattanNodes_coords (by decide) (by decide)).1
      (by decide)⟩

/-- What a move in an eligible direction does to the globals. -/
theorem moved_spec (s : State) (d : Nat) (hv : validFacing d) (he : eligible s d)
    (hx : s.xPos < 16) (hy : s.yPos < 16) :
    ((moved s d).xPos = s.xPos ∧ (moved s d).yPos = s.yPos + 1 ∨
      (moved s d).xPos = s.xPos + 1 ∧ (moved s d).yPos = s.yPos ∨
      (moved s d).xPos + 1 = s.xPos ∧ (moved s d).yPos = s.yPos ∨
      (moved s d).xPos = s.xPos ∧ (moved s d).yPos + 1 = s.yPos) ∧
    (moved s d).xPos < 16 ∧ (moved s d).yPos < 16 ∧
    ((moved s d).mazeNodes (moved s d).xPos (moved s d).yPos).dist <
      (s.mazeNodes s.xPos s.yPos).dist ∧
    (moved s d).facing = d ∧ (moved s d).mazeWalls = s.mazeWalls ∧
    (moved s d).mazeNodes = s.mazeNodes := by
  rcases hv with h | h | h | h <;> subst h
  · obtain ⟨_, h2, h3⟩ := (eligible_north s).1 he
    refine ⟨Or.inr (Or.inr (Or.inr ⟨rfl, ?_⟩)), hx, ?_, h3, rfl, rfl, rfl⟩
    · show s.yPos - 1 + 1 = s.yPos
      omega
    · show s.yPos - 1 < 16
      omega
  · obtain ⟨_, h2, h3⟩ := (eligible_east s).1 he
    exact ⟨Or.inr (Or.inl ⟨rfl, rfl⟩), h2, hy, h3, rfl, rfl, rfl⟩
  · obtain ⟨_, h2, h3⟩ := (eligible_south s).1 he
    exact ⟨Or.inl ⟨rfl, rfl⟩, hx, h2, h3, rfl, rfl, rfl⟩
  · obtain ⟨_, h2, h3⟩ := (eligible_west s).1 he
    refine ⟨Or.inr (Or.inr (Or.inl ⟨?_, rfl⟩)), ?_, hy, h3, rfl, rfl, rfl⟩
    · show s.xPos - 1 + 1 = s.xPos
      omega
    · show s.xPos - 1 < 16
      omega

theorem move_count (f d : Nat) :
    (rotate f d ++ [Action.moveForward]).count Action.moveForward = 1 := by
  rw [List.count_append, rotate_count]
  rfl

/-- C7: in a state with an in-grid robot position, rotateMove returns true if
and only if some direction is eligible (an in-grid neighbour across a wall-free
boundary with strictly smaller distance); when it returns true the position
changes by exactly one cell to such a neighbour, the distance at the new
position is strictly less than at the old one, facing is the direction moved,
moveForward is issued exactly once, and the wall store and the node array are
unchanged. -/
theorem rotateMove_greedy (fuel : Nat) (hf : 256 ≤ fuel) (s : State)
    (hc : CoordsOK s.mazeNodes) (hx : s.xPos < 16) (hy : s.yPos < 16) :
    ∃ b t acts, rotateMove fuel s = some (b, t, acts) ∧
      (b = true ↔ ∃ d, validFacing d ∧ eligible s d) ∧
      (b = true → ∃ d, validFacing d ∧ eligible s d ∧ t = moved s d ∧
        (t.xPos, t.yPos) = neighbour d s.xPos s.yPos ∧
        (t.xPos = s.xPos ∧ t.yPos = s.yPos + 1 ∨ t.xPos = s.xPos + 1 ∧ t.yPos = s.yPos ∨
          t.xPos + 1 = s.xPos ∧ t.yPos = s.yPos ∨ t.xPos = s.xPos ∧ t.yPos + 1 = s.yPos) ∧
        t.xPos < 16 ∧ t.yPos < 16 ∧
        (t.mazeNodes t.xPos t.yPos).dist < (s.mazeNodes s.xPos s.yPos).dist ∧
        t.facing = d ∧ acts = rotate s.facing d ++ [Action.moveForward] ∧
        acts.count Action.moveForward = 1 ∧
        t.mazeWalls = s.mazeWalls ∧ t.mazeNodes = s.mazeNodes) := by
  have key : ∀ d, validFacing d → eligible s d →
      ∃ b t acts, some (true, moved s d, rotate s.facing d ++ [Action.moveForward]) =
          some (b, t, acts) ∧
        (b = true ↔ ∃ d, validFacing d ∧ eligible s d) ∧
        (b = true → ∃ d, validFacing d ∧ eligible s d ∧ t = moved s d ∧
          (t.xPos, t.yPos) = neighbour d s.xPos s.yPos ∧
          (t.xPos = s.xPos ∧ t.yPos = s.yPos + 1 ∨ t.xPos = s.xPos + 1 ∧ t.yPos = s.yPos ∨
            t.xPos + 1 = s.xPos ∧ t.yPos = s.yPos ∨
            t.xPos = s.xPos ∧ t.yPos + 1 = s.yPos) ∧
          t.xPos < 16 ∧ t.yPos < 16 ∧
          (t.mazeNodes t.xPos t.yPos).dist < (s.mazeNodes s.xPos s.yPos).dist ∧
          t.facing = d ∧ acts = rotate s.facing d ++ [Action.moveForward] ∧
          acts.count Action.moveForward = 1 ∧
          t.mazeWalls = s.mazeWalls ∧ t.mazeNodes = s.mazeNodes) := by
    intro d hv he
    obtain ⟨m1, m2, m3, m4, m5, m6, m7⟩ := moved_spec s d hv he hx hy
    exact ⟨true, moved s d, _, rfl, ⟨fun _ => ⟨d, hv, he⟩, fun _ => rfl⟩,
      fun _ => ⟨d, hv, he, rfl, rfl, m1, m2, m3, m4, m5, rfl, move_count _ _, m6, m7⟩⟩
  rw [rotateMove_eq fuel s hc hx hy]
  by_cases hS : eligible s SOUTH
  · rw [if_pos hS]
    exact key SOUTH (Or.inr (Or.inr (Or.inl rfl))) hS
  rw [if_neg hS]
  by_cases hE : eligible s EAST
  · rw [if_pos hE]
    exact key EAST (Or.inr (Or.inl rfl)) hE
  rw [if_neg hE]
  by_cases hW : eligible s WEST
  · rw [if_pos hW]
    exact key WEST (Or.inr (Or.inr (Or.inr rfl))) hW
  rw [if_neg hW]
  by_cases hN : eligible s NORTH
  · rw [if_pos hN]
    exact key NORTH (Or.inl rfl) hN
  rw [if_neg hN]
  obtain ⟨r, h1, _, _⟩ := recalcMaze_spec s.mazeWalls hc hf
  rw [h1]
  have hnone : ¬ ∃ d, validFacing d ∧ eligible s d := by
    rintro ⟨d, hv, he⟩
    rcases hv with h | h | h | h <;> subst h
    · exact hN he
    · exact hE he
    · exact hS he
    · exact hW he
  refine ⟨false, { s with mazeNodes := r }, [], rfl, ?_, fun h => Bool.noConfusion h⟩
  exact ⟨fun h => Bool.noConfusion h, fun h => absurd h hnone⟩

theorem rotateMove_greedy_witness :
    256 ≤ 256 ∧ CoordsOK descentState.mazeNodes ∧ descentState.xPos < 16 ∧
    descentState.yPos < 16 ∧
    ∃ b t acts, rotateMove 256 descentState = some (b, t, acts) ∧
      (b = true ↔ ∃ d, validFacing d ∧ eligible descentState d) ∧
      (b = true → ∃ d, validFacing d ∧ eligible descentState d ∧ t = moved descentState d ∧
        (t.xPos, t.yPos) = neighbour d descentState.xPos descentState.yPos ∧
        (t.xPos = descentState.xPos ∧ t.yPos = descentState.yPos + 1 ∨
          t.xPos = descentState.xPos + 1 ∧ t.yPos = descentState.yPos ∨
          t.xPos + 1 = descentState.xPos ∧ t.yPos = descentState.yPos ∨
          t.xPos = descentState.xPos ∧ t.yPos + 1 = descentState.yPos) ∧
        t.xPos < 16 ∧ t.yPos < 16 ∧
        (t.mazeNodes t.xPos t.yPos).dist <
          (descentState.mazeNodes descentState.xPos descentState.yPos).dist ∧
        t.facing = d ∧ acts = rotate descentState.facing d ++ [Action.moveForward] ∧
        acts.count Action.moveForward = 1 ∧
        t.mazeWalls = descentState.mazeWalls ∧ t.mazeNodes = descentState.mazeNodes) :=
  ⟨le_refl 256, manhattanNodes_coords, by decide, by decide,
    rotateMove_greedy 256 (le_refl 256) descentState manhattanNodes_coords (by decide)
      (by decide)⟩

/-- C8: in a state with an in-grid robot position in which no direction is
eligible, rotateMove returns false, issues no API call, leaves position, facing
and the wall store unchanged, and replaces the node array by the result of
recalcMaze on the current wall store. -/
theorem rotateMove_stuck (fuel : Nat) (hf : 256 ≤ fuel) (s : State)
    (hc : CoordsOK s.mazeNodes) (hx : s.xPos < 16) (hy : s.yPos < 16)
    (hn : ∀ d, validFacing d → ¬ eligible s d) :
    ∃ r t, recalcMaze fuel s.mazeWalls s.mazeNodes = some r ∧
      rotateMove fuel s = some (false, t, []) ∧
      t.mazeNodes = r ∧ t.mazeWalls = s.mazeWalls ∧ t.facing = s.facing ∧
      t.xPos = s.xPos ∧ t.yPos = s.yPos := by
  obtain ⟨r, h1, _, _⟩ := recalcMaze_spec s.mazeWalls hc hf
  refine ⟨r, { s with mazeNodes := r }, h1, ?_, rfl, rfl, rfl, rfl, rfl⟩
  rw [rotateMove_eq fuel s hc hx hy, if_neg (hn SOUTH (Or.inr (Or.inr (Or.inl rfl)))),
    if_neg (hn EAST (Or.inr (Or.inl rfl))), if_neg (hn WEST (Or.inr (Or.inr (Or.inr rfl)))),
    if_neg (hn NORTH (Or.inl rfl)), h1]
  rfl

theorem stuckState_stuck : ∀ d, validFacing d → ¬ eligible stuckState d := by
  intro d hv
  rcases hv with h | h | h | h <;> subst h <;> decide

theorem rotateMove_stuck_witness :
    256 ≤ 256 ∧ CoordsOK stuckState.mazeNodes ∧ stuckState.xPos < 16 ∧
    stuckState.yPos < 16 ∧ (∀ d, validFacing d → ¬ eligible stuckState d) ∧
    ∃ r t, recalcMaze 256 stuckState.mazeWalls stuckState.mazeNodes = some r ∧
      rotateMove 256 stuckState = some (false, t, []) ∧
      t.mazeNodes = r ∧ t.mazeWalls = stuckState.mazeWalls ∧
      t.facing = stuckState.facing ∧ t.xPos = stuckState.xPos ∧
      t.yPos = stuckState.yPos :=
  ⟨le_refl 256, manhattanNodes_coords, by decide, by decide, stuckState_stuck,
    rotateMove_stuck 256 (le_refl 256) stuckState manhattanNodes_coords (by decide)
      (by decide) stuckState_stuck⟩

/-! ## The field of the empty maze and runs of the loop -/

theorem manhattan_descent : DescentCert noWalls manhattan := by
  decide

theorem manhattan_lipschitz : LipschitzCert noWalls manhattan := by
  decide

theorem manhattan_le (x y : Nat) (hx : x < 16) (hy : y < 16) : manhattan x y ≤ 14 := by
  unfold manhattan
  omega

/-- A flood-fill field of the empty wall store holds the Manhattan distances. -/
theorem IsFloodField.manhattan {r : Nodes} (hr : IsFloodField noWalls r) {x y : Nat}
    (hx : x < 16) (hy : y < 16) : (r x y).dist = manhattan x y := by
  have h := hr.dist_eq_min hx hy (isShortest_of_cert manhattan_descent manhattan_lipschitz hx hy)
  have := manhattan_le x y hx hy
  omega

/-- The function setup terminates; it only replaces the node array. -/
theorem setup_spec (fuel : Nat) (hf : 256 ≤ fuel) :
    ∃ r, setup fuel initState = some (withNodes initState r) ∧ CoordsOK r ∧
      IsFloodField noWalls r := by
  obtain ⟨r, h1, h2, h3⟩ := setupMaze_spec initState.mazeWalls initState.mazeNodes hf
  refine ⟨r, ?_, h2, h3⟩
  unfold setup
  rw [h1]
  rfl

theorem updateWalls_withNodes (s : State) (r : Nodes) (wl wf wr : Bool) :
    updateWalls (withNodes s r) wl wf wr =
      (withNodes (updateWalls s wl wf wr).1 r, (updateWalls s wl wf wr).2) := by
  unfold updateWalls withNodes
  simp only
  split_ifs <;> rfl

theorem eligible_congr (s t : State) (hw : s.mazeWalls = t.mazeWalls)
    (hx : s.xPos = t.xPos) (hy : s.yPos = t.yPos) (hxg : t.xPos < 16) (hyg : t.yPos < 16)
    (hd : ∀ x, x < 16 → ∀ y, y < 16 → (s.mazeNodes x y).dist = (t.mazeNodes x y).dist)
    (d : Nat) (hv : validFacing d) : eligible s d ↔ eligible t d := by
  have h0 := hd t.xPos hxg t.yPos hyg
  rcases hv with h | h | h | h <;> subst h
  · rw [eligible_north, eligible_north, hw, hx, hy, h0]
    constructor <;> rintro ⟨a, b, c⟩ <;> refine ⟨a, b, ?_⟩
    · rw [← hd t.xPos hxg (t.yPos - 1) (by omega)]; exact c
    · rw [hd t.xPos hxg (t.yPos - 1) (by omega)]; exact c
  · rw [eligible_east, eligible_east, hw, hx, hy, h0]
    constructor <;> rintro ⟨a, b, c⟩ <;> refine ⟨a, b, ?_⟩
    · rw [← hd (t.xPos + 1) b t.yPos hyg]; exact c
    · rw [hd (t.xPos + 1) b t.yPos hyg]; exact c
  · rw [eligible_south, eligible_south, hw, hx, hy, h0]
    constructor <;> rintro ⟨a, b, c⟩ <;> refine ⟨a, b, ?_⟩
    · rw [← hd t.xPos hxg (t.yPos + 1) b]; exact c
    · rw [hd t.xPos hxg (t.yPos + 1) b]; exact c
  · rw [eligible_west, eligible_west, hw, hx, hy, h0]
    constructor <;> rintro ⟨a, b, c⟩ <;> refine ⟨a, b, ?_⟩
    · rw [← hd (t.xPos - 1) (by omega) t.yPos hyg]; exact c
    · rw [hd (t.xPos - 1) (by omega) t.yPos hyg]; exact c

theorem firstEligible_congr (s t : State) (hw : s.mazeWalls = t.mazeWalls)
    (hx : s.xPos = t.xPos) (hy : s.yPos = t.yPos) (hxg : t.xPos < 16) (hyg : t.yPos < 16)
    (hd : ∀ x, x < 16 → ∀ y, y < 16 → (s.mazeNodes x y).dist = (t.mazeNodes x y).dist) :
    firstEligible s = firstEligible t := by
  unfold firstEligible
  simp only [eligible_congr s t hw hx hy hxg hyg hd SOUTH (Or.inr (Or.inr (Or.inl rfl))),
    eligible_congr s t hw hx hy hxg hyg hd EAST (Or.inr (Or.inl rfl)),
    eligible_congr s t hw hx hy hxg hyg hd WEST (Or.inr (Or.inr (Or.inr rfl))),
    eligible_congr s t hw hx hy hxg hyg hd NORTH (Or.inl rfl)]

theorem rotateMove_of_first (fuel : Nat) (s : State) (hc : CoordsOK s.mazeNodes)
    (hx : s.xPos < 16) (hy : s.yPos < 16) (d : Nat) (h : firstEligible s = some d) :
    rotateMove fuel s = some (true, moved s d, rotate s.facing d ++ [Action.moveForward]) := by
  rw [rotateMove_eq fuel s hc hx hy]
  unfold firstEligible at h
  split_ifs at h ⊢ <;> (injection h with h; subst h; rfl)

/-- A list of moving iterations that passes `planOK` on a state with the same wall
store, facing, position and distances is what the loop does. -/
theorem runLoop_follow (fuel : Nat) (r : Nodes) (hc : CoordsOK r) :
    ∀ (plan : List ((Bool × Bool × Bool) × Nat)) (t : State),
      (∀ x, x < 16 → ∀ y, y < 16 → (r x y).dist = (t.mazeNodes x y).dist) →
      planOK t plan = true →
      runLoop fuel (withNodes t r) (plan.map Prod.fst) = some (withNodes (follow t plan) r) := by
  intro plan
  induction plan with
  | nil => intro t _ _; rfl
  | cons p ps ih =>
    intro t hd hp
    simp only [planOK, Bool.and_eq_true, decide_eq_true_eq] at hp
    obtain ⟨⟨hx, hy, hfe⟩, hrest⟩ := hp
    have hfr := updateWalls_frame t p.1.1 p.1.2.1 p.1.2.2
    have hfe2 : firstEligible (withNodes (updateWalls t p.1.1 p.1.2.1 p.1.2.2).1 r) = some p.2 := by
      rw [← hfe]
      refine firstEligible_congr _ _ rfl rfl rfl hx hy ?_
      intro x hx1 y hy1
      show (r x y).dist = _
      rw [hfr.1]
      exact hd x hx1 y hy1
    have hrm := rotateMove_of_first fuel
      (withNodes (updateWalls t p.1.1 p.1.2.1 p.1.2.2).1 r) hc hx hy p.2 hfe2
    have hloop : loop fuel (withNodes t r) p.1.1 p.1.2.1 p.1.2.2 =
        some (withNodes (moved (updateWalls t p.1.1 p.1.2.1 p.1.2.2).1 p.2) r,
          (updateWalls t p.1.1 p.1.2.1 p.1.2.2).2 ++
            (rotate (updateWalls t p.1.1 p.1.2.1 p.1.2.2).1.facing p.2 ++
              [Action.moveForward])) := by
      unfold loop
      simp only [updateWalls_withNodes, hrm]
      rfl
    show (loop fuel (withNodes t r) p.1.1 p.1.2.1 p.1.2.2).bind _ = _
    rw [hloop]
    show runLoop fuel (withNodes (moved (updateWalls t p.1.1 p.1.2.1 p.1.2.2).1 p.2) r)
      (ps.map Prod.fst) = _
    refine ih _ ?_ hrest
    intro x hx1 y hy1
    show (r x y).dist = ((updateWalls t p.1.1 p.1.2.1 p.1.2.2).1.mazeNodes x y).dist
    rw [hfr.1]
    exact hd x hx1 y hy1

theorem cxPlan_ok : planOK descentState cxPlan = true := by
  decide

theorem cxPlan_readings : cxPlan.map Prod.fst = cxReadings := rfl

set_option maxRecDepth 100000 in
theorem cxWalls_descent : DescentCert cxWalls bumpedManhattan := by
  decide

set_option maxRecDepth 100000 in
theorem cxWalls_lipschitz : LipschitzCert cxWalls bumpedManhattan := by
  decide

/-- The two outcomes of rotateMove: a move, which leaves the node array alone, or
a recomputation. -/
theorem rotateMove_cases (fuel : Nat) (u : State) :
    (∃ t acts, rotateMove fuel u = some (true, t, acts) ∧ t.mazeNodes = u.mazeNodes) ∨
    rotateMove fuel u =
      (recalcMaze fuel u.mazeWalls u.mazeNodes).map
        (fun r => (false, withNodes u r, [])) := by
  unfold rotateMove
  simp only
  split_ifs
  · exact Or.inl ⟨_, _, rfl, rfl⟩
  · exact Or.inl ⟨_, _, rfl, rfl⟩
  · exact Or.inl ⟨_, _, rfl, rfl⟩
  · exact Or.inl ⟨_, _, rfl, rfl⟩
  · exact Or.inr rfl

/-- One loop iteration from a state whose nodes carry their coordinates: it
terminates; when rotateMove returns false the field is the recomputation of the
wall store, when it returns true the node array is untouched. -/
theorem loop_spec (fuel : Nat) (hf : 256 ≤ fuel) (s : State) (hc : CoordsOK s.mazeNodes)
    (wl wf wr : Bool) :
    ∃ b t acts, rotateMove fuel (updateWalls s wl wf wr).1 = some (b, t, acts) ∧
      loop fuel s wl wf wr = some (t, (updateWalls s wl wf wr).2 ++ acts) ∧
      CoordsOK t.mazeNodes ∧
      (b = false → FieldIsRecalc fuel t) ∧
      (b = true → t.mazeNodes = s.mazeNodes) := by
  have hfr := updateWalls_frame s wl wf wr
  have hcu : CoordsOK (updateWalls s wl wf wr).1.mazeNodes := by rw [hfr.1]; exact hc
  have hmap : ∀ b t acts, rotateMove fuel (updateWalls s wl wf wr).1 = some (b, t, acts) →
      loop fuel s wl wf wr = some (t, (updateWalls s wl wf wr).2 ++ acts) := by
    intro b t acts h
    unfold loop
    simp only [h]
    rfl
  rcases rotateMove_cases fuel (updateWalls s wl wf wr).1 with ⟨t, acts, h, hn⟩ | hrm
  · exact ⟨true, t, acts, h, hmap _ _ _ h, by rw [hn]; exact hcu,
      fun hb => Bool.noConfusion hb, fun _ => by rw [hn, hfr.1]⟩
  · obtain ⟨r, k1, k2, k3⟩ := recalcMaze_spec (updateWalls s wl wf wr).1.mazeWalls hcu hf
    rw [k1] at hrm
    have hrm2 : rotateMove fuel (updateWalls s wl wf wr).1 =
        some (false, withNodes (updateWalls s wl wf wr).1 r, []) := hrm
    refine ⟨false, _, [], hrm2, hmap _ _ _ hrm2, k2, fun _ => ?_,
      fun hb => Bool.noConfusion hb⟩
    obtain ⟨q, q1, _, q3⟩ := recalcMaze_spec (updateWalls s wl wf wr).1.mazeWalls k2 hf
    exact ⟨q, q1, fun x hx y hy => k3.unique q3 hx hy⟩

theorem runLoop_coords (fuel : Nat) (hf : 256 ≤ fuel) :
    ∀ (rs : List (Bool × Bool × Bool)) (s t : State), CoordsOK s.mazeNodes →
      runLoop fuel s rs = some t → CoordsOK t.mazeNodes := by
  intro rs
  induction rs with
  | nil =>
    intro s t hc h
    injection h with h
    rw [← h]; exact hc
  | cons p ps ih =>
    intro s t hc h
    obtain ⟨b, u, acts, _, h2, h3, _⟩ := loop_spec fuel hf s hc p.1 p.2.1 p.2.2
    have h' : (loop fuel s p.1 p.2.1 p.2.2).bind (fun t => runLoop fuel t.1 ps) = some t := h
    rw [h2] at h'
    exact ih u t h3 h'

theorem startState_spec (fuel : Nat) (hf : 256 ≤ fuel) :
    setup fuel initState = some (startState fuel) ∧ CoordsOK (startState fuel).mazeNodes := by
  obtain ⟨r, h1, h2, _⟩ := setup_spec fuel hf
  unfold startState
  rw [h1]
  exact ⟨rfl, h2⟩

/-! ## Claim about recomputation in the loop -/

/-- C9, as stated, fails: after setup and the nine loop iterations with the
readings `cxReadings` the robot has moved in every iteration, so the distance
field is still the one of the empty maze and holds 7 at cell (0,7), while the
wall store now has a wall between (0,7) and (1,7) and its recomputation holds 8
there. -/
theorem stale_field_counterexample :
    ∃ s0 s r, setup 256 initState = some s0 ∧ runLoop 256 s0 cxReadings = some s ∧
      recalcMaze 256 s.mazeWalls s.mazeNodes = some r ∧
      (s.mazeNodes 0 7).dist = 7 ∧ (r 0 7).dist = 8 ∧ ¬ FieldIsRecalc 256 s := by
  obtain ⟨r0, h1, h2, h3⟩ := setup_spec 256 (le_refl 256)
  have hd : ∀ x, x < 16 → ∀ y, y < 16 →
      (r0 x y).dist = (descentState.mazeNodes x y).dist :=
    fun x hx y hy => h3.manhattan hx hy
  have hrun := runLoop_follow 256 r0 h2 cxPlan descentState hd cxPlan_ok
  rw [cxPlan_readings] at hrun
  obtain ⟨r, k1, _, k3⟩ := recalcMaze_spec cxWalls h2 (le_refl 256)
  have hs : IsShortest cxWalls 0 7 8 :=
    isShortest_of_cert cxWalls_descent cxWalls_lipschitz (x := 0) (y := 7) (by decide)
      (by decide)
  have hr8 : (r 0 7).dist = 8 := k3.dist_eq_min (by decide) (by decide) hs
  have h07 : (r0 0 7).dist = 7 := h3.manhattan (x := 0) (y := 7) (by decide) (by decide)
  refine ⟨_, _, r, h1, hrun, k1, h07, hr8, ?_⟩
  rintro ⟨q, q1, q2⟩
  have hq : recalcMaze 256 cxWalls r0 = some q := q1
  rw [k1] at hq
  injection hq with hq
  subst hq
  have := q2 0 (by decide) 7 (by decide)
  have e : ((withNodes (follow descentState cxPlan) r0).mazeNodes 0 7).dist = (r0 0 7).dist :=
    rfl
  rw [e, h07, hr8] at this
  exact absurd this (by decide)

/-- C9, amended: in every state reachable from setup by loop iterations, a
further loop iteration terminates; when its rotateMove returns false (no move)
the distance field at the end of the iteration equals the recomputation
(recalcMaze) of the wall store as it stands at that moment, and when it returns
true (the robot moves) the node array is left exactly as it was before the
iteration. -/
theorem loop_recompute (fuel : Nat) (hf : 256 ≤ fuel) (s0 s : State)
    (rs : List (Bool × Bool × Bool)) (h0 : setup fuel initState = some s0)
    (hr : runLoop fuel s0 rs = some s) (wl wf wr : Bool) :
    ∃ b t acts, rotateMove fuel (updateWalls s wl wf wr).1 = some (b, t, acts) ∧
      loop fuel s wl wf wr = some (t, (updateWalls s wl wf wr).2 ++ acts) ∧
      (b = false → FieldIsRecalc fuel t) ∧
      (b = true → t.mazeNodes = s.mazeNodes) := by
  have hs0 : CoordsOK s0.mazeNodes := by
    obtain ⟨e1, e2⟩ := startState_spec fuel hf
    rw [e1] at h0
    injection h0 with h0
    rw [← h0]; exact e2
  have hc := runLoop_coords fuel hf rs s0 s hs0 hr
  obtain ⟨b, t, acts, h1, h2, _, h4, h5⟩ := loop_spec fuel hf s hc wl wf wr
  exact ⟨b, t, acts, h1, h2, h4, h5⟩

theorem loop_recompute_witness :
    256 ≤ 256 ∧ setup 256 initState = some (startState 256) ∧
    runLoop 256 (startState 256) [] = some (startState 256) ∧
    ∃ b t acts,
      rotateMove 256 (updateWalls (startState 256) false true true).1 = some (b, t, acts) ∧
      loop 256 (startState 256) false true true =
        some (t, (updateWalls (startState 256) false true true).2 ++ acts) ∧
      (b = false → FieldIsRecalc 256 t) ∧
      (b = true → t.mazeNodes = (startState 256).mazeNodes) :=
  ⟨le_refl 256, (startState_spec 256 (le_refl 256)).1, rfl,
    loop_recompute 256 (le_refl 256) (startState 256) (startState 256) []
      (startState_spec 256 (le_refl 256)).1 rfl false true true⟩

/-! ## Claim about rotate -/

/-- C11: for every current facing `f` and every target direction `d` among
north, east, south, west, rotate issues no turn when `d = f`, exactly one
turnRight when `d` is 90 degrees clockwise of `f`, exactly two turnRight when
`d` is opposite to `f`, and exactly one turnLeft when `d` is 90 degrees
counter-clockwise of `f`; applying the issued turns to `f` yields `d`. -/
theorem rotate_minimal (f d : Nat) (hf : validFacing f) (hd : validFacing d) :
    (d = f → rotate f d = []) ∧
    (d = rightOf f → rotate f d = [Action.turnRight]) ∧
    (d = rightOf (rightOf f) → rotate f d = [Action.turnRight, Action.turnRight]) ∧
    (d = leftOf f → rotate f d = [Action.turnLeft]) ∧
    applyTurns f (rotate f d) = d := by
  rcases hf with h | h | h | h <;> subst h <;>
    rcases hd with h | h | h | h <;> subst h <;> decide

theorem rotate_minimal_witness :
    validFacing EAST ∧ validFacing NORTH ∧
    rotate EAST NORTH = [Action.turnLeft] ∧ applyTurns EAST (rotate EAST NORTH) = NORTH :=
  ⟨by decide, by decide,
    (rotate_minimal EAST NORTH (by decide) (by decide)).2.2.2.1 (by decide),
    (rotate_minimal EAST NORTH (by decide) (by decide)).2.2.2.2⟩

/-! ## Claim about the empty maze -/

theorem manhattan_int (x y : Nat) :
    (manhattan x y : Int) =
      max 0 (max (7 - (x : Int)) ((x : Int) - 8)) +
        max 0 (max (7 - (y : Int)) ((y : Int) - 8)) := by
  unfold manhattan
  omega

/-- C13: with no wall recorded, setupMaze terminates; afterwards the four goal
cells (7,7), (8,7), (7,8), (8,8) have distance 0, their eight non-diagonal
neighbours have distance 1, every cell (x,y) of the grid has distance
max(0, 7-x, x-8) + max(0, 7-y, y-8), no distance exceeds 14, and the four
corners have distance 14. -/
theorem setupMaze_empty (fuel : Nat) (hf : 256 ≤ fuel) (m : Nodes) :
    ∃ r, setupMaze fuel noWalls m = some r ∧
      ((r 7 7).dist = 0 ∧ (r 8 7).dist = 0 ∧ (r 7 8).dist = 0 ∧ (r 8 8).dist = 0) ∧
      ((r 7 6).dist = 1 ∧ (r 8 6).dist = 1 ∧ (r 7 9).dist = 1 ∧ (r 8 9).dist = 1 ∧
        (r 6 7).dist = 1 ∧ (r 6 8).dist = 1 ∧ (r 9 7).dist = 1 ∧ (r 9 8).dist = 1) ∧
      (∀ x, x < 16 → ∀ y, y < 16 →
        ((r x y).dist : Int) =
          max 0 (max (7 - (x : Int)) ((x : Int) - 8)) +
            max 0 (max (7 - (y : Int)) ((y : Int) - 8)) ∧
        (r x y).dist = manhattan x y ∧ (r x y).dist ≤ 14) ∧
      ((r 0 0).dist = 14 ∧ (r 15 0).dist = 14 ∧ (r 0 15).dist = 14 ∧
        (r 15 15).dist = 14) := by
  obtain ⟨r, h1, _, h3⟩ := setupMaze_spec noWalls m hf
  have hm : ∀ x, x < 16 → ∀ y, y < 16 → (r x y).dist = manhattan x y :=
    fun x hx y hy => h3.manhattan hx hy
  refine ⟨r, h1, ⟨?_, ?_, ?_, ?_⟩, ⟨?_, ?_, ?_, ?_, ?_, ?_, ?_, ?_⟩, ?_, ⟨?_, ?_, ?_, ?_⟩⟩
  · exact hm 7 (by decide) 7 (by decide)
  · exact hm 8 (by decide) 7 (by decide)
  · exact hm 7 (by decide) 8 (by decide)
  · exact hm 8 (by decide) 8 (by decide)
  · exact hm 7 (by decide) 6 (by decide)
  · exact hm 8 (by decide) 6 (by decide)
  · exact hm 7 (by decide) 9 (by decide)
  · exact hm 8 (by decide) 9 (by decide)
  · exact hm 6 (by decide) 7 (by decide)
  · exact hm 6 (by decide) 8 (by decide)
  · exact hm 9 (by decide) 7 (by decide)
  · exact hm 9 (by decide) 8 (by decide)
  · intro x hx y hy
    refine ⟨?_, hm x hx y hy, ?_⟩
    · rw [hm x hx y hy]; exact manhattan_int x y
    · rw [hm x hx y hy]; exact manhattan_le x y hx hy
  · exact hm 0 (by decide) 0 (by decide)
  · exact hm 15 (by decide) 0 (by decide)
  · exact hm 0 (by decide) 15 (by decide)
  · exact hm 15 (by decide) 15 (by decide)

theorem setupMaze_empty_witness :
    256 ≤ 256 ∧
    ∃ r, setupMaze 256 noWalls initState.mazeNodes = some r ∧
      (r 7 7).dist = 0 ∧ (r 7 6).dist = 1 ∧ (r 0 0).dist = 14 ∧ (r 3 12).dist = 8 := by
  refine ⟨le_refl 256, ?_⟩
  obtain ⟨r, h1, h2, _, h4, h5⟩ := setupMaze_empty 256 (le_refl 256) initState.mazeNodes
  exact ⟨r, h1, h2.1, (h4 7 (by decide) 6 (by decide)).2.1, h5.1, (h4 3 (by decide) 12 (by decide)).2.1⟩

/-! ## Outcomes of rotateMove and of one loop iteration -/

/-- In a state with an in-grid position whose nodes carry their coordinates,
rotateMove either moves in an eligible direction or, with no eligible direction,
replaces the node array by the flood-fill field of the wall store. -/
theorem rotateMove_outcome (fuel : Nat) (hf : 256 ≤ fuel) (s : State)
    (hc : CoordsOK s.mazeNodes) (hx : s.xPos < 16) (hy : s.yPos < 16) :
    (∃ d, validFacing d ∧ eligible s d ∧
      rotateMove fuel s =
        some (true, moved s d, rotate s.facing d ++ [Action.moveForward])) ∨
    ((∀ d, validFacing d → ¬ eligible s d) ∧
      ∃ r, recalcMaze fuel s.mazeWalls s.mazeNodes = some r ∧ CoordsOK r ∧
        IsFloodField s.mazeWalls r ∧
        rotateMove fuel s = some (false, withNodes s r, [])) := by
  rw [rotateMove_eq fuel s hc hx hy]
  by_cases hS : eligible s SOUTH
  · rw [if_pos hS]
    exact Or.inl ⟨SOUTH, Or.inr (Or.inr (Or.inl rfl)), hS, rfl⟩
  rw [if_neg hS]
  by_cases hE : eligible s EAST
  · rw [if_pos hE]
    exact Or.inl ⟨EAST, Or.inr (Or.inl rfl), hE, rfl⟩
  rw [if_neg hE]
  by_cases hW : eligible s WEST
  · rw [if_pos hW]
    exact Or.inl ⟨WEST, Or.inr (Or.inr (Or.inr rfl)), hW, rfl⟩
  rw [if_neg hW]
  by_cases hN : eligible s NORTH
  · rw [if_pos hN]
    exact Or.inl ⟨NORTH, Or.inl rfl, hN, rfl⟩
  rw [if_neg hN]
  obtain ⟨r, h1, h2, h3⟩ := recalcMaze_spec s.mazeWalls hc hf
  refine Or.inr ⟨?_, r, h1, h2, h3, ?_⟩
  · intro d hv he
    rcases hv with h | h | h | h <;> subst h
    · exact hN he
    · exact hE he
    · exact hS he
    · exact hW he
  · rw [h1]
    rfl

theorem motions_updateWalls (s : State) (wl wf wr : Bool) :
    motions (updateWalls s wl wf wr).2 = [] := by
  unfold updateWalls
  cases wl <;> cases wf <;> cases wr <;> split_ifs <;> rfl

theorem motions_rotate (f d : Nat) :
    motions (rotate f d ++ [Action.moveForward]) = rotate f d ++ [Action.moveForward] := by
  unfold rotate
  split_ifs <;> rfl

theorem motions_append (a b : List Action) : motions (a ++ b) = motions a ++ motions b := by
  unfold motions
  exact List.filter_append a b

theorem rotate_direction (f d : Nat) (hf : validFacing f) (hd : validFacing d) :
    (rotate f d ++ [Action.moveForward] = [Action.turnLeft, Action.moveForward] →
      d = leftOf f) ∧
    (rotate f d ++ [Action.moveForward] = [Action.moveForward] → d = f) ∧
    (rotate f d ++ [Action.moveForward] = [Action.turnRight, Action.moveForward] →
      d = rightOf f) := by
  rcases hf with h | h | h | h <;> subst h <;>
    rcases hd with h | h | h | h <;> subst h <;> decide

theorem updateWalls_apply_flags (s : State) (wl wf wr : Bool) (hv : validFacing s.facing) :
    wallAt (updateWalls s wl wf wr).1.mazeWalls
      (boundaryFlag (leftOf s.facing) s.xPos s.yPos) = wl ∧
    wallAt (updateWalls s wl wf wr).1.mazeWalls
      (boundaryFlag s.facing s.xPos s.yPos) = wf ∧
    wallAt (updateWalls s wl wf wr).1.mazeWalls
      (boundaryFlag (rightOf s.facing) s.xPos s.yPos) = wr := by
  obtain ⟨d1, d2, d3⟩ := boundaryFlag_distinct s.facing s.xPos s.yPos hv
  refine ⟨?_, ?_, ?_⟩
  · unfold wallAt
    rw [updateWalls_apply s wl wf wr hv, if_neg d3, if_neg d1, if_pos rfl]
  · unfold wallAt
    rw [updateWalls_apply s wl wf wr hv, if_neg d2, if_pos rfl]
  · unfold wallAt
    rw [updateWalls_apply s wl wf wr hv, if_pos rfl]

/-! ## Claim about sensed walls -/

/-- C16: one loop iteration (updateWalls then rotateMove) from a state with an
in-grid position and a valid facing terminates, and among the turns and moves
it issues: if moveForward comes after exactly one turnLeft the wallLeft reading
was false, if it comes with no turn the wallFront reading was false, and if it
comes after exactly one turnRight the wallRight reading was false. -/
theorem loop_respects_readings (fuel : Nat) (hf : 256 ≤ fuel) (s : State)
    (hc : CoordsOK s.mazeNodes) (hx : s.xPos < 16) (hy : s.yPos < 16)
    (hv : validFacing s.facing) (wl wf wr : Bool) :
    ∃ t acts, loop fuel s wl wf wr = some (t, acts) ∧
      (motions acts = [Action.turnLeft, Action.moveForward] → wl = false) ∧
      (motions acts = [Action.moveForward] → wf = false) ∧
      (motions acts = [Action.turnRight, Action.moveForward] → wr = false) := by
  obtain ⟨f1, f2, f3, f4⟩ := updateWalls_frame s wl wf wr
  have hcu : CoordsOK (updateWalls s wl wf wr).1.mazeNodes := by rw [f1]; exact hc
  have hxu : (updateWalls s wl wf wr).1.xPos < 16 := by rw [f3]; exact hx
  have hyu : (updateWalls s wl wf wr).1.yPos < 16 := by rw [f4]; exact hy
  have hloop : ∀ b t acts, rotateMove fuel (updateWalls s wl wf wr).1 = some (b, t, acts) →
      loop fuel s wl wf wr = some (t, (updateWalls s wl wf wr).2 ++ acts) := by
    intro b t acts h
    unfold loop
    simp only [h]
    rfl
  rcases rotateMove_outcome fuel hf (updateWalls s wl wf wr).1 hcu hxu hyu with
    ⟨d, hd, he, hrm⟩ | ⟨_, r, _, _, _, hrm⟩
  · refine ⟨_, _, hloop _ _ _ hrm, ?_⟩
    have hm : motions ((updateWalls s wl wf wr).2 ++
        (rotate (updateWalls s wl wf wr).1.facing d ++ [Action.moveForward])) =
        rotate s.facing d ++ [Action.moveForward] := by
      rw [motions_append, motions_updateWalls, motions_rotate, f2]
      rfl
    rw [hm]
    obtain ⟨r1, r2, r3⟩ := rotate_direction s.facing d hv hd
    have hw : wallAt (updateWalls s wl wf wr).1.mazeWalls (boundaryFlag d s.xPos s.yPos) =
        false := by
      have := he.1
      rw [f3, f4] at this
      exact this
    obtain ⟨w1, w2, w3⟩ := updateWalls_apply_flags s wl wf wr hv
    refine ⟨fun h => ?_, fun h => ?_, fun h => ?_⟩
    · rw [r1 h, w1] at hw; exact hw
    · rw [r2 h, w2] at hw; exact hw
    · rw [r3 h, w3] at hw; exact hw
  · refine ⟨_, _, hloop _ _ _ hrm, ?_⟩
    have hm : motions ((updateWalls s wl wf wr).2 ++ []) = [] := by
      rw [List.append_nil, motions_updateWalls]
    rw [hm]
    exact ⟨fun h => absurd h (by decide), fun h => absurd h (by decide),
      fun h => absurd h (by decide)⟩

theorem loop_respects_readings_witness :
    256 ≤ 256 ∧ CoordsOK descentState.mazeNodes ∧ descentState.xPos < 16 ∧
    descentState.yPos < 16 ∧ validFacing descentState.facing ∧
    ∃ t acts, loop 256 descentState false true false = some (t, acts) ∧
      (motions acts = [Action.turnLeft, Action.moveForward] → false = false) ∧
      (motions acts = [Action.moveForward] → true = false) ∧
      (motions acts = [Action.turnRight, Action.moveForward] → false = false) :=
  ⟨le_refl 256, manhattanNodes_coords, by decide, by decide, by decide,
    loop_respects_readings 256 (le_refl 256) descentState manhattanNodes_coords (by decide)
      (by decide) (by decide) false true false⟩

/-! ## The invariant of the robot state -/

theorem robotInv_setup (fuel : Nat) (hf : 256 ≤ fuel) (s0 : State)
    (h0 : setup fuel initState = some s0) : RobotInv s0 := by
  obtain ⟨r, h1, h2, h3⟩ := setup_spec fuel hf
  rw [h1] at h0
  injection h0 with h0
  subst h0
  have e1 : (0 : Nat) < 16 := by decide
  have e2 : validFacing EAST := by decide
  exact ⟨h2, e1, e1, e2, fun c hc => h3.goal_zero hc⟩

theorem robotInv_updateWalls (s : State) (h : RobotInv s) (a b c : Bool) :
    RobotInv (updateWalls s a b c).1 := by
  obtain ⟨f1, f2, f3, f4⟩ := updateWalls_frame s a b c
  obtain ⟨h1, h2, h3, h4, h5⟩ := h
  unfold RobotInv
  rw [f1, f2, f3, f4]
  exact ⟨h1, h2, h3, h4, h5⟩

/-- The function rotateMove keeps the invariant, and on a goal cell it returns
false without any API call and without changing position or facing. -/
theorem robotInv_rotateMove (fuel : Nat) (hf : 256 ≤ fuel) (s : State) (h : RobotInv s) :
    ∃ b t acts, rotateMove fuel s = some (b, t, acts) ∧ RobotInv t ∧
      (isGoal (s.xPos, s.yPos) →
        b = false ∧ acts = [] ∧ t.xPos = s.xPos ∧ t.yPos = s.yPos ∧ t.facing = s.facing) := by
  obtain ⟨h1, h2, h3, h4, h5⟩ := h
  rcases rotateMove_outcome fuel hf s h1 h2 h3 with ⟨d, hd, he, hrm⟩ | ⟨_, r, _, k2, k3, hrm⟩
  · obtain ⟨_, m2, m3, m4, m5, _, m7⟩ := moved_spec s d hd he h2 h3
    refine ⟨true, moved s d, _, hrm, ⟨?_, m2, m3, ?_, ?_⟩, ?_⟩
    · rw [m7]; exact h1
    · rw [m5]; exact hd
    · rw [m7]; exact h5
    · intro hg
      have h0 := h5 (s.xPos, s.yPos) hg
      have hlt := he.2.2
      simp only at h0
      omega
  · refine ⟨false, withNodes s r, [], hrm, ⟨k2, h2, h3, h4, fun c hc => k3.goal_zero hc⟩, ?_⟩
    intro _
    exact ⟨rfl, rfl, rfl, rfl, rfl⟩

theorem runCmds_inv (fuel : Nat) (hf : 256 ≤ fuel) :
    ∀ (cmds : List Cmd) (s : State), RobotInv s →
      ∃ t, runCmds fuel s cmds = some t ∧ RobotInv t := by
  intro cmds
  induction cmds with
  | nil => intro s h; exact ⟨s, rfl, h⟩
  | cons c cs ih =>
    intro s h
    cases c with
    | sense a b c => exact ih _ (robotInv_updateWalls s h a b c)
    | move =>
      obtain ⟨b, t, acts, h1, h2, _⟩ := robotInv_rotateMove fuel hf s h
      obtain ⟨u, u1, u2⟩ := ih t h2
      refine ⟨u, ?_, u2⟩
      show (rotateMove fuel s).bind _ = _
      rw [h1]
      exact u1

/-! ## Claim about the robot-state invariant -/

/-- C18: from the state after setup (position (0,0), facing EAST) every sequence
of updateWalls and rotateMove calls with any sensor readings terminates in a
state whose position satisfies xPos < 16 and yPos < 16 (so no 8-bit
wrap-around took place) and whose facing is NORTH (1), EAST (2), SOUTH (4) or
WEST (8). -/
theorem robot_state_invariant (fuel : Nat) (hf : 256 ≤ fuel) (s0 : State)
    (h0 : setup fuel initState = some s0) (cmds : List Cmd) :
    (s0.xPos = 0 ∧ s0.yPos = 0 ∧ s0.facing = EAST) ∧
    ∃ s, runCmds fuel s0 cmds = some s ∧ s.xPos < 16 ∧ s.yPos < 16 ∧
      (s.facing = 1 ∨ s.facing = 2 ∨ s.facing = 4 ∨ s.facing = 8) := by
  have hi := robotInv_setup fuel hf s0 h0
  obtain ⟨s, h1, _, h3, h4, h5, _⟩ := runCmds_inv fuel hf cmds s0 hi
  refine ⟨?_, s, h1, h3, h4, h5⟩
  obtain ⟨r, k1, _, _⟩ := setup_spec fuel hf
  rw [k1] at h0
  injection h0 with h0
  subst h0
  exact ⟨rfl, rfl, rfl⟩

theorem robot_state_invariant_witness :
    256 ≤ 256 ∧ setup 256 initState = some (startState 256) ∧
    ∃ s, runCmds 256 (startState 256)
        [Cmd.sense false true true, Cmd.move, Cmd.move, Cmd.sense true false false,
          Cmd.move] = some s ∧
      s.xPos < 16 ∧ s.yPos < 16 ∧
      (s.facing = 1 ∨ s.facing = 2 ∨ s.facing = 4 ∨ s.facing = 8) :=
  ⟨le_refl 256, (startState_spec 256 (le_refl 256)).1,
    (robot_state_invariant 256 (le_refl 256) (startState 256)
      (startState_spec 256 (le_refl 256)).1 _).2⟩

/-! ## The goal is absorbing -/

theorem robotInv_loop (fuel : Nat) (hf : 256 ≤ fuel) (s : State) (h : RobotInv s)
    (a b c : Bool) :
    ∃ t acts, loop fuel s a b c = some (t, acts) ∧ RobotInv t ∧
      (isGoal (s.xPos, s.yPos) →
        motions acts = [] ∧ t.xPos = s.xPos ∧ t.yPos = s.yPos ∧ t.facing = s.facing) := by
  obtain ⟨_, f2, f3, f4⟩ := updateWalls_frame s a b c
  obtain ⟨k, t, acts, h1, h2, h3⟩ :=
    robotInv_rotateMove fuel hf _ (robotInv_updateWalls s h a b c)
  refine ⟨t, (updateWalls s a b c).2 ++ acts, ?_, h2, ?_⟩
  · unfold loop
    simp only [h1]
    rfl
  · intro hg
    rw [f3, f4, f2] at h3
    obtain ⟨_, e2, e3, e4, e5⟩ := h3 hg
    rw [e2, List.append_nil, motions_updateWalls]
    exact ⟨rfl, e3, e4, e5⟩

theorem runLoop_inv (fuel : Nat) (hf : 256 ≤ fuel) :
    ∀ (rs : List (Bool × Bool × Bool)) (s : State), RobotInv s →
      ∃ t, runLoop fuel s rs = some t ∧ RobotInv t ∧
        (isGoal (s.xPos, s.yPos) →
          t.xPos = s.xPos ∧ t.yPos = s.yPos ∧ t.facing = s.facing) := by
  intro rs
  induction rs with
  | nil => intro s h; exact ⟨s, rfl, h, fun _ => ⟨rfl, rfl, rfl⟩⟩
  | cons p ps ih =>
    intro s h
    obtain ⟨t, acts, h1, h2, h3⟩ := robotInv_loop fuel hf s h p.1 p.2.1 p.2.2
    obtain ⟨u, u1, u2, u3⟩ := ih t h2
    refine ⟨u, ?_, u2, ?_⟩
    · show (loop fuel s p.1 p.2.1 p.2.2).bind _ = _
      rw [h1]
      exact u1
    · intro hg
      obtain ⟨_, e3, e4, e5⟩ := h3 hg
      have hg2 : isGoal (t.xPos, t.yPos) := by rw [e3, e4]; exact hg
      obtain ⟨g3, g4, g5⟩ := u3 hg2
      exact ⟨g3.trans e3, g4.trans e4, g5.trans e5⟩

/-- C20: in every state reached from the state after setup by loop iterations
with any sensor readings, the four goal cells have distance 0; when the robot
occupies one of them, rotateMove returns false, issues no API call and leaves
position and facing unchanged, and after any number of further loop iterations
the robot is still at the same position with the same facing. -/
theorem goal_absorbing (fuel : Nat) (hf : 256 ≤ fuel) (s0 s : State)
    (h0 : setup fuel initState = some s0) (rs : List (Bool × Bool × Bool))
    (hr : runLoop fuel s0 rs = some s) :
    ((s.mazeNodes 7 7).dist = 0 ∧ (s.mazeNodes 8 7).dist = 0 ∧
      (s.mazeNodes 7 8).dist = 0 ∧ (s.mazeNodes 8 8).dist = 0) ∧
    (isGoal (s.xPos, s.yPos) →
      (∃ t, rotateMove fuel s = some (false, t, []) ∧
        t.xPos = s.xPos ∧ t.yPos = s.yPos ∧ t.facing = s.facing) ∧
      ∀ more : List (Bool × Bool × Bool),
        ∃ t, runLoop fuel s more = some t ∧
          t.xPos = s.xPos ∧ t.yPos = s.yPos ∧ t.facing = s.facing) := by
  have hi := robotInv_setup fuel hf s0 h0
  obtain ⟨t, h1, h2, _⟩ := runLoop_inv fuel hf rs s0 hi
  rw [h1] at hr
  injection hr with hr
  subst hr
  refine ⟨⟨h2.2.2.2.2 (7, 7) (by decide), h2.2.2.2.2 (8, 7) (by decide),
    h2.2.2.2.2 (7, 8) (by decide), h2.2.2.2.2 (8, 8) (by decide)⟩, fun hg => ⟨?_, ?_⟩⟩
  · obtain ⟨b, u, acts, k1, _, k3⟩ := robotInv_rotateMove fuel hf t h2
    obtain ⟨e1, e2, e3, e4, e5⟩ := k3 hg
    subst e1
    subst e2
    exact ⟨u, k1, e3, e4, e5⟩
  · intro more
    obtain ⟨u, u1, _, u3⟩ := runLoop_inv fuel hf more t h2
    exact ⟨u, u1, u3 hg⟩

theorem goalPlan_ok : planOK descentState goalPlan = true := by
  decide

theorem startState_eq (fuel : Nat) (hf : 256 ≤ fuel) :
    startState fuel = withNodes descentState (startState fuel).mazeNodes ∧
    CoordsOK (startState fuel).mazeNodes ∧
    ∀ x, x < 16 → ∀ y, y < 16 →
      ((startState fuel).mazeNodes x y).dist = (descentState.mazeNodes x y).dist := by
  obtain ⟨r, h1, h2, h3⟩ := setup_spec fuel hf
  have e : startState fuel = withNodes initState r := by
    unfold startState
    rw [h1]
    rfl
  rw [e]
  exact ⟨rfl, h2, fun x hx y hy => h3.manhattan hx hy⟩

theorem goal_absorbing_witness :
    256 ≤ 256 ∧ setup 256 initState = some (startState 256) ∧
    runLoop 256 (startState 256) (goalPlan.map Prod.fst) =
      some (withNodes (follow descentState goalPlan) (startState 256).mazeNodes) ∧
    isGoal ((withNodes (follow descentState goalPlan) (startState 256).mazeNodes).xPos,
      (withNodes (follow descentState goalPlan) (startState 256).mazeNodes).yPos) ∧
    ∃ t, rotateMove 256
        (withNodes (follow descentState goalPlan) (startState 256).mazeNodes) =
          some (false, t, []) ∧
      t.xPos = 7 ∧ t.yPos = 7 ∧ t.facing = EAST := by
  obtain ⟨e1, e2, e3⟩ := startState_eq 256 (le_refl 256)
  have hrun : runLoop 256 (startState 256) (goalPlan.map Prod.fst) =
      some (withNodes (follow descentState goalPlan) (startState 256).mazeNodes) := by
    have := runLoop_follow 256 (startState 256).mazeNodes e2 goalPlan descentState e3
      goalPlan_ok
    rw [← e1] at this
    exact this
  have hg : isGoal ((withNodes (follow descentState goalPlan) (startState 256).mazeNodes).xPos,
      (withNodes (follow descentState goalPlan) (startState 256).mazeNodes).yPos) := by
    show isGoal ((follow descentState goalPlan).xPos, (follow descentState goalPlan).yPos)
    decide
  exact ⟨le_refl 256, (startState_spec 256 (le_refl 256)).1, hrun, hg,
    ((goal_absorbing 256 (le_refl 256) (startState 256) _
      (startState_spec 256 (le_refl 256)).1 _ hrun).2 hg).1⟩

/-! ## The log of floodFill -/

theorem assignments_append (a b : List Event) :
    assignments (a ++ b) = assignments a ++ assignments b :=
  List.filterMap_append a b asAssign

theorem visited_append (a b : List Event) : visited (a ++ b) = visited a ++ visited b :=
  List.filterMap_append a b asVisit

theorem Frame.same (m : Nodes) : Frame m m := fun _ _ => ⟨⟨rfl, rfl⟩, fun _ => rfl⟩

theorem Frame.chain {a b c : Nodes} (h1 : Frame a b) (h2 : Frame b c) : Frame a c := by
  intro x y
  obtain ⟨⟨a1, a2⟩, a3⟩ := h1 x y
  obtain ⟨⟨b1, b2⟩, b3⟩ := h2 x y
  exact ⟨⟨b1.trans a1, b2.trans a2⟩, fun h => (b3 h).trans (a3 h)⟩

theorem enqueue_frame (m : Nodes) {last n : Cell} (c : Cell) (hl : inGrid last)
    (hn : inGrid n) : Frame m (enqueue m last c n).1 := by
  intro x y
  refine ⟨enqueue_coords m last c n x y, fun hout => ?_⟩
  have h1 : ¬ (x = n.1 ∧ y = n.2) := fun e => hout ⟨by rw [e.1]; exact hn.1, by rw [e.2]; exact hn.2⟩
  have h2 : ¬ (x = last.1 ∧ y = last.2) :=
    fun e => hout ⟨by rw [e.1]; exact hl.1, by rw [e.2]; exact hl.2⟩
  show setDist (setNext m last (some n)) n _ x y = m x y
  unfold setDist
  rw [if_neg h1]
  unfold setNext
  rw [if_neg h2]

theorem LogOK.nil (r : Nodes) : LogOK [] r :=
  ⟨fun _ h => absurd h (List.not_mem_nil _), fun _ h => absurd h (List.not_mem_nil _)⟩

theorem LogOK.append {a b : List Event} {r : Nodes} (ha : LogOK a r) (hb : LogOK b r) :
    LogOK (a ++ b) r := by
  refine ⟨fun e he => ?_, fun p hp => ?_⟩
  · rcases List.mem_append.1 he with h | h
    · exact ha.1 e h
    · exact hb.1 e h
  · rw [assignments_append] at hp
    rcases List.mem_append.1 hp with h | h
    · exact ha.2 p h
    · exact hb.2 p h

theorem LogOK.mono {ev : List Event} {r s : Nodes} (h : LogOK ev r) (hm : Mono r s) :
    LogOK ev s := by
  refine ⟨h.1, fun p hp => ?_⟩
  obtain ⟨h1, h2⟩ := h.2 p hp
  refine ⟨h1, ?_⟩
  rw [(hm p.1.1 p.1.2).2 (by omega), h2]

/-- One guarded append of the loop body with its events, for any of the four
directions. -/
theorem visit_log {w : Walls} {m : Nodes} {F Pr : List Cell} {c last : Cell}
    (h : BodyInv w m F c Pr last) (g1 g2 : Prop) [Decidable g1] [Decidable g2] (n : Cell)
    (hg : g1 → g2 → Adj w c n) (st : Nodes × Cell)
    (hst : st = if g1 ∧ g2 ∧ (m n.1 n.2).dist > (m c.1 c.2).dist + 1 then
      enqueue m last c n else (m, last))
    (wi wj wk ni nj : Int) (ev : List Event)
    (hev : ev = if g1 then
        Event.wall wi wj wk ::
          (if g2 then
            Event.node ni nj ::
              (if (m n.1 n.2).dist > (m c.1 c.2).dist + 1 then
                [Event.node ni nj, Event.assign n ((m c.1 c.2).dist + 1)]
              else [])
          else [])
      else [])
    (hb1 : g1 → InBounds (Event.wall wi wj wk))
    (hb2 : g1 → g2 → InBounds (Event.node ni nj)) :
    ∃ G, BodyInv w st.1 (G ++ F) c Pr st.2 ∧ Mono m st.1 ∧ Frame m st.1 ∧
      (g1 → g2 → (st.1 n.1 n.2).dist ≤ (st.1 c.1 c.2).dist + 1) ∧
      (assignments ev).map Prod.fst = G.reverse ∧ visited ev = [] ∧ LogOK ev st.1 := by
  by_cases h1 : g1
  · by_cases h2 : g2
    · by_cases h3 : (m n.1 n.2).dist > (m c.1 c.2).dist + 1
      · rw [if_pos ⟨h1, h2, h3⟩] at hst
        rw [if_pos h1, if_pos h2, if_pos h3] at hev
        subst hst
        subst hev
        have hadj := hg h1 h2
        obtain ⟨b1, b2, b3⟩ := body_enqueue h hadj h3
        have hnL : n ∉ F ++ c :: Pr := fun hm => by have := h.le_all n hm; omega
        have h100 := (h.inv.fresh n hadj.2.1 hnL).1
        have hc := (b2 c.1 c.2).2 (by omega)
        refine ⟨[n], b1, b2, enqueue_frame m c (h.inv.grid _ h.inv.last_mem) hadj.2.1,
          fun _ _ => le_of_eq b3, rfl, rfl, ?_, ?_⟩
        · intro e he
          simp only [List.mem_cons, List.mem_singleton, List.not_mem_nil, or_false] at he
          rcases he with rfl | rfl | rfl | rfl
          · exact hb1 h1
          · exact hb2 h1 h2
          · exact hb2 h1 h2
          · exact hadj.2.1
        · intro p hp
          have hp2 : p = (n, (m c.1 c.2).dist + 1) := by
            simpa [assignments, asAssign] using hp
          subst hp2
          exact ⟨by simp only; omega, by simp only; rw [b3, hc]⟩
      · rw [if_neg (fun hh => h3 hh.2.2)] at hst
        rw [if_pos h1, if_pos h2, if_neg h3] at hev
        subst hst
        subst hev
        refine ⟨[], h, Mono.refl m, Frame.same m, fun _ _ => by simp only; omega, rfl, rfl,
          ?_, fun p hp => absurd hp (by simp [assignments, asAssign])⟩
        intro e he
        simp only [List.mem_cons, List.mem_singleton, List.not_mem_nil, or_false] at he
        rcases he with rfl | rfl
        · exact hb1 h1
        · exact hb2 h1 h2
    · rw [if_neg (fun hh => h2 hh.2.1)] at hst
      rw [if_pos h1, if_neg h2] at hev
      subst hst
      subst hev
      refine ⟨[], h, Mono.refl m, Frame.same m, fun _ hh => absurd hh h2, rfl, rfl,
        ?_, fun p hp => absurd hp (by simp [assignments, asAssign])⟩
      intro e he
      simp only [List.mem_singleton] at he
      subst he
      exact hb1 h1
  · rw [if_neg (fun hh => h1 hh.1)] at hst
    rw [if_neg h1] at hev
    subst hst
    subst hev
    exact ⟨[], h, Mono.refl m, Frame.same m, fun hh => absurd hh h1, rfl, rfl, LogOK.nil m⟩

theorem visitNorth_log {w : Walls} {st : Nodes × Cell} {F Pr : List Cell} {c : Cell}
    (h : BodyInv w st.1 F c Pr st.2) :
    ∃ G, BodyInv w (visitNorth w c st).1 (G ++ F) c Pr (visitNorth w c st).2 ∧
      Mono st.1 (visitNorth w c st).1 ∧ Frame st.1 (visitNorth w c st).1 ∧
      (1 ≤ c.2 → w c.1 c.2 1 = false →
        ((visitNorth w c st).1 c.1 (c.2 - 1)).dist ≤
          ((visitNorth w c st).1 c.1 c.2).dist + 1) ∧
      (assignments (visitNorthEvents w c st)).map Prod.fst = G.reverse ∧
      visited (visitNorthEvents w c st) = [] ∧
      LogOK (visitNorthEvents w c st) (visitNorth w c st).1 := by
  obtain ⟨hg, hx, hy⟩ := h.curr_coords
  have hg1 : c.1 < 16 := hg.1
  have hg2 : c.2 < 16 := hg.2
  refine visit_log h (1 ≤ c.2) (w c.1 c.2 1 = false) (c.1, c.2 - 1) ?_ _ ?_
    c.1 c.2 1 c.1 ((c.2 : Int) - 1) _ ?_ ?_ ?_
  · intro h1 h2
    exact ⟨hg, ⟨hg.1, by show c.2 - 1 < 16; omega⟩, Or.inl ⟨h1, h2, rfl⟩⟩
  · unfold visitNorth
    simp only [hx, hy, ge_iff_le]
  · unfold visitNorthEvents
    simp only [hx, hy, ge_iff_le]
  · intro _
    show (0 : Int) ≤ c.1 ∧ (c.1 : Int) ≤ 16 ∧ (0 : Int) ≤ c.2 ∧ (c.2 : Int) ≤ 16 ∧
      (0 : Int) ≤ 1 ∧ (1 : Int) ≤ 1
    omega
  · intro h1 _
    show (0 : Int) ≤ c.1 ∧ (c.1 : Int) < 16 ∧ (0 : Int) ≤ (c.2 : Int) - 1 ∧
      (c.2 : Int) - 1 < 16
    omega

theorem visitEast_log {w : Walls} {st : Nodes × Cell} {F Pr : List Cell} {c : Cell}
    (h : BodyInv w st.1 F c Pr st.2) :
    ∃ G, BodyInv w (visitEast w c st).1 (G ++ F) c Pr (visitEast w c st).2 ∧
      Mono st.1 (visitEast w c st).1 ∧ Frame st.1 (visitEast w c st).1 ∧
      (c.1 + 1 < MAZE_HEIGHT → w (c.1 + 1) c.2 0 = false →
        ((visitEast w c st).1 (c.1 + 1) c.2).dist ≤
          ((visitEast w c st).1 c.1 c.2).dist + 1) ∧
      (assignments (visitEastEvents w c st)).map Prod.fst = G.reverse ∧
      visited (visitEastEvents w c st) = [] ∧
      LogOK (visitEastEvents w c st) (visitEast w c st).1 := by
  obtain ⟨hg, hx, hy⟩ := h.curr_coords
  have hg1 : c.1 < 16 := hg.1
  have hg2 : c.2 < 16 := hg.2
  refine visit_log h (c.1 + 1 < MAZE_HEIGHT) (w (c.1 + 1) c.2 0 = false) (c.1 + 1, c.2) ?_ _ ?_
    ((c.1 : Int) + 1) c.2 0 ((c.1 : Int) + 1) c.2 _ ?_ ?_ ?_
  · intro h1 h2
    exact ⟨hg, ⟨h1, hg.2⟩, Or.inr (Or.inl ⟨h2, rfl⟩)⟩
  · unfold visitEast
    simp only [hx, hy]
  · unfold visitEastEvents
    simp only [hx, hy]
  · intro h1
    have h1 : c.1 + 1 < 16 := h1
    show (0 : Int) ≤ (c.1 : Int) + 1 ∧ (c.1 : Int) + 1 ≤ 16 ∧ (0 : Int) ≤ c.2 ∧
      (c.2 : Int) ≤ 16 ∧ (0 : Int) ≤ 0 ∧ (0 : Int) ≤ 1
    omega
  · intro h1 _
    have h1 : c.1 + 1 < 16 := h1
    show (0 : Int) ≤ (c.1 : Int) + 1 ∧ (c.1 : Int) + 1 < 16 ∧ (0 : Int) ≤ c.2 ∧
      (c.2 : Int) < 16
    omega

theorem visitSouth_log {w : Walls} {st : Nodes × Cell} {F Pr : List Cell} {c : Cell}
    (h : BodyInv w st.1 F c Pr st.2) :
    ∃ G, BodyInv w (visitSouth w c st).1 (G ++ F) c Pr (visitSouth w c st).2 ∧
      Mono st.1 (visitSouth w c st).1 ∧ Frame st.1 (visitSouth w c st).1 ∧
      (c.2 + 1 < MAZE_WIDTH → w c.1 (c.2 + 1) 1 = false →
        ((visitSouth w c st).1 c.1 (c.2 + 1)).dist ≤
          ((visitSouth w c st).1 c.1 c.2).dist + 1) ∧
      (assignments (visitSouthEvents w c st)).map Prod.fst = G.reverse ∧
      visited (visitSouthEvents w c st) = [] ∧
      LogOK (visitSouthEvents w c st) (visitSouth w c st).1 := by
  obtain ⟨hg, hx, hy⟩ := h.curr_coords
  have hg1 : c.1 < 16 := hg.1
  have hg2 : c.2 < 16 := hg.2
  refine visit_log h (c.2 + 1 < MAZE_WIDTH) (w c.1 (c.2 + 1) 1 = false) (c.1, c.2 + 1) ?_ _ ?_
    c.1 ((c.2 : Int) + 1) 1 c.1 ((c.2 : Int) + 1) _ ?_ ?_ ?_
  · intro h1 h2
    exact ⟨hg, ⟨hg.1, h1⟩, Or.inr (Or.inr (Or.inl ⟨h2, rfl⟩))⟩
  · unfold visitSouth
    simp only [hx, hy]
  · unfold visitSouthEvents
    simp only [hx, hy]
  · intro h1
    have h1 : c.2 + 1 < 16 := h1
    show (0 : Int) ≤ c.1 ∧ (c.1 : Int) ≤ 16 ∧ (0 : Int) ≤ (c.2 : Int) + 1 ∧
      (c.2 : Int) + 1 ≤ 16 ∧ (0 : Int) ≤ 1 ∧ (1 : Int) ≤ 1
    omega
  · intro h1 _
    have h1 : c.2 + 1 < 16 := h1
    show (0 : Int) ≤ c.1 ∧ (c.1 : Int) < 16 ∧ (0 : Int) ≤ (c.2 : Int) + 1 ∧
      (c.2 : Int) + 1 < 16
    omega

theorem visitWest_log {w : Walls} {st : Nodes × Cell} {F Pr : List Cell} {c : Cell}
    (h : BodyInv w st.1 F c Pr st.2) :
    ∃ G, BodyInv w (visitWest w c st).1 (G ++ F) c Pr (visitWest w c st).2 ∧
      Mono st.1 (visitWest w c st).1 ∧ Frame st.1 (visitWest w c st).1 ∧
      (1 ≤ c.1 → w c.1 c.2 0 = false →
        ((visitWest w c st).1 (c.1 - 1) c.2).dist ≤
          ((visitWest w c st).1 c.1 c.2).dist + 1) ∧
      (assignments (visitWestEvents w c st)).map Prod.fst = G.reverse ∧
      visited (visitWestEvents w c st) = [] ∧
      LogOK (visitWestEvents w c st) (visitWest w c st).1 := by
  obtain ⟨hg, hx, hy⟩ := h.curr_coords
  have hg1 : c.1 < 16 := hg.1
  have hg2 : c.2 < 16 := hg.2
  refine visit_log h (1 ≤ c.1) (w c.1 c.2 0 = false) (c.1 - 1, c.2) ?_ _ ?_
    c.1 c.2 0 ((c.1 : Int) - 1) c.2 _ ?_ ?_ ?_
  · intro h1 h2
    exact ⟨hg, ⟨by show c.1 - 1 < 16; omega, hg.2⟩, Or.inr (Or.inr (Or.inr ⟨h1, h2, rfl⟩))⟩
  · unfold visitWest
    simp only [hx, hy, ge_iff_le]
  · unfold visitWestEvents
    simp only [hx, hy, ge_iff_le]
  · intro _
    show (0 : Int) ≤ c.1 ∧ (c.1 : Int) ≤ 16 ∧ (0 : Int) ≤ c.2 ∧ (c.2 : Int) ≤ 16 ∧
      (0 : Int) ≤ 0 ∧ (0 : Int) ≤ 1
    omega
  · intro h1 _
    show (0 : Int) ≤ (c.1 : Int) - 1 ∧ (c.1 : Int) - 1 < 16 ∧ (0 : Int) ≤ c.2 ∧
      (c.2 : Int) < 16
    omega

/-- The body of the loop with its events: the invariant is kept, the nodes
appended are exactly the logged assignments, in order. -/
theorem floodStep_log {w : Walls} {st : Nodes × Cell} {F Pr : List Cell} {c : Cell}
    (h : BodyInv w st.1 F c Pr st.2) :
    ∃ G, BodyInv w (floodStep w c st).1 (G ++ F) c Pr (floodStep w c st).2 ∧
      Mono st.1 (floodStep w c st).1 ∧ Frame st.1 (floodStep w c st).1 ∧
      (∀ n, Adj w c n →
        ((floodStep w c st).1 n.1 n.2).dist ≤ ((floodStep w c st).1 c.1 c.2).dist + 1) ∧
      (assignments (floodStepEvents w c st)).map Prod.fst = G.reverse ∧
      visited (floodStepEvents w c st) = [] ∧
      LogOK (floodStepEvents w c st) (floodStep w c st).1 := by
  obtain ⟨G1, b1, m1, f1, e1, a1, v1, l1⟩ := visitNorth_log h
  obtain ⟨G2, b2, m2, f2, e2, a2, v2, l2⟩ := visitEast_log b1
  obtain ⟨G3, b3, m3, f3, e3, a3, v3, l3⟩ := visitSouth_log b2
  rw [← List.append_assoc] at b3
  obtain ⟨G4, b4, m4, f4, e4, a4, v4, l4⟩ := visitWest_log b3
  have c1 := (b1.inv.sound c b1.curr_mem).1
  have c2 := (b2.inv.sound c b2.curr_mem).1
  have c3 := (b3.inv.sound c b3.curr_mem).1
  refine ⟨G4 ++ (G3 ++ G2) ++ G1, ?_, (m1.trans m2).trans (m3.trans m4),
    (f1.chain f2).chain (f3.chain f4), ?_, ?_, ?_, ?_⟩
  · have e : G4 ++ (G3 ++ G2) ++ G1 ++ F = G4 ++ ((G3 ++ G2) ++ (G1 ++ F)) := by
      simp only [List.append_assoc]
    rw [e]
    exact b4
  · rintro n ⟨_, hn, hd⟩
    rcases hd with ⟨h1, h2, rfl⟩ | ⟨h2, rfl⟩ | ⟨h2, rfl⟩ | ⟨h1, h2, rfl⟩
    · exact edge_mono (c := c) (b := (c.1, c.2 - 1)) (m2.trans (m3.trans m4)) c1 (e1 h1 h2)
    · exact edge_mono (c := c) (b := (c.1 + 1, c.2)) (m3.trans m4) c2 (e2 hn.1 h2)
    · exact edge_mono (c := c) (b := (c.1, c.2 + 1)) m4 c3 (e3 hn.2 h2)
    · exact e4 h1 h2
  · unfold floodStepEvents
    simp only [assignments_append, List.map_append, a1, a2, a3, a4, List.reverse_append,
      List.append_assoc]
  · unfold floodStepEvents
    simp only [visited_append, v1, v2, v3, v4, List.append_nil]
  · unfold floodStepEvents
    exact (((l1.mono (m2.trans (m3.trans m4))).append (l2.mono (m3.trans m4))).append
      (l3.mono m4)).append l4

theorem floodLoopLog_none (w : Walls) (fuel : Nat) (m : Nodes) (last : Cell) :
    floodLoopLog w fuel m none last = some (m, []) := by
  cases fuel <;> rfl

/-- Dropping the log from the logged loop gives the loop of floodFill. -/
theorem floodLoopLog_fst (w : Walls) :
    ∀ (fuel : Nat) (m : Nodes) (curr : Option Cell) (last : Cell),
      (floodLoopLog w fuel m curr last).map Prod.fst = floodLoop w fuel m curr last := by
  intro fuel
  induction fuel with
  | zero =>
    intro m curr last
    cases curr <;> rfl
  | succ k ih =>
    intro m curr last
    cases curr with
    | none => rfl
    | some c =>
      show ((floodLoopLog w k (floodStep w c (m, last)).1
        ((floodStep w c (m, last)).1 c.1 c.2).next (floodStep w c (m, last)).2).map _).map
          Prod.fst = floodLoop w k (floodStep w c (m, last)).1
            ((floodStep w c (m, last)).1 c.1 c.2).next (floodStep w c (m, last)).2
      rw [← ih, Option.map_map]
      rfl

/-- With enough fuel the logged loop ends; the nodes it appends are the logged
assignments in order, and it visits every queued node once, in queue order. -/
theorem floodLoopLog_spec (w : Walls) :
    ∀ (fuel : Nat) (m : Nodes) (F : List Cell) (c : Cell) (Pr : List Cell) (last : Cell),
      BodyInv w m F c Pr last → AllDone w m Pr → 256 ≤ fuel + Pr.length →
      ∃ r ev G e, floodLoopLog w fuel m (some c) last = some (r, ev) ∧
        ListInv w r (G ++ F ++ c :: Pr) e ∧ AllDone w r (G ++ F ++ c :: Pr) ∧
        Mono m r ∧ Frame m r ∧
        (assignments ev).map Prod.fst = G.reverse ∧
        visited ev = c :: (G ++ F).reverse ∧ LogOK ev r := by
  intro fuel
  induction fuel with
  | zero =>
    intro m F c Pr last hB _ hf
    exfalso
    have := grid_length_le hB.inv.nodup hB.inv.grid
    simp only [List.length_append, List.length_cons] at this
    omega
  | succ k ih =>
    intro m F c Pr last hB hD hf
    have hB0 : BodyInv w ((m, last) : Nodes × Cell).1 F c Pr ((m, last) : Nodes × Cell).2 := hB
    obtain ⟨G, hB1, hM, hF, hE, hA, hV, hL⟩ := floodStep_log hB0
    have hD1 : AllDone w (floodStep w c (m, last)).1 (c :: Pr) := by
      intro p hp n hadj
      rcases List.mem_cons.1 hp with rfl | hp
      · exact hE n hadj
      · have hpL : p ∈ F ++ c :: Pr :=
          List.mem_append_right _ (List.mem_cons_of_mem _ hp)
        exact edge_mono hM (hB.inv.sound p hpL).1 (hD p hp n hadj)
    have hcin : inGrid c := hB.inv.grid c hB.curr_mem
    show ∃ r ev G e, (floodLoopLog w k (floodStep w c (m, last)).1
      ((floodStep w c (m, last)).1 c.1 c.2).next (floodStep w c (m, last)).2).map
        (fun p => (p.1, (Event.visit c :: floodStepEvents w c (m, last)) ++ p.2)) =
          some (r, ev) ∧ _
    have hhead : LogOK (Event.visit c :: floodStepEvents w c (m, last))
        (floodStep w c (m, last)).1 := by
      refine ⟨fun e he => ?_, fun p hp => ?_⟩
      · rcases List.mem_cons.1 he with rfl | he
        · exact hcin
        · exact hL.1 e he
      · exact hL.2 p (by simpa [assignments, asAssign] using hp)
    have hheadA : (assignments (Event.visit c :: floodStepEvents w c (m, last))).map Prod.fst =
        G.reverse := by
      rw [← hA]
      simp [assignments, asAssign]
    have hheadV : visited (Event.visit c :: floodStepEvents w c (m, last)) = [c] := by
      have : visited (Event.visit c :: floodStepEvents w c (m, last)) =
          c :: visited (floodStepEvents w c (m, last)) := by
        simp [visited, asVisit]
      rw [this, hV]
    rcases List.eq_nil_or_concat (G ++ F) with hnil | ⟨G1, b, hcon⟩
    · rw [hnil] at hB1
      have hl : (floodStep w c (m, last)).2 = c := by
        have := hB1.inv.lastHead
        simp only [List.nil_append, List.head?_cons, Option.some.injEq] at this
        exact this.symm
      have hnext : ((floodStep w c (m, last)).1 c.1 c.2).next = none := by
        have := hB1.inv.lastNext
        rw [hl] at this
        exact this
      obtain ⟨hG, hF0⟩ := List.append_eq_nil.1 hnil
      subst hG
      subst hF0
      rw [hnext, floodLoopLog_none]
      refine ⟨_, _, [], _, rfl, hB1.inv, hD1, hM, hF, ?_, ?_, ?_⟩
      · rw [List.append_nil]; exact hheadA
      · rw [List.append_nil]; exact hheadV
      · rw [List.append_nil]; exact hhead
    · rw [List.concat_eq_append] at hcon
      have hlist : G ++ F ++ c :: Pr = G1 ++ b :: c :: Pr := by
        rw [hcon]
        simp
      have hinv := hB1.inv
      rw [hlist] at hinv
      have hnext : ((floodStep w c (m, last)).1 c.1 c.2).next = some b :=
        (List.chain'_append_cons_cons.1 hinv.chain).2.1
      have hcb : ((floodStep w c (m, last)).1 c.1 c.2).dist ≤
          ((floodStep w c (m, last)).1 b.1 b.2).dist := by
        have hp := (List.pairwise_append.1 hinv.sorted).2.1
        exact (List.pairwise_cons.1 hp).1 c (List.mem_cons_self _ _)
      have hB2 : BodyInv w (floodStep w c (m, last)).1 G1 b (c :: Pr)
          (floodStep w c (m, last)).2 := by
        refine ⟨hinv, fun q hq => ?_⟩
        have := hB1.span q (by rw [hcon]; exact List.mem_append_left _ hq)
        omega
      obtain ⟨r, ev2, G2, e, h1, h2, h3, h4, h5, h6, h7, h8⟩ := ih _ G1 b (c :: Pr) _ hB2 hD1
        (by simp only [List.length_cons]; omega)
      rw [hnext, h1]
      have hl2 : G2 ++ G1 ++ b :: c :: Pr = (G2 ++ G) ++ F ++ c :: Pr := by
        have : G1 ++ b :: c :: Pr = G ++ F ++ c :: Pr := hlist.symm
        simp only [List.append_assoc] at this ⊢
        rw [this]
      refine ⟨r, _, G2 ++ G, e, rfl, ?_, ?_, hM.trans h4, hF.chain h5, ?_, ?_, ?_⟩
      · rw [← hl2]; exact h2
      · rw [← hl2]; exact h3
      · rw [assignments_append, List.map_append, hheadA, h6, List.reverse_append]
      · rw [visited_append, hheadV, h7]
        have : G2 ++ G ++ F = G2 ++ G1 ++ [b] := by
          rw [List.append_assoc, hcon, List.append_assoc]
        rw [this]
        simp
      · exact (hhead.mono h4).append h8

theorem seedGoals_frame (m : Nodes) : Frame m (seedGoals m).1 := by
  intro x y
  refine ⟨seedGoals_coords m x y, fun hout => ?_⟩
  have h1 : ¬ (x = 8 ∧ y = 8) := fun e => hout (by omega)
  have h2 : ¬ (x = 7 ∧ y = 8) := fun e => hout (by omega)
  have h3 : ¬ (x = 8 ∧ y = 7) := fun e => hout (by omega)
  have h4 : ¬ (x = 7 ∧ y = 7) := fun e => hout (by omega)
  rw [seedGoals_eq]
  simp only [setDist, setNext, h1, h2, h3, h4, if_false]

theorem resetNodes_frame (m : Nodes) : Frame m (resetNodes m) := by
  intro x y
  unfold resetNodes
  by_cases h : x < MAZE_WIDTH ∧ y < MAZE_HEIGHT
  · rw [if_pos h]
    exact ⟨⟨rfl, rfl⟩, fun hout => absurd h hout⟩
  · rw [if_neg h]
    exact ⟨⟨rfl, rfl⟩, fun _ => rfl⟩

theorem seedEvents_ok {r : Nodes} (h : ∀ c : Cell, isGoal c → (r c.1 c.2).dist = 0) :
    LogOK seedEvents r := by
  refine ⟨fun e he => ?_, fun p hp => ?_⟩
  · simp only [seedEvents, List.mem_cons, List.mem_singleton, List.not_mem_nil,
      or_false] at he
    rcases he with rfl | rfl | rfl | rfl | rfl | rfl | rfl | rfl | rfl | rfl | rfl | rfl |
      rfl | rfl | rfl | rfl <;> first
      | (show (0 : Int) ≤ _ ∧ _ < (16 : Int) ∧ (0 : Int) ≤ _ ∧ _ < (16 : Int); decide)
      | (show inGrid _; decide)
  · have hp2 : p = ((8, 8), 0) ∨ p = ((7, 8), 0) ∨ p = ((8, 7), 0) ∨ p = ((7, 7), 0) := by
      simpa [assignments, asAssign, seedEvents] using hp
    rcases hp2 with rfl | rfl | rfl | rfl
    · exact ⟨by decide, h (8, 8) (by decide)⟩
    · exact ⟨by decide, h (7, 8) (by decide)⟩
    · exact ⟨by decide, h (8, 7) (by decide)⟩
    · exact ⟨by decide, h (7, 7) (by decide)⟩

/-- The logged floodFill on freshly reset nodes: it ends with the result of
floodFill; every event is in bounds; every node is put in the queue at most
once, with a value below 100 that it keeps; the loop visits exactly the queued
nodes, each once and in queue order, so at most 256 of them. -/
theorem floodFillLog_spec (w : Walls) {m : Nodes} (hm : FreshNodes m) {fuel : Nat}
    (hf : 256 ≤ fuel) :
    ∃ r ev, floodFillLog fuel w m = some (r, ev) ∧ floodFill fuel w m = some r ∧
      CoordsOK r ∧ IsFloodField w r ∧ Frame m r ∧ LogOK ev r ∧
      ((assignments ev).map Prod.fst).Nodup ∧
      visited ev = (assignments ev).map Prod.fst ∧ (visited ev).length ≤ 256 := by
  have hB := seedGoals_inv w hm
  obtain ⟨r, ev, G, e, h1, h2, h3, _, h5, h6, h7, h8⟩ :=
    floodLoopLog_spec w fuel (seedGoals m).1 _ _ [] _ hB
      (fun p hp => absurd hp (List.not_mem_nil p)) (by simpa using hf)
  have hlog : floodFillLog fuel w m = some (r, seedEvents ++ ev) := by
    unfold floodFillLog
    simp only [(seedGoals_ptrs m).1, (seedGoals_ptrs m).2]
    rw [h1]
    rfl
  have hfill : floodFill fuel w m = some r := by
    have := floodLoopLog_fst w fuel (seedGoals m).1 (some (8, 8)) (7, 7)
    rw [h1] at this
    exact this.symm
  have hA : (assignments (seedEvents ++ ev)).map Prod.fst =
      (G ++ [(7, 7), (8, 7), (7, 8)] ++ [(8, 8)]).reverse := by
    rw [assignments_append, List.map_append, h6]
    simp [assignments, asAssign, seedEvents]
  have hV : visited (seedEvents ++ ev) =
      (G ++ [(7, 7), (8, 7), (7, 8)] ++ [(8, 8)]).reverse := by
    rw [visited_append, h7]
    simp [visited, asVisit, seedEvents]
  refine ⟨r, seedEvents ++ ev, hlog, hfill, h2.coords, floodField_of_done h2 h3,
    (seedGoals_frame m).chain h5, (seedEvents_ok (fun c hc => (h2.goals c hc).2)).append h8,
    ?_, ?_, ?_⟩
  · rw [hA]
    exact List.nodup_reverse.2 h2.nodup
  · rw [hA, hV]
  · rw [hV, List.length_reverse]
    exact grid_length_le h2.nodup h2.grid

theorem resetEvents_inBounds : ∀ e ∈ resetEvents, InBounds e := by
  intro e he
  simp only [resetEvents, List.mem_flatMap, List.mem_range, List.mem_cons,
    List.mem_singleton, List.not_mem_nil, or_false] at he
  obtain ⟨x, hx, y, hy, h⟩ := he
  rcases h with rfl | rfl <;>
    (show (0 : Int) ≤ x ∧ (x : Int) < 16 ∧ (0 : Int) ≤ y ∧ (y : Int) < 16; omega)

theorem setupEvents_inBounds : ∀ e ∈ setupEvents, InBounds e := by
  intro e he
  simp only [setupEvents, List.mem_flatMap, List.mem_range, List.mem_cons,
    List.mem_singleton, List.not_mem_nil, or_false] at he
  obtain ⟨x, hx, y, hy, h⟩ := he
  rcases h with rfl | rfl | rfl | rfl <;>
    (show (0 : Int) ≤ x ∧ (x : Int) < 16 ∧ (0 : Int) ≤ y ∧ (y : Int) < 16; omega)

theorem resetEvents_assignments : assignments resetEvents = [] ∧ visited resetEvents = [] := by
  constructor
  · unfold assignments
    rw [List.filterMap_eq_nil_iff]
    intro e he
    simp only [resetEvents, List.mem_flatMap, List.mem_range, List.mem_cons,
      List.mem_singleton, List.not_mem_nil, or_false] at he
    obtain ⟨x, _, y, _, h⟩ := he
    rcases h with rfl | rfl <;> rfl
  · unfold visited
    rw [List.filterMap_eq_nil_iff]
    intro e he
    simp only [resetEvents, List.mem_flatMap, List.mem_range, List.mem_cons,
      List.mem_singleton, List.not_mem_nil, or_false] at he
    obtain ⟨x, _, y, _, h⟩ := he
    rcases h with rfl | rfl <;> rfl

/-- The logged recalcMaze: the result of recalcMaze with a log whose events are
all in bounds. -/
theorem recalcMazeLog_spec (w : Walls) {m : Nodes} (hm : CoordsOK m) {fuel : Nat}
    (hf : 256 ≤ fuel) :
    ∃ r ev, recalcMazeLog fuel w m = some (r, ev) ∧ recalcMaze fuel w m = some r ∧
      CoordsOK r ∧ IsFloodField w r ∧ Frame m r ∧ LogOK ev r ∧
      ((assignments ev).map Prod.fst).Nodup ∧
      visited ev = (assignments ev).map Prod.fst ∧ (visited ev).length ≤ 256 := by
  obtain ⟨r, ev, h1, h2, h3, h4, h5, h6, h7, h8, h9⟩ :=
    floodFillLog_spec w (resetNodes_fresh hm) hf
  have hA : assignments (resetEvents ++ ev) = assignments ev := by
    rw [assignments_append, resetEvents_assignments.1, List.nil_append]
  have hV : visited (resetEvents ++ ev) = visited ev := by
    rw [visited_append, resetEvents_assignments.2, List.nil_append]
  refine ⟨r, resetEvents ++ ev, ?_, h2, h3, h4, (resetNodes_frame m).chain h5, ?_, ?_, ?_, ?_⟩
  · unfold recalcMazeLog
    rw [h1]
    rfl
  · refine ⟨fun e he => ?_, fun p hp => ?_⟩
    · rcases List.mem_append.1 he with h | h
      · exact resetEvents_inBounds e h
      · exact h6.1 e h
    · rw [hA] at hp
      exact h6.2 p hp
  · rw [hA]; exact h7
  · rw [hA, hV]; exact h8
  · rw [hV]; exact h9

/-- Running recalcMaze on its own result gives the same node array again. -/
theorem recalcMaze_fixed (w : Walls) {m r : Nodes} (hm : CoordsOK m) {fuel : Nat}
    (hf : 256 ≤ fuel) (h : recalcMaze fuel w m = some r) : recalcMaze fuel w r = some r := by
  obtain ⟨q, ev, _, h2, _, _, h5, _⟩ := recalcMazeLog_spec w hm hf
  rw [h] at h2
  injection h2 with h2
  subst h2
  have e : resetNodes r = resetNodes m := by
    funext x y
    unfold resetNodes
    obtain ⟨⟨a1, a2⟩, a3⟩ := h5 x y
    by_cases hin : x < MAZE_WIDTH ∧ y < MAZE_HEIGHT
    · rw [if_pos hin, if_pos hin]
      show ({ x := (r x y).x, y := (r x y).y, dist := 100 % 256, next := none } : Node) =
        { x := (m x y).x, y := (m x y).y, dist := 100 % 256, next := none }
      rw [a1, a2]
    · rw [if_neg hin, if_neg hin]
      exact a3 hin
  unfold recalcMaze
  rw [e]
  exact h

/-! ## Claims about repeated and logged recomputation -/

/-- C14 (P3): for every wall store and every prior node array (any distances, any
stale queue links), recalcMaze terminates and running it again on its own
result yields the same node array, hence the same distance field; a run from
any other prior node array yields the same distance field as well, so the
field depends only on the wall store. -/
theorem recalcMaze_idempotent (fuel : Nat) (hf : 256 ≤ fuel) (w : Walls) (m n : Nodes)
    (hm : CoordsOK m) (hn : CoordsOK n) :
    ∃ r q, recalcMaze fuel w m = some r ∧ recalcMaze fuel w r = some r ∧
      recalcMaze fuel w n = some q ∧
      ∀ x, x < 16 → ∀ y, y < 16 → (q x y).dist = (r x y).dist := by
  obtain ⟨r, h1, _, h3⟩ := recalcMaze_spec w hm hf
  obtain ⟨q, k1, _, k3⟩ := recalcMaze_spec w hn hf
  exact ⟨r, q, h1, recalcMaze_fixed w hm hf h1, k1, fun x hx y hy => k3.unique h3 hx hy⟩

theorem recalcMaze_idempotent_witness :
    256 ≤ 256 ∧ CoordsOK gridNodes ∧ CoordsOK manhattanNodes ∧
    ∃ r q, recalcMaze 256 snakeWalls gridNodes = some r ∧
      recalcMaze 256 snakeWalls r = some r ∧
      recalcMaze 256 snakeWalls manhattanNodes = some q ∧
      ∀ x, x < 16 → ∀ y, y < 16 → (q x y).dist = (r x y).dist :=
  ⟨le_refl 256, gridNodes_coords, manhattanNodes_coords,
    recalcMaze_idempotent 256 (le_refl 256) snakeWalls gridNodes manhattanNodes
      gridNodes_coords manhattanNodes_coords⟩

theorem floodFillLog_seed {fuel : Nat} {w : Walls} {m r : Nodes} {ev : List Event}
    (h : floodFillLog fuel w m = some (r, ev)) :
    ∃ rest, ev = seedEvents ++ rest ∧
      assignments ev =
        [((8, 8), 0), ((7, 8), 0), ((8, 7), 0), ((7, 7), 0)] ++ assignments rest := by
  unfold floodFillLog at h
  simp only [Option.map_eq_some', Prod.mk.injEq] at h
  obtain ⟨p, _, _, hp⟩ := h
  refine ⟨p.2, hp.symm, ?_⟩
  rw [← hp, assignments_append]
  rfl

/-- C15: for every wall store, floodFill started from a freshly reset node array
terminates; in the log of the run no node is put in the queue or given a
distance more than once (the four seeds, logged first, included), every node
still holds at the end the value it was given, the loop processes exactly the
queued nodes, each once and in queue order, and so at most 256 nodes. -/
theorem floodFill_assigns_once (fuel : Nat) (hf : 256 ≤ fuel) (w : Walls) (m : Nodes)
    (hm : FreshNodes m) :
    ∃ r ev rest, floodFillLog fuel w m = some (r, ev) ∧ floodFill fuel w m = some r ∧
      assignments ev =
        [((8, 8), 0), ((7, 8), 0), ((8, 7), 0), ((7, 7), 0)] ++ assignments rest ∧
      ((assignments ev).map Prod.fst).Nodup ∧
      (∀ p ∈ assignments ev, (r p.1.1 p.1.2).dist = p.2) ∧
      visited ev = (assignments ev).map Prod.fst ∧
      (visited ev).length ≤ 256 := by
  obtain ⟨r, ev, h1, h2, _, _, _, h6, h7, h8, h9⟩ := floodFillLog_spec w hm hf
  obtain ⟨rest, _, hr⟩ := floodFillLog_seed h1
  exact ⟨r, ev, rest, h1, h2, hr, h7, fun p hp => (h6.2 p hp).2, h8, h9⟩

theorem floodFill_assigns_once_witness :
    256 ≤ 256 ∧ FreshNodes gridNodes ∧
    ∃ r ev rest, floodFillLog 256 snakeWalls gridNodes = some (r, ev) ∧
      floodFill 256 snakeWalls gridNodes = some r ∧
      assignments ev =
        [((8, 8), 0), ((7, 8), 0), ((8, 7), 0), ((7, 7), 0)] ++ assignments rest ∧
      ((assignments ev).map Prod.fst).Nodup ∧
      (∀ p ∈ assignments ev, (r p.1.1 p.1.2).dist = p.2) ∧
      visited ev = (assignments ev).map Prod.fst ∧
      (visited ev).length ≤ 256 :=
  ⟨le_refl 256, setupNodes_fresh _,
    floodFill_assigns_once 256 (le_refl 256) snakeWalls gridNodes (setupNodes_fresh _)⟩

/-- C17: for every wall store, recalcMaze terminates and the distance of every
cell of the grid equals min(100, d) where d is its true shortest hop count to
the nearest goal cell, and 100 when the cell is not connected to the goal; every
value written to a distance during the run is below 100, hence inside the 8-bit
range, every node whose `dist + 1` is computed (a node visited by the loop) has
distance below 100, and no distance in the result exceeds 100. -/
theorem recalcMaze_saturating (fuel : Nat) (hf : 256 ≤ fuel) (w : Walls) (m : Nodes)
    (hm : CoordsOK m) :
    ∃ r ev, recalcMazeLog fuel w m = some (r, ev) ∧ recalcMaze fuel w m = some r ∧
      (∀ x, x < 16 → ∀ y, y < 16 →
        (∀ d, IsShortest w x y d → (r x y).dist = min 100 d) ∧
        (¬ Connected w x y → (r x y).dist = 100) ∧
        (r x y).dist ≤ 100) ∧
      (∀ p ∈ assignments ev, p.2 < 100 ∧ p.2 < 256 ∧ p.2 % 256 = p.2) ∧
      (∀ c ∈ visited ev, (r c.1 c.2).dist + 1 ≤ 100) := by
  obtain ⟨r, ev, h1, h2, _, h4, _, h6, _, h8, _⟩ := recalcMazeLog_spec w hm hf
  refine ⟨r, ev, h1, h2, fun x hx y hy => ⟨fun d hd => ?_, fun hc => ?_, (h4 x hx y hy).1⟩,
    fun p hp => ?_, fun c hc => ?_⟩
  · rw [h4.dist_eq_min hx hy hd, Nat.min_comm]
  · exact h4.dist_of_not_connected hx hy hc
  · have := (h6.2 p hp).1
    exact ⟨this, by omega, Nat.mod_eq_of_lt (by omega)⟩
  · rw [h8] at hc
    obtain ⟨p, hp, rfl⟩ := List.mem_map.1 hc
    obtain ⟨a1, a2⟩ := h6.2 p hp
    omega

theorem recalcMaze_saturating_witness :
    256 ≤ 256 ∧ CoordsOK gridNodes ∧
    ∃ r ev, recalcMazeLog 256 snakeWalls gridNodes = some (r, ev) ∧
      recalcMaze 256 snakeWalls gridNodes = some r ∧
      (r 0 0).dist = min 100 119 ∧
      (∀ p ∈ assignments ev, p.2 < 100 ∧ p.2 < 256 ∧ p.2 % 256 = p.2) ∧
      (∀ c ∈ visited ev, (r c.1 c.2).dist + 1 ≤ 100) := by
  refine ⟨le_refl 256, gridNodes_coords, ?_⟩
  obtain ⟨r, ev, h1, h2, h3, h4, h5⟩ :=
    recalcMaze_saturating 256 (le_refl 256) snakeWalls gridNodes gridNodes_coords
  exact ⟨r, ev, h1, h2,
    (h3 0 (by decide) 0 (by decide)).1 119
      (isShortest_of_cert snake_descent snake_lipschitz (x := 0) (y := 0) (by decide)
        (by decide)), h4, h5⟩

/-! ## Claim about the stuck cycle -/

theorem State.eq_of_fields {a b : State} (h1 : a.mazeNodes = b.mazeNodes)
    (h2 : a.mazeWalls = b.mazeWalls) (h3 : a.facing = b.facing) (h4 : a.xPos = b.xPos)
    (h5 : a.yPos = b.yPos) : a = b := by
  cases a
  cases b
  simp only at h1 h2 h3 h4 h5
  subst h1
  subst h2
  subst h3
  subst h4
  subst h5
  rfl

/-- Readings that agree with the stored flags leave the globals as they are. -/
theorem updateWalls_same (s : State) (hv : validFacing s.facing) (wl wf wr : Bool)
    (hl : wl = wallAt s.mazeWalls (boundaryFlag (leftOf s.facing) s.xPos s.yPos))
    (hf : wf = wallAt s.mazeWalls (boundaryFlag s.facing s.xPos s.yPos))
    (hr : wr = wallAt s.mazeWalls (boundaryFlag (rightOf s.facing) s.xPos s.yPos)) :
    (updateWalls s wl wf wr).1 = s := by
  obtain ⟨f1, f2, f3, f4⟩ := updateWalls_frame s wl wf wr
  refine State.eq_of_fields f1 ?_ f2 f3 f4
  funext x y o
  rw [updateWalls_apply s wl wf wr hv]
  split_ifs with a b c
  · rw [hr, ← a]; rfl
  · rw [hf, ← b]; rfl
  · rw [hl, ← c]; rfl
  · rfl

/-- In a flood-fill field no direction is eligible at a cell that is not
connected to the goal. -/
theorem not_eligible_of_disconnected (s : State)
    (hfld : IsFloodField s.mazeWalls s.mazeNodes) (hx : s.xPos < 16) (hy : s.yPos < 16)
    (hdis : ¬ Connected s.mazeWalls s.xPos s.yPos) :
    ∀ d, validFacing d → ¬ eligible s d := by
  have h100 := hfld.dist_of_not_connected hx hy hdis
  have key : ∀ n : Cell, Adj s.mazeWalls (s.xPos, s.yPos) n →
      ¬ (s.mazeNodes n.1 n.2).dist < (s.mazeNodes s.xPos s.yPos).dist := by
    intro n hadj hlt
    rw [h100] at hlt
    have hr := (hfld n.1 hadj.2.1.1 n.2 hadj.2.1.2).2.1 hlt
    exact hdis ⟨_, (reachIn_succ s.mazeWalls _ s.xPos s.yPos).2 ⟨n, hadj, hr⟩⟩
  have hg : inGrid (s.xPos, s.yPos) := ⟨hx, hy⟩
  intro d hv he
  rcases hv with h | h | h | h <;> subst h
  · obtain ⟨a, b, c⟩ := (eligible_north s).1 he
    exact key (s.xPos, s.yPos - 1) ⟨hg, ⟨hx, by show s.yPos - 1 < 16; omega⟩,
      Or.inl ⟨b, a, rfl⟩⟩ c
  · obtain ⟨a, b, c⟩ := (eligible_east s).1 he
    exact key (s.xPos + 1, s.yPos) ⟨hg, ⟨b, hy⟩, Or.inr (Or.inl ⟨a, rfl⟩)⟩ c
  · obtain ⟨a, b, c⟩ := (eligible_south s).1 he
    exact key (s.xPos, s.yPos + 1) ⟨hg, ⟨hx, b⟩, Or.inr (Or.inr (Or.inl ⟨a, rfl⟩))⟩ c
  · obtain ⟨a, b, c⟩ := (eligible_west s).1 he
    exact key (s.xPos - 1, s.yPos) ⟨hg, ⟨by show s.xPos - 1 < 16; omega, hy⟩,
      Or.inr (Or.inr (Or.inr ⟨b, a, rfl⟩))⟩ c

/-- One iteration from a freshly recomputed field at a cell cut off from the
goal, with readings that agree with the stored flags, returns the same globals. -/
theorem loop_stuck_same (fuel : Nat) (hf : 256 ≤ fuel) (s : State) (m : Nodes)
    (hm : CoordsOK m) (hfield : recalcMaze fuel s.mazeWalls m = some s.mazeNodes)
    (hx : s.xPos < 16) (hy : s.yPos < 16) (hv : validFacing s.facing)
    (hdis : ¬ Connected s.mazeWalls s.xPos s.yPos) (wl wf wr : Bool)
    (hl : wl = wallAt s.mazeWalls (boundaryFlag (leftOf s.facing) s.xPos s.yPos))
    (hfr : wf = wallAt s.mazeWalls (boundaryFlag s.facing s.xPos s.yPos))
    (hr : wr = wallAt s.mazeWalls (boundaryFlag (rightOf s.facing) s.xPos s.yPos)) :
    rotateMove fuel (updateWalls s wl wf wr).1 = some (false, s, []) ∧
    loop fuel s wl wf wr = some (s, (updateWalls s wl wf wr).2) := by
  obtain ⟨r, k1, k2, k3⟩ := recalcMaze_spec s.mazeWalls hm hf
  rw [hfield] at k1
  injection k1 with k1
  subst k1
  have hsame := updateWalls_same s hv wl wf wr hl hfr hr
  have hfix := recalcMaze_fixed s.mazeWalls hm hf hfield
  have hrm : rotateMove fuel s = some (false, s, []) := by
    rcases rotateMove_outcome fuel hf s k2 hx hy with ⟨d, hd, he, _⟩ | ⟨_, q, q1, _, _, q4⟩
    · exact absurd he (not_eligible_of_disconnected s k3 hx hy hdis d hd)
    · rw [hfix] at q1
      injection q1 with q1
      subst q1
      exact q4
  constructor
  · rw [hsame]; exact hrm
  · unfold loop
    simp only [hsame, hrm, Option.map_some', List.append_nil]

/-- C19: let the robot stand on a cell of the grid that is not connected to any
goal cell through in-grid wall-free boundaries, with the node array freshly
computed by recalcMaze for the wall store, and let the three readings agree with
the stored flags of the left, front and right boundary. Then one loop iteration
terminates, its rotateMove returns false, it issues no turn and no move, and it
leaves the globals (wall store, node array, position, facing) unchanged; so
does every number of further iterations with these readings. -/
theorem stuck_cycle (fuel : Nat) (hf : 256 ≤ fuel) (s : State) (m : Nodes)
    (hm : CoordsOK m) (hfield : recalcMaze fuel s.mazeWalls m = some s.mazeNodes)
    (hx : s.xPos < 16) (hy : s.yPos < 16) (hv : validFacing s.facing)
    (hdis : ¬ Connected s.mazeWalls s.xPos s.yPos) (wl wf wr : Bool)
    (hl : wl = wallAt s.mazeWalls (boundaryFlag (leftOf s.facing) s.xPos s.yPos))
    (hfr : wf = wallAt s.mazeWalls (boundaryFlag s.facing s.xPos s.yPos))
    (hr : wr = wallAt s.mazeWalls (boundaryFlag (rightOf s.facing) s.xPos s.yPos)) :
    rotateMove fuel (updateWalls s wl wf wr).1 = some (false, s, []) ∧
    (∃ acts, loop fuel s wl wf wr = some (s, acts) ∧ motions acts = []) ∧
    ∀ k, runLoop fuel s (List.replicate k (wl, wf, wr)) = some s := by
  obtain ⟨h1, h2⟩ := loop_stuck_same fuel hf s m hm hfield hx hy hv hdis wl wf wr hl hfr hr
  refine ⟨h1, ⟨_, h2, motions_updateWalls s wl wf wr⟩, fun k => ?_⟩
  induction k with
  | zero => rfl
  | succ k ih =>
    show (loop fuel s wl wf wr).bind (fun t => runLoop fuel t.1 (List.replicate k (wl, wf, wr)))
      = some s
    rw [h2]
    exact ih

theorem sealedState_field :
    recalcMaze 256 sealedState.mazeWalls gridNodes = some sealedState.mazeNodes := by
  obtain ⟨r, h1, _, _⟩ := recalcMaze_spec sealedWalls gridNodes_coords (le_refl 256)
  show recalcMaze 256 sealedWalls gridNodes =
    some ((recalcMaze 256 sealedWalls gridNodes).getD gridNodes)
  rw [h1]
  rfl

theorem sealedState_cut : ¬ Connected sealedState.mazeWalls sealedState.xPos sealedState.yPos :=
  fun ⟨k, hk⟩ => absurd (goalSealed_closed sealedWalls_sealed k 0 0 hk) (by decide)

theorem stuck_cycle_witness :
    256 ≤ 256 ∧ CoordsOK gridNodes ∧
    recalcMaze 256 sealedState.mazeWalls gridNodes = some sealedState.mazeNodes ∧
    sealedState.xPos < 16 ∧ sealedState.yPos < 16 ∧ validFacing sealedState.facing ∧
    ¬ Connected sealedState.mazeWalls sealedState.xPos sealedState.yPos ∧
    rotateMove 256 (updateWalls sealedState false false false).1 =
      some (false, sealedState, []) ∧
    (∃ acts, loop 256 sealedState false false false = some (sealedState, acts) ∧
      motions acts = []) ∧
    ∀ k, runLoop 256 sealedState (List.replicate k (false, false, false)) =
      some sealedState :=
  ⟨le_refl 256, gridNodes_coords, sealedState_field, by decide, by decide, by decide,
    sealedState_cut,
    stuck_cycle 256 (le_refl 256) sealedState gridNodes gridNodes_coords sealedState_field
      (by decide) (by decide) (by decide) sealedState_cut false false false rfl rfl rfl⟩

/-! ## Claim about array bounds -/

theorem floodFillLog_fst (fuel : Nat) (w : Walls) (m : Nodes) :
    (floodFillLog fuel w m).map Prod.fst = floodFill fuel w m := by
  unfold floodFillLog floodFill
  simp only [Option.map_map]
  exact floodLoopLog_fst w fuel _ _ _

theorem recalcMazeLog_fst (fuel : Nat) (w : Walls) (m : Nodes) :
    (recalcMazeLog fuel w m).map Prod.fst = recalcMaze fuel w m := by
  unfold recalcMazeLog recalcMaze
  simp only [Option.map_map]
  exact floodFillLog_fst fuel w _

/-- The event function of rotateMove yields a log exactly when rotateMove
returns. -/
theorem rotateMoveEvents_isSome (fuel : Nat) (s : State) :
    (rotateMoveEvents fuel s).isSome = (rotateMove fuel s).isSome := by
  unfold rotateMoveEvents rotateMove
  simp only
  split_ifs
  · rfl
  · rfl
  · rfl
  · rfl
  · rw [← recalcMazeLog_fst]
    cases recalcMazeLog fuel s.mazeWalls s.mazeNodes <;> rfl

theorem updateWallsEvents_ok (s : State) (hx : s.xPos < 16) (hy : s.yPos < 16) :
    ∀ e ∈ updateWallsEvents s, InBounds e := by
  intro e he
  unfold updateWallsEvents at he
  split_ifs at he <;>
    simp only [List.mem_cons, List.mem_singleton, List.not_mem_nil, or_false] at he
  all_goals
    rcases he with rfl | rfl | rfl <;>
      (show (0 : Int) ≤ _ ∧ _ ≤ (16 : Int) ∧ (0 : Int) ≤ _ ∧ _ ≤ (16 : Int) ∧
        (0 : Int) ≤ _ ∧ _ ≤ (1 : Int); omega)

theorem hereEvents_ok (s : State) (hx : s.xPos < 16) (hy : s.yPos < 16) :
    ∀ e ∈ [Event.node s.xPos s.yPos], InBounds e := by
  intro e he
  rw [List.mem_singleton] at he
  subst he
  show (0 : Int) ≤ s.xPos ∧ (s.xPos : Int) < 16 ∧ (0 : Int) ≤ s.yPos ∧ (s.yPos : Int) < 16
  omega

theorem southEvents_ok (s : State) (hx : s.xPos < 16) (hy : s.yPos < 16) :
    ∀ e ∈ southEvents s, InBounds e := by
  intro e he
  unfold southEvents at he
  rcases List.mem_cons.1 he with rfl | he
  · show (0 : Int) ≤ s.xPos ∧ (s.xPos : Int) ≤ 16 ∧ (0 : Int) ≤ (s.yPos : Int) + 1 ∧
      (s.yPos : Int) + 1 ≤ 16 ∧ (0 : Int) ≤ 1 ∧ (1 : Int) ≤ 1
    omega
  · split_ifs at he with h
    · rw [List.mem_singleton] at he
      subst he
      have h2 : s.yPos + 1 < 16 := h.2
      show (0 : Int) ≤ s.xPos ∧ (s.xPos : Int) < 16 ∧ (0 : Int) ≤ (s.yPos : Int) + 1 ∧
        (s.yPos : Int) + 1 < 16
      omega
    · exact absurd he (List.not_mem_nil _)

theorem eastEvents_ok (s : State) (hx : s.xPos < 16) (hy : s.yPos < 16) :
    ∀ e ∈ eastEvents s, InBounds e := by
  intro e he
  unfold eastEvents at he
  rcases List.mem_cons.1 he with rfl | he
  · show (0 : Int) ≤ (s.xPos : Int) + 1 ∧ (s.xPos : Int) + 1 ≤ 16 ∧ (0 : Int) ≤ s.yPos ∧
      (s.yPos : Int) ≤ 16 ∧ (0 : Int) ≤ 0 ∧ (0 : Int) ≤ 1
    omega
  · split_ifs at he with h
    · rw [List.mem_singleton] at he
      subst he
      have h2 : s.xPos + 1 < 16 := h.2
      show (0 : Int) ≤ (s.xPos : Int) + 1 ∧ (s.xPos : Int) + 1 < 16 ∧ (0 : Int) ≤ s.yPos ∧
        (s.yPos : Int) < 16
      omega
    · exact absurd he (List.not_mem_nil _)

theorem westEvents_ok (s : State) (hc : CoordsOK s.mazeNodes) (hx : s.xPos < 16)
    (hy : s.yPos < 16) : ∀ e ∈ westEvents s, InBounds e := by
  intro e he
  have hcx := (hc s.xPos hx s.yPos hy).1
  unfold westEvents at he
  rw [hcx] at he
  rcases List.mem_cons.1 he with rfl | he
  · show (0 : Int) ≤ s.xPos ∧ (s.xPos : Int) ≤ 16 ∧ (0 : Int) ≤ s.yPos ∧
      (s.yPos : Int) ≤ 16 ∧ (0 : Int) ≤ 0 ∧ (0 : Int) ≤ 1
    omega
  · split_ifs at he with h1 h2
    · rcases List.mem_cons.1 he with rfl | he
      · exact hereEvents_ok s hx hy _ (List.mem_singleton.2 rfl)
      · rw [List.mem_singleton] at he
        subst he
        show (0 : Int) ≤ (s.xPos : Int) - 1 ∧ (s.xPos : Int) - 1 < 16 ∧
          (0 : Int) ≤ s.yPos ∧ (s.yPos : Int) < 16
        omega
    · rw [List.mem_singleton] at he
      subst he
      exact hereEvents_ok s hx hy _ (List.mem_singleton.2 rfl)
    · exact absurd he (List.not_mem_nil _)

theorem northEvents_ok (s : State) (hc : CoordsOK s.mazeNodes) (hx : s.xPos < 16)
    (hy : s.yPos < 16) : ∀ e ∈ northEvents s, InBounds e := by
  intro e he
  have hcy := (hc s.xPos hx s.yPos hy).2
  unfold northEvents at he
  rw [hcy] at he
  rcases List.mem_cons.1 he with rfl | he
  · show (0 : Int) ≤ s.xPos ∧ (s.xPos : Int) ≤ 16 ∧ (0 : Int) ≤ s.yPos ∧
      (s.yPos : Int) ≤ 16 ∧ (0 : Int) ≤ 1 ∧ (1 : Int) ≤ 1
    omega
  · split_ifs at he with h1 h2
    · rcases List.mem_cons.1 he with rfl | he
      · exact hereEvents_ok s hx hy _ (List.mem_singleton.2 rfl)
      · rw [List.mem_singleton] at he
        subst he
        show (0 : Int) ≤ s.xPos ∧ (s.xPos : Int) < 16 ∧
          (0 : Int) ≤ (s.yPos : Int) - 1 ∧ (s.yPos : Int) - 1 < 16
        omega
    · rw [List.mem_singleton] at he
      subst he
      exact hereEvents_ok s hx hy _ (List.mem_singleton.2 rfl)
    · exact absurd he (List.not_mem_nil _)

theorem inBounds_append {a b : List Event} (ha : ∀ e ∈ a, InBounds e)
    (hb : ∀ e ∈ b, InBounds e) : ∀ e ∈ a ++ b, InBounds e := by
  intro e he
  rcases List.mem_append.1 he with h | h
  · exact ha e h
  · exact hb e h

theorem rotateMoveEvents_ok (fuel : Nat) (hf : 256 ≤ fuel) (s : State)
    (hc : CoordsOK s.mazeNodes) (hx : s.xPos < 16) (hy : s.yPos < 16) :
    ∃ ev, rotateMoveEvents fuel s = some ev ∧ ∀ e ∈ ev, InBounds e := by
  have h0 := hereEvents_ok s hx hy
  have hS := southEvents_ok s hx hy
  have hE := eastEvents_ok s hx hy
  have hW := westEvents_ok s hc hx hy
  have hN := northEvents_ok s hc hx hy
  unfold rotateMoveEvents
  simp only
  split_ifs
  · exact ⟨_, rfl, inBounds_append h0 hS⟩
  · exact ⟨_, rfl, inBounds_append (inBounds_append h0 hS) hE⟩
  · exact ⟨_, rfl, inBounds_append (inBounds_append (inBounds_append h0 hS) hE) hW⟩
  · exact ⟨_, rfl,
      inBounds_append (inBounds_append (inBounds_append (inBounds_append h0 hS) hE) hW) hN⟩
  · obtain ⟨r, ev, h1, _, _, _, _, h6, _⟩ := recalcMazeLog_spec s.mazeWalls hc hf
    rw [h1]
    exact ⟨_, rfl, inBounds_append
      (inBounds_append (inBounds_append (inBounds_append (inBounds_append h0 hS) hE) hW) hN)
      h6.1⟩

theorem setupMazeLog_ok (fuel : Nat) (hf : 256 ≤ fuel) (w : Walls) (m : Nodes) :
    ∃ r ev, setupMazeLog fuel w m = some (r, ev) ∧ setupMaze fuel w m = some r ∧
      ∀ e ∈ ev, InBounds e := by
  obtain ⟨r, ev, h1, h2, _, _, _, h6, _⟩ := floodFillLog_spec w (setupNodes_fresh m) hf
  refine ⟨r, setupEvents ++ ev, ?_, h2, inBounds_append setupEvents_inBounds h6.1⟩
  unfold setupMazeLog
  rw [h1]
  rfl

/-- C12: for every wall store, every node array whose nodes carry their
coordinates and every robot position with xPos < 16 and yPos < 16, every array
indexing logged for setupMaze, recalcMaze (the reset loops and floodFill),
updateWalls and rotateMove is within bounds: node indices from 0 to 15, wall
cell indices from 0 to 16 with last index 0 or 1; in particular the node of a
neighbour outside the grid is never indexed. The logged runs terminate with the
results of the functions themselves. -/
theorem accesses_in_bounds (fuel : Nat) (hf : 256 ≤ fuel) (s : State)
    (hc : CoordsOK s.mazeNodes) (hx : s.xPos < 16) (hy : s.yPos < 16) :
    (∃ r ev, recalcMazeLog fuel s.mazeWalls s.mazeNodes = some (r, ev) ∧
      recalcMaze fuel s.mazeWalls s.mazeNodes = some r ∧ ∀ e ∈ ev, InBounds e) ∧
    (∃ r ev, setupMazeLog fuel s.mazeWalls s.mazeNodes = some (r, ev) ∧
      setupMaze fuel s.mazeWalls s.mazeNodes = some r ∧ ∀ e ∈ ev, InBounds e) ∧
    (∀ e ∈ updateWallsEvents s, InBounds e) ∧
    (∃ ev, rotateMoveEvents fuel s = some ev ∧
      (rotateMove fuel s).isSome = true ∧ ∀ e ∈ ev, InBounds e) := by
  obtain ⟨r, ev, h1, h2, _, _, _, h6, _⟩ := recalcMazeLog_spec s.mazeWalls hc hf
  obtain ⟨ev2, k1, k2⟩ := rotateMoveEvents_ok fuel hf s hc hx hy
  refine ⟨⟨r, ev, h1, h2, h6.1⟩, setupMazeLog_ok fuel hf _ _, updateWallsEvents_ok s hx hy,
    ev2, k1, ?_, k2⟩
  rw [← rotateMoveEvents_isSome, k1]
  rfl

theorem accesses_in_bounds_witness :
    256 ≤ 256 ∧ CoordsOK stuckState.mazeNodes ∧ stuckState.xPos < 16 ∧
    stuckState.yPos < 16 ∧
    (∀ e ∈ updateWallsEvents stuckState, InBounds e) ∧
    ∃ ev, rotateMoveEvents 256 stuckState = some ev ∧
      (rotateMove 256 stuckState).isSome = true ∧ ∀ e ∈ ev, InBounds e :=
  ⟨le_refl 256, manhattanNodes_coords, by decide, by decide,
    (accesses_in_bounds 256 (le_refl 256) stuckState manhattanNodes_coords (by decide)
      (by decide)).2.2.1,
    (accesses_in_bounds 256 (le_refl 256) stuckState manhattanNodes_coords (by decide)
      (by decide)).2.2.2⟩

end Micromouse
